import Mathlib

/-!
# radioshark: frequency codec, command packets and the validate/apply workflow

A shallow embedding of `shark.go` (package `radioshark`) and of the configuration
server in `cmd/rsharkd/rsharkd.go`.

* Go `error` values are `Option`s of an error type (`none` is `nil`).
* `uint8` and `uint16` values are natural numbers, reduced modulo `2 ^ 8` and
  `2 ^ 16` where the Go code converts or may overflow.
* `float32` and `float64` values are dyadic rationals `m * 2 ^ e` together with
  NaN and the infinities; every arithmetic operation is the exact rational
  operation followed by IEEE-754 rounding to nearest, ties to even.
* The USB device and the configuration file are explicit state: a log of what
  was written and a script of the outcomes of the writes still to come.
-/

namespace Radioshark

deriving instance DecidableEq for Except

/-! ## Errors -/

/-- The two causes a `*strconv.NumError` can carry. -/
inductive NumErrCause
  | invalid
  | outOfRange
  deriving DecidableEq, Repr

/-- Error values that are not aggregates: `errors.New` values, `*strconv.NumError`
values, and errors returned by external collaborators (the HID transport, the
file system, the JSON encoder). -/
inductive LeafError
  | errorString (s : String)
  | numError (func num : String) (cause : NumErrCause)
  | external (msg : String)
  deriving DecidableEq, Repr

/-- `strconv.ErrSyntax.Error()` and `strconv.ErrRange.Error()`. -/
def NumErrCause.Error : NumErrCause → String
  | .invalid => "invalid syntax"
  | .outOfRange => "value out of range"

/-- Double-quoted form of the operand in a `NumError` message (`strconv.Quote`);
escaping of quotes, backslashes and non-printable characters inside the
operand is left out. -/
def quote (s : String) : String :=
  String.singleton (Char.ofNat 34) ++ s ++ String.singleton (Char.ofNat 34)

/-- The `Error()` method of a leaf error. -/
def LeafError.Error : LeafError → String
  | .errorString s => s
  | .numError func num cause => "strconv." ++ func ++ ": parsing " ++ quote num ++ ": " ++ cause.Error
  | .external msg => msg

/-- `type configError struct { errors []error }`. -/
structure configError where
  errors : List LeafError
  deriving DecidableEq, Repr

/-- A Go `error` as returned by the server: a leaf error or a `*configError`. -/
inductive GoError
  | leaf (e : LeafError)
  | config (cerr : configError)
  deriving DecidableEq, Repr

/-- `func (cerr *configError) Empty() bool`. -/
def configError.Empty (cerr : configError) : Bool :=
  cerr.errors.length == 0

/-- `func (cerr *configError) Append(err error)`: a nil error is dropped. -/
def configError.Append (cerr : configError) (err : Option LeafError) : configError :=
  match err with
  | none => cerr
  | some e => { errors := cerr.errors ++ [e] }

/-- `strings.Join(elems, sep)`. -/
def stringsJoin : List String → String → String
  | [], _ => ""
  | [a], _ => a
  | a :: b :: rest, sep => a ++ sep ++ stringsJoin (b :: rest) sep

/-- `func (cerr *configError) Error() string`. -/
def configError.Error (cerr : configError) : String :=
  stringsJoin (cerr.errors.map LeafError.Error) ", "

/-- The `Error()` method of a returned error. -/
def GoError.Error : GoError → String
  | .leaf e => e.Error
  | .config cerr => cerr.Error

/-! ## `strconv.Atoi` -/

/-- Width of the Go `int` type on the target platform. -/
def intSize : Nat := 64

/-- ASCII decimal digit test. -/
def isDigit (c : Char) : Bool := decide (48 ≤ c.toNat) && decide (c.toNat ≤ 57)

/-- Value of an ASCII decimal digit. -/
def digitVal (c : Char) : Nat := c.toNat - 48

/-- Value of a run of decimal digits, most significant first. -/
def digitsVal (ds : List Char) : Nat := ds.foldl (fun a c => a * 10 + digitVal c) 0

/-- `strconv.Atoi`: an optional sign followed by one or more decimal digits,
denoting a value that fits the `int` type.  An input that is both malformed
and too large is reported here as malformed. -/
def Atoi (s : String) : Except LeafError Int :=
  let body : List Char :=
    match s.data with
    | '+' :: r => r
    | '-' :: r => r
    | cs => cs
  let neg : Bool :=
    match s.data with
    | '-' :: _ => true
    | _ => false
  if body.isEmpty || !body.all isDigit then
    .error (.numError "Atoi" s .invalid)
  else
    let v : Int := if neg then -(digitsVal body : Int) else (digitsVal body : Int)
    if v < -(2 : Int) ^ (intSize - 1) ∨ (2 : Int) ^ (intSize - 1) - 1 < v then
      .error (.numError "Atoi" s .outOfRange)
    else .ok v

/-! ## Binary floating point

Finite values are dyadic rationals `m * 2 ^ e`.  The sign of zero is not
tracked.  One rounding function serves both formats. -/

/-- A `float32` or `float64` value. -/
inductive GoFloat
  | nan
  | inf (neg : Bool)
  | fin (m : Int) (e : Int)
  deriving DecidableEq, Repr

/-- A binary interchange format: `p` significand bits, `smin` the exponent of
the smallest positive value `2 ^ smin`, `emax` the largest exponent of a
normal value. -/
structure FloatFormat where
  p : Nat
  smin : Int
  emax : Int

/-- IEEE-754 binary32, Go `float32`. -/
def binary32 : FloatFormat := { p := 24, smin := -149, emax := 127 }

/-- IEEE-754 binary64, Go `float64`. -/
def binary64 : FloatFormat := { p := 53, smin := -1074, emax := 1023 }

/-- Helper of `natLog2`: halve until below two. -/
def log2Aux : Nat → Nat → Nat
  | 0, _ => 0
  | fuel + 1, n => if n < 2 then 0 else log2Aux fuel (n / 2) + 1

/-- The position of the highest set bit: `2 ^ natLog2 n ≤ n < 2 ^ (natLog2 n + 1)`
for positive `n`. -/
def natLog2 (n : Nat) : Nat := log2Aux n n

/-- The binary exponent of the positive rational `n / d`:
`2 ^ e ≤ n / d < 2 ^ (e + 1)`. -/
def ratLog2 (n d : Nat) : Int :=
  let e0 : Int := (natLog2 n : Int) - (natLog2 d : Int)
  if 0 ≤ e0 then (if d * 2 ^ e0.toNat ≤ n then e0 else e0 - 1)
  else (if d ≤ n * 2 ^ (-e0).toNat then e0 else e0 - 1)

/-- The integer nearest to `n / d`, ties going to the even neighbour. -/
def roundHalfEven (n d : Nat) : Nat :=
  let f := n / d
  let r := n % d
  if 2 * r < d then f else if d < 2 * r then f + 1 else if f % 2 = 0 then f else f + 1

/-- The integer nearest to `(n / d) * 2 ^ t`, ties going to the even neighbour. -/
def roundScaled (n d : Nat) (t : Int) : Nat :=
  if 0 ≤ t then roundHalfEven (n * 2 ^ t.toNat) d else roundHalfEven n (d * 2 ^ (-t).toNat)

/-- Round the rational `(-1) ^ neg * (n / d) * 2 ^ x` to the nearest value of the
format, ties to even; values too large for the format become infinite.  The
result is `m * 2 ^ s`, where `s` is the exponent of the last significand bit:
`p - 1` below the binary exponent of the value, and never below `smin`. -/
def roundNE (fmt : FloatFormat) (neg : Bool) (n d : Nat) (x : Int) : GoFloat :=
  if n = 0 then .fin 0 0
  else
    let s := max (ratLog2 n d + x - ((fmt.p : Int) - 1)) fmt.smin
    let m := roundScaled n d (x - s)
    if fmt.emax + 1 - s ≤ (natLog2 m : Int) then .inf neg
    else .fin (if neg then -(m : Int) else (m : Int)) s

/-- An integer constant as a float (exact for the constants used here). -/
def GoFloat.ofInt (z : Int) : GoFloat := .fin z 0

/-- Numerator of `m * 2 ^ e` over the common scale `2 ^ min e e'`. -/
def alignTo (m e e' : Int) : Int := m * 2 ^ (e - min e e').toNat

/-- The `<` of Go on floats: false whenever an operand is NaN. -/
def GoFloat.lt : GoFloat → GoFloat → Bool
  | .nan, _ => false
  | _, .nan => false
  | .inf a, .inf b => a && !b
  | .inf a, .fin _ _ => a
  | .fin _ _, .inf b => !b
  | .fin m e, .fin m' e' => decide (alignTo m e e' < alignTo m' e' e)

/-- The `*` of Go on `float64`. -/
def GoFloat.mul : GoFloat → GoFloat → GoFloat
  | .nan, _ => .nan
  | _, .nan => .nan
  | .inf a, .inf b => .inf (a != b)
  | .inf a, .fin m _ => if m = 0 then .nan else .inf (a != decide (m < 0))
  | .fin m _, .inf b => if m = 0 then .nan else .inf (decide (m < 0) != b)
  | .fin m e, .fin m' e' =>
      roundNE binary64 (decide (m < 0) != decide (m' < 0)) (m.natAbs * m'.natAbs) 1 (e + e')

/-- The `+` of Go on `float64`. -/
def GoFloat.add : GoFloat → GoFloat → GoFloat
  | .nan, _ => .nan
  | _, .nan => .nan
  | .inf a, .inf b => if a = b then .inf a else .nan
  | .inf a, .fin _ _ => .inf a
  | .fin _ _, .inf b => .inf b
  | .fin m e, .fin m' e' =>
      let z := alignTo m e e' + alignTo m' e' e
      roundNE binary64 (decide (z < 0)) z.natAbs 1 (min e e')

/-- The `/` of Go on `float64`. -/
def GoFloat.div : GoFloat → GoFloat → GoFloat
  | .nan, _ => .nan
  | _, .nan => .nan
  | .inf _, .inf _ => .nan
  | .inf a, .fin m _ => .inf (a != decide (m < 0))
  | .fin _ _, .inf _ => .fin 0 0
  | .fin m e, .fin m' e' =>
      if m' = 0 then (if m = 0 then .nan else .inf (decide (m < 0)))
      else roundNE binary64 (decide (m < 0) != decide (m' < 0)) m.natAbs m'.natAbs (e - e')

/-- The integer part of `m * 2 ^ e`, truncated toward zero. -/
def truncInt (m e : Int) : Int :=
  if 0 ≤ e then m * 2 ^ e.toNat else Int.tdiv m (2 ^ (-e).toNat)

/-- The conversion `uint16(x)` of a float: the fractional part is discarded.
When the truncated value does not fit `uint16`, or `x` is NaN or infinite, the
Go specification leaves the result to the implementation; it is `0` here. -/
def GoFloat.toUint16 : GoFloat → Nat
  | .fin m e => if 0 ≤ truncInt m e ∧ truncInt m e < 65536 then (truncInt m e).toNat else 0
  | _ => 0

/-- The conversion `float32(v)` of an `int`. -/
def float32OfInt (v : Int) : GoFloat := roundNE binary32 (decide (v < 0)) v.natAbs 1 0

/-! ## `strconv.ParseFloat`

The decimal and the hexadecimal grammar, with underscores between digits, and
the special values.  The mantissa keeps every digit that is written, and the
result is the float nearest to the value read. -/

/-- ASCII lower-casing of one character. -/
def lower (c : Char) : Char :=
  if 65 ≤ c.toNat ∧ c.toNat ≤ 90 then Char.ofNat (c.toNat + 32) else c

/-- ASCII case-insensitive comparison against a lower-case word. -/
def equalIgnoreCase (s : List Char) (word : String) : Bool :=
  decide (s.map lower = word.data)

/-- The `special` helper of `strconv`: infinities and NaN by name. -/
def special (s : List Char) : Option GoFloat :=
  match s with
  | [] => none
  | '+' :: r =>
      if equalIgnoreCase r "inf" || equalIgnoreCase r "infinity" then some (.inf false) else none
  | '-' :: r =>
      if equalIgnoreCase r "inf" || equalIgnoreCase r "infinity" then some (.inf true) else none
  | _ =>
      if equalIgnoreCase s "nan" then some .nan
      else if equalIgnoreCase s "inf" || equalIgnoreCase s "infinity" then some (.inf false)
      else none

/-- Hexadecimal letter test, `'a' <= lower(c) && lower(c) <= 'f'`. -/
def isHexLetter (c : Char) : Bool :=
  decide (97 ≤ (lower c).toNat) && decide ((lower c).toNat ≤ 102)

/-- Value of a hexadecimal letter, `lower(c) - 'a' + 10`. -/
def hexLetterVal (c : Char) : Nat := (lower c).toNat - 97 + 10

/-- The class of the last character seen by `underscoreOK`: the beginning of
the number, a digit, an underscore, or anything else. -/
inductive Saw
  | start
  | digit
  | underscore
  | other
  deriving DecidableEq, Repr

/-- The loop of `underscoreOK`: an underscore must follow a digit and must be
followed by a digit. -/
def underscoreScan (hex : Bool) : Saw → List Char → Bool
  | saw, [] => decide (saw ≠ .underscore)
  | saw, c :: cs =>
      if isDigit c || (hex && isHexLetter c) then underscoreScan hex .digit cs
      else if c = '_' then
        if saw ≠ .digit then false else underscoreScan hex .underscore cs
      else if saw = .underscore then false
      else underscoreScan hex .other cs

/-- The `underscoreOK` helper of `strconv`: whether the underscores of a number
are where the Go syntax allows them.  A base marker `0b`, `0o` or `0x` counts
as a digit for the underscore that follows it. -/
def underscoreOK (s : List Char) : Bool :=
  let body : List Char := match s with
    | '+' :: r => r
    | '-' :: r => r
    | r => r
  match body with
  | c0 :: c1 :: r =>
      if c0 = '0' ∧ (lower c1 = 'b' ∨ lower c1 = 'o' ∨ lower c1 = 'x') then
        underscoreScan (decide (lower c1 = 'x')) .digit r
      else underscoreScan false .start body
  | _ => underscoreScan false .start body

/-- Scanner state of the mantissa loop of `readFloat`. -/
structure MantState where
  underscores : Bool
  sawdot : Bool
  sawdigits : Bool
  mant : Nat
  frac : Nat
  deriving DecidableEq, Repr

/-- The mantissa loop of `readFloat` in base 10 or 16: digits with at most one
point, underscores skipped.  Returns the state and the unread rest.  `mant`
collects every digit and `frac` counts the digits after the point, so the
mantissa is `mant / base ^ frac`. -/
def readMantissa (base : Nat) : MantState → List Char → MantState × List Char
  | st, [] => (st, [])
  | st, c :: cs =>
      if c = '_' then readMantissa base { st with underscores := true } cs
      else if c = '.' then
        if st.sawdot then (st, c :: cs) else readMantissa base { st with sawdot := true } cs
      else if isDigit c then
        readMantissa base
          { st with sawdigits := true, mant := st.mant * base + digitVal c,
                    frac := if st.sawdot then st.frac + 1 else st.frac } cs
      else if base = 16 ∧ isHexLetter c = true then
        readMantissa base
          { st with sawdigits := true, mant := st.mant * 16 + hexLetterVal c,
                    frac := if st.sawdot then st.frac + 1 else st.frac } cs
      else (st, c :: cs)

/-- The exponent digit loop of `readFloat`: digits and underscores; the
exponent stops growing once it has reached 10000.  Returns the exponent,
whether an underscore was seen, and the unread rest. -/
def readExpDigits : Nat → Bool → List Char → Nat × Bool × List Char
  | e, us, [] => (e, us, [])
  | e, us, c :: cs =>
      if c = '_' then readExpDigits e true cs
      else if isDigit c then readExpDigits (if e < 10000 then e * 10 + digitVal c else e) us cs
      else (e, us, c :: cs)

/-- The exponent part of `readFloat`, optional after a decimal mantissa and
required after a hexadecimal one: the exponent and whether it holds an
underscore, when the rest of the input is well formed and nothing follows it. -/
def readExponent (hex : Bool) (rest : List Char) : Option (Int × Bool) :=
  match rest with
  | [] => if hex then none else some (0, false)
  | c :: cs =>
      if lower c = (if hex then 'p' else 'e') then
        let esign : Int := match cs with
          | '-' :: _ => -1
          | _ => 1
        let ds : List Char := match cs with
          | '+' :: r => r
          | '-' :: r => r
          | r => r
        match ds with
        | [] => none
        | d :: _ =>
            if isDigit d then
              match readExpDigits 0 false ds with
              | (e, us, []) => some (esign * (e : Int), us)
              | (_, _, _ :: _) => none
            else none
      else none

/-- The `readFloat` helper of `strconv` on an input it has to consume as a
whole: sign, mantissa digits, exponent and whether the literal is hexadecimal.
The value is `(-1) ^ neg * mant * 10 ^ exp` for a decimal literal and
`(-1) ^ neg * mant * 2 ^ exp` for a hexadecimal one. -/
def readFloat (s : List Char) : Option (Bool × Nat × Int × Bool) :=
  let neg : Bool := match s with
    | '-' :: _ => true
    | _ => false
  let body : List Char := match s with
    | '+' :: r => r
    | '-' :: r => r
    | r => r
  let hex : Bool := match body with
    | c0 :: c1 :: _ :: _ => decide (c0 = '0') && decide (lower c1 = 'x')
    | _ => false
  match readMantissa (if hex then 16 else 10)
      { underscores := false, sawdot := false, sawdigits := false, mant := 0, frac := 0 }
      (if hex then body.drop 2 else body) with
  | (st, rest) =>
      if st.sawdigits then
        match readExponent hex rest with
        | some (e, us) =>
            if (st.underscores || us) && !underscoreOK s then none
            else
              some (neg, st.mant,
                if st.mant = 0 then 0 else e - (if hex then 4 else 1) * (st.frac : Int), hex)
        | none => none
      else none

/-- `strconv.ParseFloat(s, bitSize)`: the float of the chosen width nearest to
the value of the decimal or hexadecimal literal `s`.  A malformed input is a
syntax error, a value that rounds to an infinity is a range error. -/
def ParseFloat (s : String) (bitSize : Nat) : Except LeafError GoFloat :=
  let fmt := if bitSize = 32 then binary32 else binary64
  match special s.data with
  | some v => .ok v
  | none =>
      match readFloat s.data with
      | none => .error (.numError "ParseFloat" s .invalid)
      | some (neg, mant, exp, hex) =>
          let b : Nat := if hex then 2 else 10
          let v :=
            if 0 ≤ exp then roundNE fmt neg (mant * b ^ exp.toNat) 1 0
            else roundNE fmt neg mant (b ^ (-exp).toNat) 0
          match v with
          | .fin m e => .ok (.fin m e)
          | _ => .error (.numError "ParseFloat" s .outOfRange)

/-! ## `shark.go` -/

/-- `pktLength`. -/
def pktLength : Nat := 6
/-- `freqCode`. -/
def freqCode : Nat := 0xC0
/-- `blueIntensityCode`. -/
def blueIntensityCode : Nat := 0xA0
/-- `bluePulseCode`. -/
def bluePulseCode : Nat := 0xA1
/-- `redOnCode`. -/
def redOnCode : Nat := 0xA9
/-- `redOffCode`. -/
def redOffCode : Nat := 0xA8

/-- `func makeHIDPacket() []byte`. -/
def makeHIDPacket : List Nat := List.replicate pktLength 0

/-- `func makeFreqPacket(freq uint16) []byte`. -/
def makeFreqPacket (freq : Nat) : List Nat :=
  let pkt := makeHIDPacket
  let pkt := pkt.set 0 freqCode
  let pkt := pkt.set 2 (((freq >>> 8) % 256) &&& 0xFF)
  let pkt := pkt.set 3 ((freq % 256) &&& 0xFF)
  pkt

/-- `func ParseFMFrequency(freq string) (uint16, error)`.  The constant 12.5 is
`25 * 2 ^ (-1)`; the product, the sum and the quotient are `float64`
operations, each rounded on its own. -/
def ParseFMFrequency (freq : String) : Except LeafError Nat :=
  match ParseFloat freq 32 with
  | .error err => .error err
  | .ok parsedFreq =>
      if parsedFreq.lt (GoFloat.ofInt 88) || (GoFloat.ofInt 108).lt parsedFreq then
        .error (.errorString "FM frequency must be between 88.0 and 108.0")
      else
        .ok (((((parsedFreq.mul (GoFloat.ofInt 1000)).add (GoFloat.ofInt 10701)).div
          (.fin 25 (-1))).toUint16 + 3) % 65536)

/-- `func ParseAMFrequency(freq string) (uint16, error)`: the value goes
through `float32` before it becomes a `uint16`. -/
def ParseAMFrequency (freq : String) : Except LeafError Nat :=
  match Atoi freq with
  | .error err => .error err
  | .ok parsedFreq =>
      if parsedFreq < 535 ∨ parsedFreq > 1705 then
        .error (.errorString "AM frequency must be between 535 and 1705")
      else
        .ok (((float32OfInt parsedFreq).toUint16 + 450) % 65536)

/-- `func ValidateBlueLEDIntensity(intensity uint8) error`. -/
def ValidateBlueLEDIntensity (intensity : Nat) : Option LeafError :=
  if intensity > 127 then some (.errorString "intensity must be less than 127") else none

/-- `func ValidateBlueLEDPulse(rate uint8) error`. -/
def ValidateBlueLEDPulse (rate : Nat) : Option LeafError :=
  if rate > 127 then some (.errorString "rate must be less than 127") else none

/-- `func ValidateModulation(modulation string) error`. -/
def ValidateModulation (modulation : String) : Option LeafError :=
  if modulation = "am" ∨ modulation = "AM" ∨ modulation = "fm" ∨ modulation = "FM" then none
  else some (.errorString ("unknown modulation " ++ modulation))

/-- The HID device behind a `*RadioShark`: the packets handed to
`WriteInterrupt` so far, oldest first, and the outcomes of the writes still to
come (a write beyond the end of the script succeeds). -/
structure RadioShark where
  sent : List (List Nat)
  script : List (Option LeafError)
  deriving DecidableEq, Repr

/-- `func (shark *RadioShark) writeHIDPacket(pkt []byte) error`. -/
def RadioShark.writeHIDPacket (shark : RadioShark) (pkt : List Nat) :
    Option LeafError × RadioShark :=
  match shark.script with
  | [] => (none, { shark with sent := shark.sent ++ [pkt] })
  | r :: rest => (r, { sent := shark.sent ++ [pkt], script := rest })

/-- `func (shark *RadioShark) SetFMFrequency(freq uint16) error`. -/
def RadioShark.SetFMFrequency (shark : RadioShark) (freq : Nat) :
    Option LeafError × RadioShark :=
  shark.writeHIDPacket (makeFreqPacket freq)

/-- `func (shark *RadioShark) SetAMFrequency(freq uint16) error`. -/
def RadioShark.SetAMFrequency (shark : RadioShark) (freq : Nat) :
    Option LeafError × RadioShark :=
  let pkt := makeFreqPacket freq
  let pkt := pkt.set 1 0x12
  shark.writeHIDPacket pkt

/-- `func (shark *RadioShark) SetFrequency(modulation, freq string) error`. -/
def RadioShark.SetFrequency (shark : RadioShark) (modulation freq : String) :
    Option LeafError × RadioShark :=
  match ValidateModulation modulation with
  | some err => (some err, shark)
  | none =>
      if modulation = "FM" ∨ modulation = "fm" then
        match ParseFMFrequency freq with
        | .error err => (some err, shark)
        | .ok freqVal => shark.SetFMFrequency freqVal
      else if modulation = "AM" ∨ modulation = "am" then
        match ParseAMFrequency freq with
        | .error err => (some err, shark)
        | .ok freqVal => shark.SetAMFrequency freqVal
      else (none, shark)

/-- `func (shark *RadioShark) SetBlueLEDIntensity(intensity uint8) error`. -/
def RadioShark.SetBlueLEDIntensity (shark : RadioShark) (intensity : Nat) :
    Option LeafError × RadioShark :=
  match ValidateBlueLEDIntensity intensity with
  | some err => (some err, shark)
  | none =>
      let pkt := List.replicate pktLength 0
      let pkt := pkt.set 0 blueIntensityCode
      let pkt := pkt.set 1 (intensity % 256)
      shark.writeHIDPacket pkt

/-- `func (shark *RadioShark) SetBlueLEDPulse(rate uint8) error`. -/
def RadioShark.SetBlueLEDPulse (shark : RadioShark) (rate : Nat) :
    Option LeafError × RadioShark :=
  match ValidateBlueLEDPulse rate with
  | some err => (some err, shark)
  | none =>
      let pkt := List.replicate pktLength 0
      let pkt := pkt.set 0 bluePulseCode
      let pkt := pkt.set 1 (rate % 256)
      shark.writeHIDPacket pkt

/-- `func (shark *RadioShark) SetRedLED(toggle bool) error`. -/
def RadioShark.SetRedLED (shark : RadioShark) (toggle : Bool) :
    Option LeafError × RadioShark :=
  let pkt := List.replicate pktLength 0
  let pkt := if toggle then (pkt.set 0 redOnCode).set 1 1 else (pkt.set 0 redOffCode).set 1 0
  shark.writeHIDPacket pkt

/-! ## `cmd/rsharkd/rsharkd.go` -/

/-- `type Config struct`. -/
structure Config where
  Modulation : String
  Frequency : String
  BlueLEDIntensity : Nat
  BlueLEDPulseRate : Nat
  RedLEDToggle : Bool
  deriving DecidableEq, Repr

/-- `func validateFrequency(modulation, frequency string) error`. -/
def validateFrequency (modulation frequency : String) : Option LeafError :=
  if modulation = "am" ∨ modulation = "AM" then
    match ParseAMFrequency frequency with
    | .error err => some err
    | .ok _ => none
  else if modulation = "fm" ∨ modulation = "FM" then
    match ParseFMFrequency frequency with
    | .error err => some err
    | .ok _ => none
  else none

/-- The file system as `writeConfig` sees it: the `(file, config)` pairs it was
asked to write so far, oldest first, and the outcomes of the calls still to
come (a call beyond the end of the script succeeds). -/
structure FileSys where
  written : List (String × Config)
  script : List (Option LeafError)
  deriving DecidableEq, Repr

/-- `func writeConfig(file string, config *Config) error`. -/
def writeConfig (fs : FileSys) (file : String) (config : Config) :
    Option LeafError × FileSys :=
  match fs.script with
  | [] => (none, { fs with written := fs.written ++ [(file, config)] })
  | r :: rest => (r, { written := fs.written ++ [(file, config)], script := rest })

/-- `type Server struct`; the lock is not part of the sequential model. -/
structure Server where
  configfile : String
  cfg : Config
  shark : RadioShark
  deriving DecidableEq, Repr

/-- `func (srv *Server) setConfig(config *Config)`. -/
def Server.setConfig (srv : Server) (config : Config) : Server :=
  { srv with cfg := config }

/-- `func (srv *Server) Get() *Config`. -/
def Server.Get (srv : Server) : Config := srv.cfg

/-- `func (srv *Server) Validate(config *Config) error`. -/
def Server.Validate (_srv : Server) (config : Config) : Option GoError :=
  let cerr : configError := { errors := [] }
  let cerr := cerr.Append (ValidateModulation config.Modulation)
  let cerr := cerr.Append (validateFrequency config.Modulation config.Frequency)
  let cerr := cerr.Append (ValidateBlueLEDIntensity config.BlueLEDIntensity)
  let cerr := cerr.Append (ValidateBlueLEDPulse config.BlueLEDPulseRate)
  if cerr.Empty then none else some (.config cerr)

/-- `func (srv *Server) Apply(config *Config) error`, with the server and the
file system after the call. -/
def Server.Apply (srv : Server) (fs : FileSys) (config : Config) :
    Option GoError × Server × FileSys :=
  let cerr : configError := { errors := [] }
  match srv.Validate config with
  | some err => (some err, srv, fs)
  | none =>
      let curcfg := srv.Get
      let srv := srv.setConfig config
      let step1 : configError × RadioShark :=
        if curcfg.Frequency ≠ config.Frequency ∨ curcfg.Modulation ≠ config.Modulation then
          let r := srv.shark.SetFrequency config.Modulation config.Frequency
          (cerr.Append r.1, r.2)
        else (cerr, srv.shark)
      let r2 := step1.2.SetBlueLEDIntensity config.BlueLEDIntensity
      let cerr := step1.1.Append r2.1
      let r3 := r2.2.SetBlueLEDPulse config.BlueLEDPulseRate
      let cerr := cerr.Append r3.1
      let r4 := r3.2.SetRedLED config.RedLEDToggle
      let cerr := cerr.Append r4.1
      let srv := { srv with shark := r4.2 }
      if cerr.Empty then
        let w := writeConfig fs srv.configfile config
        (w.1.map GoError.leaf, srv, w.2)
      else (some (.config cerr), srv, fs)

/-- `defConfig` of `readConfig`: the configuration used when none can be read. -/
def defConfig : Config :=
  { Modulation := "FM", Frequency := "88.0", BlueLEDIntensity := 127,
    BlueLEDPulseRate := 0, RedLEDToggle := false }

/-- `func readConfig(file string) (*Config, error)`: `decoded` is what opening
the file and decoding its JSON content produced, `none` when either step
failed.  The function never returns an error.  A file whose content is the
JSON value `null`, for which the decoder yields a nil pointer and no error, has
no counterpart here. -/
def readConfig (decoded : Option Config) : Config :=
  match decoded with
  | none => defConfig
  | some config => config

/-- `&Config{}`, the configuration a new server holds before its first `Apply`. -/
def emptyConfig : Config :=
  { Modulation := "", Frequency := "", BlueLEDIntensity := 0,
    BlueLEDPulseRate := 0, RedLEDToggle := false }

/-- `func NewServer(config string, shark string) (*Server, error)`: `decoded` is
the outcome of reading the file named `config`, `opened` the outcome of
`radioshark.Open(shark)`. -/
def NewServer (config : String) (decoded : Option Config)
    (opened : Except LeafError RadioShark) (fs : FileSys) :
    Except GoError Server × FileSys :=
  let cfg := readConfig decoded
  match opened with
  | .error err => (.error (.leaf err), fs)
  | .ok dev =>
      let srv : Server := { configfile := config, cfg := emptyConfig, shark := dev }
      match srv.Apply fs cfg with
      | (some err, _, fs') => (.error err, fs')
      | (none, srv', fs') => (.ok srv', fs')

/-! ## Vocabulary of the specification -/

/-- The blue-intensity, blue-pulse and red-LED packets of a configuration, in
the order `Apply` sends them. -/
def ledPackets (config : Config) : List (List Nat) :=
  [[0xA0, config.BlueLEDIntensity, 0, 0, 0, 0],
   [0xA1, config.BlueLEDPulseRate, 0, 0, 0, 0],
   if config.RedLEDToggle then [0xA9, 1, 0, 0, 0, 0] else [0xA8, 0, 0, 0, 0, 0]]

/-- The tuning value the frequency codec returns for a configuration: that of
`ParseFMFrequency` for the modulation FM, that of `ParseAMFrequency` for AM. -/
def tuningValue (config : Config) : Option Nat :=
  if config.Modulation = "FM" ∨ config.Modulation = "fm" then
    (ParseFMFrequency config.Frequency).toOption
  else if config.Modulation = "AM" ∨ config.Modulation = "am" then
    (ParseAMFrequency config.Frequency).toOption
  else none

/-- The frequency packet carrying the tuning value `t`: `C0 00 hi lo 00 00`,
with byte 1 set to `12` for the AM variant. -/
def frequencyPacketOf (am : Bool) (t : Nat) : List Nat :=
  [0xC0, if am then 0x12 else 0x00, t / 256, t % 256, 0, 0]

/-- The frequency packet of a configuration, when the codec accepts it. -/
def frequencyPacket (config : Config) : Option (List Nat) :=
  (tuningValue config).map
    (frequencyPacketOf (decide (config.Modulation = "AM" ∨ config.Modulation = "am")))

/-- Whether the modulation or the frequency of `config` differs from the
configuration `cur` held before. -/
def frequencyDue (cur config : Config) : Bool :=
  decide (cur.Frequency ≠ config.Frequency ∨ cur.Modulation ≠ config.Modulation)

/-- The packets of one `Apply` of an accepted candidate: the frequency packet
when it is due, then the three LED packets. -/
def applyPackets (cur config : Config) : List (List Nat) :=
  (if frequencyDue cur config then (frequencyPacket config).toList else []) ++ ledPackets config

/-- Whether a packet is a frequency packet: its first byte is `freqCode`. -/
def isFrequencyPacket (pkt : List Nat) : Bool := decide (pkt.head? = some freqCode)

/-- The errors of the first `n` device writes to come, in order: the failures
among the next `n` outcomes of the script. -/
def writeFailures (shark : RadioShark) (n : Nat) : List LeafError :=
  (shark.script.take n).reduceOption

/-- The device writes of one call `Apply(config)`: the packets it adds to the
log of the device. -/
def callWrites (srv : Server) (fs : FileSys) (config : Config) : List (List Nat) :=
  (srv.Apply fs config).2.1.shark.sent.drop srv.shark.sent.length

/-- The records one call `Apply(config)` hands to `writeConfig`. -/
def callPersisted (srv : Server) (fs : FileSys) (config : Config) : List (String × Config) :=
  (srv.Apply fs config).2.2.written.drop fs.written.length

/-- Equality of two strings up to ASCII letter case. -/
def equalFold (a b : String) : Bool := decide (a.data.map lower = b.data.map lower)

/-- The errors of the four checks of `Validate` that fail, in check order:
modulation, frequency, blue intensity, blue pulse. -/
def failingChecks (config : Config) : List LeafError :=
  [ValidateModulation config.Modulation,
   validateFrequency config.Modulation config.Frequency,
   ValidateBlueLEDIntensity config.BlueLEDIntensity,
   ValidateBlueLEDPulse config.BlueLEDPulseRate].reduceOption

/-- The rational number a finite float stands for (`0` for NaN and infinities). -/
def GoFloat.toRat : GoFloat → ℚ
  | .fin m e => (m : ℚ) * (2 : ℚ) ^ e
  | _ => 0

/-- The parts of a plain decimal literal: its sign, the digits before and
after the decimal point, and the sign and the digits of its exponent (no
digits when the literal has no exponent part). -/
structure DecimalLiteral where
  neg : Bool
  intDigits : List Char
  fracDigits : List Char
  expNeg : Bool
  expDigits : List Char
  deriving DecidableEq, Repr

/-- The text of an input read as a plain decimal literal: an optional sign,
decimal digits with an optional decimal point among them (at least one digit),
and an optional exponent part, `e` or `E`, an optional sign and at least one
digit.  Written from the grammar, without reference to `readFloat`. -/
def decimalLiteral (s : String) : Option DecimalLiteral :=
  let neg : Bool := match s.data with
    | '-' :: _ => true
    | _ => false
  let body : List Char := match s.data with
    | '+' :: r => r
    | '-' :: r => r
    | r => r
  let ip : List Char := body.takeWhile isDigit
  let fp : List Char := match body.dropWhile isDigit with
    | '.' :: r => r.takeWhile isDigit
    | _ => []
  let tl : List Char := match body.dropWhile isDigit with
    | '.' :: r => r.dropWhile isDigit
    | r => r
  if ip = [] ∧ fp = [] then none
  else
    match tl with
    | [] =>
        some { neg := neg, intDigits := ip, fracDigits := fp, expNeg := false, expDigits := [] }
    | c :: r =>
        let eneg : Bool := match r with
          | '-' :: _ => true
          | _ => false
        let ds : List Char := match r with
          | '+' :: t => t
          | '-' :: t => t
          | t => t
        if (c = 'e' ∨ c = 'E') ∧ ds ≠ [] ∧ ds.all isDigit = true then
          some { neg := neg, intDigits := ip, fracDigits := fp, expNeg := eneg, expDigits := ds }
        else none

/-- The exponent a decimal literal writes, `0` when it has no exponent part. -/
def DecimalLiteral.exponent (l : DecimalLiteral) : Int :=
  if l.expNeg then -(digitsVal l.expDigits : Int) else (digitsVal l.expDigits : Int)

/-- The number a decimal literal denotes: its digits, read as an integer,
times ten to the written exponent less the number of digits after the point. -/
def DecimalLiteral.value (l : DecimalLiteral) : ℚ :=
  (if l.neg then -1 else 1) *
    ((digitsVal (l.intDigits ++ l.fracDigits) : ℚ) *
      (10 : ℚ) ^ (l.exponent - (l.fracDigits.length : Int)))

/-- The number an input denotes when it is a plain decimal literal. -/
def decimalValue (s : String) : Option ℚ := (decimalLiteral s).map DecimalLiteral.value

/-- The tuning value of the `float32` value `k * 2 ^ (-17)`: the quotient
`(1000 * x + 10701) / 12.5` with its fractional part discarded, plus three. -/
def fmTuning (k : Nat) : Nat := (1000 * k + 1402601472) / 1638400 + 3

/-! ## Aggregated errors -/

theorem append_errors (cerr : configError) (err : Option LeafError) :
    (cerr.Append err).errors = cerr.errors ++ err.toList := by
  cases err <;> simp [configError.Append]

theorem empty_iff (cerr : configError) : cerr.Empty = true ↔ cerr.errors = [] := by
  simp [configError.Empty, List.length_eq_zero]

theorem validate_eq (srv : Server) (config : Config) :
    srv.Validate config =
      if failingChecks config = [] then none
      else some (.config { errors := failingChecks config }) := by
  have h : ((((({ errors := [] } : configError).Append (ValidateModulation config.Modulation)).Append
      (validateFrequency config.Modulation config.Frequency)).Append
      (ValidateBlueLEDIntensity config.BlueLEDIntensity)).Append
      (ValidateBlueLEDPulse config.BlueLEDPulseRate)) = { errors := failingChecks config } := by
    cases h1 : ValidateModulation config.Modulation <;>
    cases h2 : validateFrequency config.Modulation config.Frequency <;>
    cases h3 : ValidateBlueLEDIntensity config.BlueLEDIntensity <;>
    cases h4 : ValidateBlueLEDPulse config.BlueLEDPulseRate <;>
    simp [configError.Append, failingChecks, h1, h2, h3, h4, List.reduceOption]
  unfold Server.Validate
  simp only [h]
  by_cases hf : failingChecks config = []
  · simp [hf, configError.Empty]
  · have : (configError.Empty { errors := failingChecks config }) = false := by
      cases hE : configError.Empty { errors := failingChecks config }
      · rfl
      · exact absurd ((empty_iff _).1 hE) hf
    simp [hf, this]

theorem infix_stringsJoin (sep : String) :
    ∀ (l : List String) (a : String), a ∈ l → a.data <:+: (stringsJoin l sep).data
  | [], _, h => by simp at h
  | [b], a, h => by
      have : a = b := by simpa using h
      subst this
      simp [stringsJoin]
  | b :: c :: rest, a, h => by
      rcases List.mem_cons.1 h with h1 | h1
      · subst h1
        refine ⟨[], (sep ++ stringsJoin (c :: rest) sep).data, ?_⟩
        simp [stringsJoin, String.data_append]
      · obtain ⟨u, v, huv⟩ := infix_stringsJoin sep (c :: rest) a h1
        refine ⟨b.data ++ sep.data ++ u, v, ?_⟩
        simp [stringsJoin, String.data_append, ← huv]

/-! ## Claims about validation -/

/-- C1: when `Validate` rejects the candidate, `Apply` returns exactly that
error and changes nothing: the server (so the held configuration and the
packets sent to the device) and the file system are as before. -/
theorem apply_of_validate_error (srv : Server) (fs : FileSys) (config : Config) (err : GoError)
    (h : srv.Validate config = some err) :
    srv.Apply fs config = (some err, srv, fs) ∧
      (srv.Apply fs config).2.1.Get = srv.Get ∧
      (srv.Apply fs config).2.1.shark.sent = srv.shark.sent ∧
      (srv.Apply fs config).2.2.written = fs.written := by
  have h1 : srv.Apply fs config = (some err, srv, fs) := by
    unfold Server.Apply
    simp only [h]
  simp [h1]

/-- C1, at a candidate with an unknown modulation and a server holding the
default configuration. -/
theorem apply_of_validate_error_witness :
    Server.Validate
        { configfile := "rsharkd.conf",
          cfg := { Modulation := "FM", Frequency := "88.0", BlueLEDIntensity := 127,
                   BlueLEDPulseRate := 0, RedLEDToggle := false },
          shark := { sent := [], script := [] } }
        { Modulation := "XM", Frequency := "88.0", BlueLEDIntensity := 127,
          BlueLEDPulseRate := 0, RedLEDToggle := true }
      = some (.config { errors := [.errorString "unknown modulation XM"] }) ∧
    Server.Apply
        { configfile := "rsharkd.conf",
          cfg := { Modulation := "FM", Frequency := "88.0", BlueLEDIntensity := 127,
                   BlueLEDPulseRate := 0, RedLEDToggle := false },
          shark := { sent := [], script := [] } }
        { written := [], script := [] }
        { Modulation := "XM", Frequency := "88.0", BlueLEDIntensity := 127,
          BlueLEDPulseRate := 0, RedLEDToggle := true }
      = (some (.config { errors := [.errorString "unknown modulation XM"] }),
         { configfile := "rsharkd.conf",
           cfg := { Modulation := "FM", Frequency := "88.0", BlueLEDIntensity := 127,
                    BlueLEDPulseRate := 0, RedLEDToggle := false },
           shark := { sent := [], script := [] } },
         { written := [], script := [] }) :=
  ⟨by decide, (apply_of_validate_error _ _ _ _ (by decide)).1⟩

/-- C3: the error of `Validate` is the aggregate of the errors of all failing
checks, in check order; its message is their messages joined by `", "`, so
the message of every failing check occurs in it. -/
theorem validate_reports_every_failure (srv : Server) (config : Config) :
    srv.Validate config =
        (if failingChecks config = [] then none
         else some (.config { errors := failingChecks config })) ∧
      (GoError.config { errors := failingChecks config }).Error =
        stringsJoin ((failingChecks config).map LeafError.Error) ", " ∧
      ∀ e ∈ failingChecks config,
        e.Error.data <:+: (GoError.config { errors := failingChecks config }).Error.data := by
  refine ⟨validate_eq srv config, rfl, ?_⟩
  intro e he
  exact infix_stringsJoin ", " _ _ (List.mem_map_of_mem _ he)

/-- C3, at an unknown modulation together with blue intensity 200: both
descriptions are in the message. -/
theorem validate_reports_every_failure_witness :
    (Server.Validate
        { configfile := "rsharkd.conf",
          cfg := { Modulation := "", Frequency := "", BlueLEDIntensity := 0,
                   BlueLEDPulseRate := 0, RedLEDToggle := false },
          shark := { sent := [], script := [] } }
        { Modulation := "XM", Frequency := "88.0", BlueLEDIntensity := 200,
          BlueLEDPulseRate := 0, RedLEDToggle := false }).map GoError.Error
      = some "unknown modulation XM, intensity must be less than 127" ∧
    "unknown modulation XM".data <:+:
      "unknown modulation XM, intensity must be less than 127".data ∧
    "intensity must be less than 127".data <:+:
      "unknown modulation XM, intensity must be less than 127".data := by
  have h := validate_reports_every_failure
    { configfile := "rsharkd.conf",
      cfg := { Modulation := "", Frequency := "", BlueLEDIntensity := 0,
               BlueLEDPulseRate := 0, RedLEDToggle := false },
      shark := { sent := [], script := [] } }
    { Modulation := "XM", Frequency := "88.0", BlueLEDIntensity := 200,
      BlueLEDPulseRate := 0, RedLEDToggle := false }
  have hf : failingChecks (Config.mk "XM" "88.0" 200 0 false)
      = [.errorString "unknown modulation XM", .errorString "intensity must be less than 127"] := by
    decide
  rw [hf] at h
  refine ⟨?_, ?_, ?_⟩
  · rw [h.1]; decide
  · exact h.2.2 (.errorString "unknown modulation XM") (by simp)
  · exact h.2.2 (.errorString "intensity must be less than 127") (by simp)

/-- C4 as stated fails: `"Am"` equals `"AM"` up to letter case and is rejected. -/
theorem validateModulation_mixed_case_rejected :
    ¬ (∀ s : String, equalFold s "AM" = true ∨ equalFold s "FM" = true →
        ValidateModulation s = none) := by
  intro h
  have h1 := h "Am" (Or.inl (by decide))
  exact absurd h1 (by decide)

/-- C4, amended: `ValidateModulation` accepts exactly the four spellings
`"am"`, `"AM"`, `"fm"`, `"FM"`, each of which is AM or FM up to letter case;
every other string, the mixed-case forms `"Am"` and `"fM"` among them, gets
the error `unknown modulation` followed by the string. -/
theorem validateModulation_spellings (s : String) :
    (ValidateModulation s = none ↔ s ∈ ["am", "AM", "fm", "FM"]) ∧
      (ValidateModulation s = none → equalFold s "AM" = true ∨ equalFold s "FM" = true) ∧
      (ValidateModulation s ≠ none →
        ValidateModulation s = some (.errorString ("unknown modulation " ++ s))) ∧
      ValidateModulation "Am" = some (.errorString "unknown modulation Am") ∧
      ValidateModulation "fM" = some (.errorString "unknown modulation fM") := by
  have key : ValidateModulation s = none ↔ s ∈ ["am", "AM", "fm", "FM"] := by
    unfold ValidateModulation
    by_cases h : s = "am" ∨ s = "AM" ∨ s = "fm" ∨ s = "FM"
    · simp only [h, if_true, true_iff]
      simpa using h
    · simp only [h, if_false]
      constructor
      · intro h'; cases h'
      · intro h'; exact absurd (by simpa using h') h
  refine ⟨key, ?_, ?_, by decide, by decide⟩
  · intro h
    have hm := key.1 h
    simp only [List.mem_cons, List.mem_singleton, List.not_mem_nil, or_false] at hm
    rcases hm with rfl | rfl | rfl | rfl
    · exact Or.inl (by decide)
    · exact Or.inl (by decide)
    · exact Or.inr (by decide)
    · exact Or.inr (by decide)
  · intro h
    unfold ValidateModulation at h ⊢
    by_cases hs : s = "am" ∨ s = "AM" ∨ s = "fm" ∨ s = "FM"
    · simp [hs] at h
    · simp [hs]

/-- C4, amended, at the accepted spelling `"fm"` and the rejected `"Fm"`. -/
theorem validateModulation_spellings_witness :
    ValidateModulation "fm" = none ∧ equalFold "fm" "FM" = true ∧
      ValidateModulation "Fm" = some (.errorString "unknown modulation Fm") :=
  ⟨by decide, by decide,
    (validateModulation_spellings "Fm").2.2.1 (by decide)⟩

/-! ## Frequency packets -/

theorem writeHIDPacket_sent (shark : RadioShark) (pkt : List Nat) :
    (shark.writeHIDPacket pkt).2.sent = shark.sent ++ [pkt] := by
  unfold RadioShark.writeHIDPacket
  cases shark.script <;> rfl

theorem makeFreqPacket_eq (t : Nat) (ht : t < 65536) :
    makeFreqPacket t = [0xC0, 0x00, t / 256, t % 256, 0, 0] := by
  have h255 : (255 : Nat) = 2 ^ 8 - 1 := by norm_num
  have h1 : ((t >>> 8) % 256) &&& 255 = t / 256 := by
    rw [h255, Nat.and_pow_two_sub_one_eq_mod, Nat.shiftRight_eq_div_pow]
    omega
  have h2 : (t % 256) &&& 255 = t % 256 := by
    rw [h255, Nat.and_pow_two_sub_one_eq_mod]
    omega
  simp [makeFreqPacket, makeHIDPacket, pktLength, freqCode, List.replicate, List.set, h1, h2]

/-- C10: for a 16-bit tuning value `t` the frequency packet is the six bytes
`C0 00 hi lo 00 00` with `256 * hi + lo = t`, sent as such by `SetFMFrequency`
and with byte 1 set to `12` by `SetAMFrequency`; `SetFrequency("AM", "600")`
transmits `C0 12 04 1A 00 00`. -/
theorem freq_packet_layout (shark : RadioShark) (t : Nat) (ht : t < 65536) :
    makeFreqPacket t = [0xC0, 0x00, t / 256, t % 256, 0, 0] ∧
      256 * (t / 256) + t % 256 = t ∧ t / 256 < 256 ∧ t % 256 < 256 ∧
      (shark.SetFMFrequency t).2.sent = shark.sent ++ [[0xC0, 0x00, t / 256, t % 256, 0, 0]] ∧
      (shark.SetAMFrequency t).2.sent = shark.sent ++ [[0xC0, 0x12, t / 256, t % 256, 0, 0]] ∧
      (shark.SetFrequency "AM" "600").2.sent = shark.sent ++ [[0xC0, 0x12, 0x04, 0x1A, 0, 0]] := by
  have hp := makeFreqPacket_eq t ht
  refine ⟨hp, by omega, by omega, by omega, ?_, ?_, ?_⟩
  · simp only [RadioShark.SetFMFrequency, writeHIDPacket_sent, hp]
  · simp only [RadioShark.SetAMFrequency, writeHIDPacket_sent, hp]
    simp [List.set]
  · have hv : ValidateModulation "AM" = none := by decide
    have hq : ParseAMFrequency "600" = .ok 1050 := by decide
    have hne : ¬ (("AM" : String) = "FM" ∨ ("AM" : String) = "fm") := by decide
    have hpk := makeFreqPacket_eq 1050 (by norm_num)
    simp only [RadioShark.SetFrequency, hv, hq, hne, if_false, true_or, if_true,
      RadioShark.SetAMFrequency, writeHIDPacket_sent, hpk]
    simp [List.set]

/-- C10, at the tuning value 1050 of AM 600 kHz on a fresh device. -/
theorem freq_packet_layout_witness :
    makeFreqPacket 1050 = [0xC0, 0x00, 0x04, 0x1A, 0, 0] ∧
      (RadioShark.SetAMFrequency { sent := [], script := [] } 1050).2.sent
        = [[0xC0, 0x12, 0x04, 0x1A, 0, 0]] :=
  ⟨(freq_packet_layout { sent := [], script := [] } 1050 (by decide)).1,
   (freq_packet_layout { sent := [], script := [] } 1050 (by decide)).2.2.2.2.2.1⟩

/-! ## Binary exponents -/

theorem log2Aux_spec : ∀ (fuel n : Nat), 0 < n → n ≤ fuel →
    2 ^ log2Aux fuel n ≤ n ∧ n < 2 ^ (log2Aux fuel n + 1)
  | 0, n, h0, h1 => by omega
  | fuel + 1, n, h0, h1 => by
      unfold log2Aux
      by_cases h2 : n < 2
      · simp only [h2, if_true]
        constructor <;> simp <;> omega
      · simp only [h2, if_false]
        have ih := log2Aux_spec fuel (n / 2) (by omega) (by omega)
        have e1 : 2 ^ (log2Aux fuel (n / 2) + 1) = 2 * 2 ^ log2Aux fuel (n / 2) := by
          rw [pow_succ]; ring
        have e2 : 2 ^ (log2Aux fuel (n / 2) + 1 + 1) = 2 * 2 ^ (log2Aux fuel (n / 2) + 1) := by
          rw [pow_succ]; ring
        rw [e2, e1]
        rw [e1] at ih
        constructor <;> omega

theorem natLog2_spec {n : Nat} (hn : 0 < n) :
    2 ^ natLog2 n ≤ n ∧ n < 2 ^ (natLog2 n + 1) :=
  log2Aux_spec n n hn (Nat.le_refl n)

theorem natLog2_lt {n k : Nat} (h : n < 2 ^ k) (hk : 0 < k) : natLog2 n < k := by
  rcases Nat.eq_zero_or_pos n with h0 | h0
  · subst h0
    have : natLog2 0 = 0 := rfl
    omega
  · have h1 := (natLog2_spec h0).1
    have h2 : 2 ^ natLog2 n < 2 ^ k := lt_of_le_of_lt h1 h
    exact (Nat.pow_lt_pow_iff_right (by norm_num)).1 h2

theorem binade_unique {q : ℚ} {e e' : ℤ} (h1 : (2 : ℚ) ^ e ≤ q) (h2 : q < (2 : ℚ) ^ (e + 1))
    (h3 : (2 : ℚ) ^ e' ≤ q) (h4 : q < (2 : ℚ) ^ (e' + 1)) : e = e' := by
  have two : (1 : ℚ) < 2 := by norm_num
  have a : (2 : ℚ) ^ e < (2 : ℚ) ^ (e' + 1) := lt_of_le_of_lt h1 h4
  have b : (2 : ℚ) ^ e' < (2 : ℚ) ^ (e + 1) := lt_of_le_of_lt h3 h2
  have a' := (zpow_lt_zpow_iff_right₀ two).1 a
  have b' := (zpow_lt_zpow_iff_right₀ two).1 b
  omega

theorem ratLog2_eq_ite {n d : Nat} (hd : 0 < d) :
    ratLog2 n d =
      if (2 : ℚ) ^ ((natLog2 n : ℤ) - (natLog2 d : ℤ)) * (d : ℚ) ≤ (n : ℚ)
      then (natLog2 n : ℤ) - (natLog2 d : ℤ) else (natLog2 n : ℤ) - (natLog2 d : ℤ) - 1 := by
  have hdq : (0 : ℚ) < d := by exact_mod_cast hd
  unfold ratLog2
  simp only
  by_cases h0 : 0 ≤ (natLog2 n : ℤ) - (natLog2 d : ℤ)
  · have hk : ((((natLog2 n : ℤ) - (natLog2 d : ℤ)).toNat : ℕ) : ℤ)
        = (natLog2 n : ℤ) - (natLog2 d : ℤ) := Int.toNat_of_nonneg h0
    have e1 : (2 : ℚ) ^ ((natLog2 n : ℤ) - (natLog2 d : ℤ))
        = ((2 ^ ((natLog2 n : ℤ) - (natLog2 d : ℤ)).toNat : ℕ) : ℚ) := by
      rw [Nat.cast_pow, ← zpow_natCast, hk]; norm_num
    have hc : (d * 2 ^ ((natLog2 n : ℤ) - (natLog2 d : ℤ)).toNat ≤ n) ↔
        (2 : ℚ) ^ ((natLog2 n : ℤ) - (natLog2 d : ℤ)) * (d : ℚ) ≤ (n : ℚ) := by
      rw [e1, mul_comm]
      exact_mod_cast Iff.rfl
    simp only [h0, if_true, hc]
  · have h0' : 0 ≤ -((natLog2 n : ℤ) - (natLog2 d : ℤ)) := by omega
    have hk : (((-((natLog2 n : ℤ) - (natLog2 d : ℤ))).toNat : ℕ) : ℤ)
        = -((natLog2 n : ℤ) - (natLog2 d : ℤ)) := Int.toNat_of_nonneg h0'
    have e1 : (2 : ℚ) ^ ((natLog2 n : ℤ) - (natLog2 d : ℤ))
        = (((2 ^ (-((natLog2 n : ℤ) - (natLog2 d : ℤ))).toNat : ℕ) : ℚ))⁻¹ := by
      rw [Nat.cast_pow, ← zpow_natCast, hk, zpow_neg, inv_inv]; norm_num
    have hpos : (0 : ℚ) < ((2 ^ (-((natLog2 n : ℤ) - (natLog2 d : ℤ))).toNat : ℕ) : ℚ) := by
      positivity
    have hc : (d ≤ n * 2 ^ (-((natLog2 n : ℤ) - (natLog2 d : ℤ))).toNat) ↔
        (2 : ℚ) ^ ((natLog2 n : ℤ) - (natLog2 d : ℤ)) * (d : ℚ) ≤ (n : ℚ) := by
      rw [e1, inv_mul_le_iff₀ hpos, mul_comm]
      exact_mod_cast Iff.rfl
    simp only [h0, if_false, hc]

theorem ratLog2_spec {n d : Nat} (hn : 0 < n) (hd : 0 < d) :
    (2 : ℚ) ^ ratLog2 n d ≤ (n : ℚ) / d ∧ (n : ℚ) / d < (2 : ℚ) ^ (ratLog2 n d + 1) := by
  obtain ⟨ha1, ha2⟩ := natLog2_spec hn
  obtain ⟨hb1, hb2⟩ := natLog2_spec hd
  have hdq : (0 : ℚ) < d := by exact_mod_cast hd
  have hA1 : (2 : ℚ) ^ (natLog2 n : ℤ) ≤ n := by
    rw [zpow_natCast]; exact_mod_cast ha1
  have hA2 : (n : ℚ) < (2 : ℚ) ^ ((natLog2 n : ℤ) + 1) := by
    have : ((natLog2 n : ℤ) + 1) = ((natLog2 n + 1 : ℕ) : ℤ) := by push_cast; ring
    rw [this, zpow_natCast]; exact_mod_cast ha2
  have hB1 : (2 : ℚ) ^ (natLog2 d : ℤ) ≤ d := by
    rw [zpow_natCast]; exact_mod_cast hb1
  have hB2 : (d : ℚ) < (2 : ℚ) ^ ((natLog2 d : ℤ) + 1) := by
    have : ((natLog2 d : ℤ) + 1) = ((natLog2 d + 1 : ℕ) : ℤ) := by push_cast; ring
    rw [this, zpow_natCast]; exact_mod_cast hb2
  have two : (2 : ℚ) ≠ 0 := by norm_num
  rw [ratLog2_eq_ite hd]
  split
  · rename_i h
    refine ⟨(le_div_iff₀ hdq).2 h, (div_lt_iff₀ hdq).2 ?_⟩
    have hp : (0 : ℚ) < (2 : ℚ) ^ ((natLog2 n : ℤ) - (natLog2 d : ℤ) + 1) := by positivity
    calc (n : ℚ) < (2 : ℚ) ^ ((natLog2 n : ℤ) + 1) := hA2
      _ = (2 : ℚ) ^ ((natLog2 n : ℤ) - (natLog2 d : ℤ) + 1) * (2 : ℚ) ^ (natLog2 d : ℤ) := by
          rw [← zpow_add₀ two]; congr 1; ring
      _ ≤ (2 : ℚ) ^ ((natLog2 n : ℤ) - (natLog2 d : ℤ) + 1) * (d : ℚ) :=
          mul_le_mul_of_nonneg_left hB1 hp.le
  · rename_i h
    refine ⟨(le_div_iff₀ hdq).2 ?_, (div_lt_iff₀ hdq).2 ?_⟩
    · have hp : (0 : ℚ) < (2 : ℚ) ^ ((natLog2 n : ℤ) - (natLog2 d : ℤ) - 1) := by positivity
      calc (2 : ℚ) ^ ((natLog2 n : ℤ) - (natLog2 d : ℤ) - 1) * (d : ℚ)
          ≤ (2 : ℚ) ^ ((natLog2 n : ℤ) - (natLog2 d : ℤ) - 1) * (2 : ℚ) ^ ((natLog2 d : ℤ) + 1) :=
            mul_le_mul_of_nonneg_left hB2.le hp.le
        _ = (2 : ℚ) ^ (natLog2 n : ℤ) := by
            rw [← zpow_add₀ two]; congr 1; ring
        _ ≤ n := hA1
    · have : (natLog2 n : ℤ) - (natLog2 d : ℤ) - 1 + 1 = (natLog2 n : ℤ) - (natLog2 d : ℤ) := by
        ring
      rw [this]
      exact lt_of_not_le h

theorem ratLog2_eq {n d : Nat} (hn : 0 < n) (hd : 0 < d) (e : ℤ)
    (h1 : (2 : ℚ) ^ e ≤ (n : ℚ) / d) (h2 : (n : ℚ) / d < (2 : ℚ) ^ (e + 1)) :
    ratLog2 n d = e :=
  binade_unique (ratLog2_spec hn hd).1 (ratLog2_spec hn hd).2 h1 h2

/-! ## Rounding to the nearest integer -/

theorem roundHalfEven_one (n : Nat) : roundHalfEven n 1 = n := by
  simp [roundHalfEven, Nat.mod_one]

theorem roundHalfEven_cases (n d : Nat) :
    roundHalfEven n d = n / d ∧ 2 * (n % d) ≤ d ∨
      roundHalfEven n d = n / d + 1 ∧ d ≤ 2 * (n % d) := by
  unfold roundHalfEven
  simp only
  split
  · left; constructor <;> omega
  · split
    · right; constructor <;> omega
    · split
      · left; constructor <;> omega
      · right; constructor <;> omega

theorem roundHalfEven_ge {n d a : Nat} (hd : 0 < d) (h : a * d ≤ n) :
    a ≤ roundHalfEven n d := by
  have h1 : a ≤ n / d := (Nat.le_div_iff_mul_le hd).2 h
  unfold roundHalfEven
  simp only
  split
  · exact h1
  · split
    · omega
    · split <;> omega

theorem roundHalfEven_le {n d b : Nat} (hd : 0 < d) (h : n ≤ b * d) :
    roundHalfEven n d ≤ b := by
  have h1 : n / d ≤ b := by
    have := Nat.div_le_div_right (c := d) h
    rwa [Nat.mul_div_cancel _ hd] at this
  rcases Nat.lt_or_ge (n / d) b with h2 | h2
  · unfold roundHalfEven
    simp only
    split
    · omega
    · split
      · omega
      · split <;> omega
  · have h3 : n / d = b := Nat.le_antisymm h1 h2
    have h4 : b * d ≤ n := by rw [← h3]; exact Nat.div_mul_le_self n d
    have h5 : n = b * d := Nat.le_antisymm h h4
    have h6 : n % d = 0 := by rw [h5]; exact Nat.mul_mod_left b d
    unfold roundHalfEven
    simp only [h6]
    simp [hd, h3]

theorem roundHalfEven_mono {n d n' d' : Nat} (hd : 0 < d) (hd' : 0 < d')
    (h : n * d' ≤ n' * d) : roundHalfEven n d ≤ roundHalfEven n' d' := by
  have e1 := Nat.div_add_mod n d
  have e2 := Nat.div_add_mod n' d'
  have r1 := Nat.mod_lt n hd
  have r2 := Nat.mod_lt n' hd'
  have hff : n / d ≤ n' / d' := by
    rw [Nat.le_div_iff_mul_le hd']
    have h1 : n / d * d ≤ n := Nat.div_mul_le_self n d
    have h2 : n / d * d' * d ≤ n' * d := by
      calc n / d * d' * d = n / d * d * d' := by ring
        _ ≤ n * d' := Nat.mul_le_mul_right _ h1
        _ ≤ n' * d := h
    exact Nat.le_of_mul_le_mul_right h2 hd
  rcases roundHalfEven_cases n d with ⟨a1, a2⟩ | ⟨a1, a2⟩
  · rcases roundHalfEven_cases n' d' with ⟨b1, b2⟩ | ⟨b1, b2⟩ <;> omega
  · rcases Nat.lt_or_ge (n / d) (n' / d') with hlt | hge
    · rcases roundHalfEven_cases n' d' with ⟨b1, b2⟩ | ⟨b1, b2⟩ <;> omega
    · have hfe : n / d = n' / d' := Nat.le_antisymm hff hge
      -- equal integer parts: compare the fractional parts
      have hr : n % d * d' ≤ n' % d' * d := by
        have h3 : (d * (n / d) + n % d) * d' ≤ (d' * (n' / d') + n' % d') * d := by
          rw [e1, e2]; exact h
        rw [← hfe] at h3
        have h4 : d * (n / d) * d' + n % d * d' ≤ d * (n / d) * d' + n' % d' * d := by
          calc d * (n / d) * d' + n % d * d' = (d * (n / d) + n % d) * d' := by ring
            _ ≤ (d' * (n / d) + n' % d') * d := h3
            _ = d * (n / d) * d' + n' % d' * d := by ring
        omega
      have hup : d' ≤ 2 * (n' % d') := by
        by_contra hc
        push_neg at hc
        have h5 : 2 * (n' % d') * d < d' * d := Nat.mul_lt_mul_of_pos_right hc hd
        have h6 : d * d' ≤ 2 * (n % d) * d' := Nat.mul_le_mul_right _ a2
        have h7 : 2 * (n % d) * d' ≤ 2 * (n' % d') * d := by
          calc 2 * (n % d) * d' = 2 * (n % d * d') := by ring
            _ ≤ 2 * (n' % d' * d) := Nat.mul_le_mul_left _ hr
            _ = 2 * (n' % d') * d := by ring
        have h8 : d * d' = d' * d := Nat.mul_comm d d'
        omega
      -- both round up, or both sit on the tie with the same integer part
      by_cases t' : d' < 2 * (n' % d')
      · rcases roundHalfEven_cases n' d' with ⟨b1, b2⟩ | ⟨b1, b2⟩ <;> omega
      · have tie' : 2 * (n' % d') = d' := by omega
        have tie : 2 * (n % d) = d := by
          have h7 : 2 * (n % d) * d' ≤ 2 * (n' % d') * d := by
            calc 2 * (n % d) * d' = 2 * (n % d * d') := by ring
              _ ≤ 2 * (n' % d' * d) := Nat.mul_le_mul_left _ hr
              _ = 2 * (n' % d') * d := by ring
          rw [tie'] at h7
          have h9 : 2 * (n % d) * d' ≤ d * d' := by rw [Nat.mul_comm d d']; exact h7
          have h10 : 2 * (n % d) ≤ d := Nat.le_of_mul_le_mul_right h9 hd'
          omega
        have nt1 : ¬ 2 * (n % d) < d := by omega
        have nt2 : ¬ d < 2 * (n % d) := by omega
        have nt1' : ¬ 2 * (n' % d') < d' := by omega
        unfold roundHalfEven
        simp only [nt1, nt2, nt1', t', if_false, ← hfe]
        exact Nat.le_refl _

theorem roundScaled_nonneg (n d : Nat) (t : Nat) :
    roundScaled n d (t : ℤ) = roundHalfEven (n * 2 ^ t) d := by
  unfold roundScaled
  have : (0 : ℤ) ≤ (t : ℤ) := Int.ofNat_nonneg t
  simp only [this, if_true, Int.toNat_ofNat]

theorem roundScaled_bounds {n d : Nat} (hd : 0 < d) (t : ℤ) (a : Nat) :
    ((a : ℚ) ≤ (n : ℚ) / d * (2 : ℚ) ^ t → a ≤ roundScaled n d t) ∧
      ((n : ℚ) / d * (2 : ℚ) ^ t ≤ (a : ℚ) → roundScaled n d t ≤ a) := by
  have hdq : (0 : ℚ) < d := by exact_mod_cast hd
  unfold roundScaled
  by_cases h0 : 0 ≤ t
  · have hk : ((t.toNat : ℕ) : ℤ) = t := Int.toNat_of_nonneg h0
    have e1 : (2 : ℚ) ^ t = ((2 ^ t.toNat : ℕ) : ℚ) := by
      rw [Nat.cast_pow, ← zpow_natCast, hk]; norm_num
    simp only [h0, if_true, e1]
    constructor
    · intro h
      apply roundHalfEven_ge hd
      have h' : (a : ℚ) * d ≤ (n : ℚ) * ((2 ^ t.toNat : ℕ) : ℚ) := by
        rw [div_mul_eq_mul_div, le_div_iff₀ hdq] at h
        exact h
      exact_mod_cast h'
    · intro h
      apply roundHalfEven_le hd
      have h' : (n : ℚ) * ((2 ^ t.toNat : ℕ) : ℚ) ≤ (a : ℚ) * d := by
        rw [div_mul_eq_mul_div, div_le_iff₀ hdq] at h
        exact h
      exact_mod_cast h'
  · have h0' : 0 ≤ -t := by omega
    have hk : (((-t).toNat : ℕ) : ℤ) = -t := Int.toNat_of_nonneg h0'
    have e1 : (2 : ℚ) ^ t = (((2 ^ (-t).toNat : ℕ) : ℚ))⁻¹ := by
      rw [Nat.cast_pow, ← zpow_natCast, hk, zpow_neg, inv_inv]; norm_num
    have hP : (0 : ℚ) < ((2 ^ (-t).toNat : ℕ) : ℚ) := by positivity
    have hdP : 0 < d * 2 ^ (-t).toNat := Nat.mul_pos hd (by positivity)
    have hdPq : (0 : ℚ) < (d : ℚ) * ((2 ^ (-t).toNat : ℕ) : ℚ) := mul_pos hdq hP
    have e2 : (n : ℚ) / d * (((2 ^ (-t).toNat : ℕ) : ℚ))⁻¹
        = (n : ℚ) / ((d : ℚ) * ((2 ^ (-t).toNat : ℕ) : ℚ)) := by
      rw [div_mul_eq_mul_div, ← div_eq_mul_inv, div_div, mul_comm]
    simp only [h0, if_false, e1, e2]
    constructor
    · intro h
      apply roundHalfEven_ge hdP
      have h' : (a : ℚ) * ((d : ℚ) * ((2 ^ (-t).toNat : ℕ) : ℚ)) ≤ (n : ℚ) :=
        (le_div_iff₀ hdPq).1 h
      exact_mod_cast h'
    · intro h
      apply roundHalfEven_le hdP
      have h' : (n : ℚ) ≤ (a : ℚ) * ((d : ℚ) * ((2 ^ (-t).toNat : ℕ) : ℚ)) :=
        (div_le_iff₀ hdPq).1 h
      exact_mod_cast h'

theorem roundScaled_mono {n d n' d' : ℕ} (hd : 0 < d) (hd' : 0 < d') (k : ℕ)
    (h : (n : ℚ) / d ≤ (n' : ℚ) / d') :
    roundScaled n d (k : ℤ) ≤ roundScaled n' d' (k : ℤ) := by
  rw [roundScaled_nonneg, roundScaled_nonneg]
  apply roundHalfEven_mono hd hd'
  have hdq : (0 : ℚ) < d := by exact_mod_cast hd
  have hdq' : (0 : ℚ) < d' := by exact_mod_cast hd'
  rw [div_le_div_iff₀ hdq hdq'] at h
  have h2 : (n : ℚ) * d' * (2 : ℚ) ^ k ≤ (n' : ℚ) * d * (2 : ℚ) ^ k :=
    mul_le_mul_of_nonneg_right h (by positivity)
  have h3 : ((n * 2 ^ k * d' : ℕ) : ℚ) ≤ ((n' * 2 ^ k * d : ℕ) : ℚ) := by
    push_cast
    linarith
  exact_mod_cast h3

/-! ## Rounding to a float -/

theorem roundNE_of_binade (fmt : FloatFormat) (neg : Bool) {n d : Nat} (x e : ℤ)
    (hn : 0 < n) (hd : 0 < d)
    (h1 : (2 : ℚ) ^ e ≤ (n : ℚ) / d) (h2 : (n : ℚ) / d < (2 : ℚ) ^ (e + 1)) :
    roundNE fmt neg n d x =
      if fmt.emax + 1 - max (e + x - ((fmt.p : Int) - 1)) fmt.smin ≤
          (natLog2 (roundScaled n d (x - max (e + x - ((fmt.p : Int) - 1)) fmt.smin)) : Int)
      then .inf neg
      else .fin
        (if neg then
          -((roundScaled n d (x - max (e + x - ((fmt.p : Int) - 1)) fmt.smin) : Nat) : Int)
         else ((roundScaled n d (x - max (e + x - ((fmt.p : Int) - 1)) fmt.smin) : Nat) : Int))
        (max (e + x - ((fmt.p : Int) - 1)) fmt.smin) := by
  unfold roundNE
  rw [ratLog2_eq hn hd e h1 h2]
  simp only [Nat.pos_iff_ne_zero.1 hn, if_false]

/-- An exactly representable positive integer multiple `n * 2 ^ x` is left
unchanged by rounding to `float64` when `n` lies in `[2 ^ j, 2 ^ (j + 1))` with
`j ≤ 52` and the resulting exponent stays in range. -/
theorem roundNE64_exact (n : Nat) (x : ℤ) (j : Nat) (hj : j ≤ 52)
    (h1 : 2 ^ j ≤ n) (h2 : n < 2 ^ (j + 1)) (hx : -1022 ≤ x + j) (hx' : x + j ≤ 1000) :
    roundNE binary64 false n 1 x = .fin ((n * 2 ^ (52 - j) : Nat) : Int) (x + j - 52) := by
  have hn : 0 < n := lt_of_lt_of_le (by positivity) h1
  have q1 : (2 : ℚ) ^ (j : ℤ) ≤ (n : ℚ) / (1 : ℕ) := by
    rw [zpow_natCast]; simp only [Nat.cast_one, div_one]; exact_mod_cast h1
  have q2 : (n : ℚ) / (1 : ℕ) < (2 : ℚ) ^ ((j : ℤ) + 1) := by
    have : ((j : ℤ) + 1) = ((j + 1 : ℕ) : ℤ) := by push_cast; ring
    rw [this, zpow_natCast]; simp only [Nat.cast_one, div_one]; exact_mod_cast h2
  rw [roundNE_of_binade binary64 false x j hn Nat.one_pos q1 q2]
  have hs : max ((j : ℤ) + x - (((binary64.p : ℕ) : ℤ) - 1)) binary64.smin = x + j - 52 := by
    simp only [binary64]; push_cast; omega
  rw [hs]
  have hxs : x - (x + j - 52) = ((52 - j : ℕ) : ℤ) := by omega
  simp only [hxs, roundScaled_nonneg, roundHalfEven_one]
  have hlt : n * 2 ^ (52 - j) < 2 ^ 53 := by
    calc n * 2 ^ (52 - j) < 2 ^ (j + 1) * 2 ^ (52 - j) :=
          Nat.mul_lt_mul_of_pos_right h2 (by positivity)
      _ = 2 ^ 53 := by rw [← pow_add]; congr 1; omega
  have hl := natLog2_lt hlt (by norm_num)
  have hno : ¬ (binary64.emax + 1 - (x + j - 52) ≤ (natLog2 (n * 2 ^ (52 - j)) : ℤ)) := by
    simp only [binary64]; omega
  simp only [hno, if_false, Bool.false_eq_true]

/-- A natural number below `2 ^ 24` converts to `float32` without rounding. -/
theorem roundNE32_exact (n : Nat) (j : Nat) (hj : j ≤ 23)
    (h1 : 2 ^ j ≤ n) (h2 : n < 2 ^ (j + 1)) :
    roundNE binary32 false n 1 0 = .fin ((n * 2 ^ (23 - j) : Nat) : Int) ((j : ℤ) - 23) := by
  have hn : 0 < n := lt_of_lt_of_le (by positivity) h1
  have q1 : (2 : ℚ) ^ (j : ℤ) ≤ (n : ℚ) / (1 : ℕ) := by
    rw [zpow_natCast]; simp only [Nat.cast_one, div_one]; exact_mod_cast h1
  have q2 : (n : ℚ) / (1 : ℕ) < (2 : ℚ) ^ ((j : ℤ) + 1) := by
    have : ((j : ℤ) + 1) = ((j + 1 : ℕ) : ℤ) := by push_cast; ring
    rw [this, zpow_natCast]; simp only [Nat.cast_one, div_one]; exact_mod_cast h2
  rw [roundNE_of_binade binary32 false 0 j hn Nat.one_pos q1 q2]
  have hs : max ((j : ℤ) + 0 - (((binary32.p : ℕ) : ℤ) - 1)) binary32.smin = (j : ℤ) - 23 := by
    simp only [binary32]; push_cast; omega
  rw [hs]
  have hxs : (0 : ℤ) - ((j : ℤ) - 23) = ((23 - j : ℕ) : ℤ) := by omega
  simp only [hxs, roundScaled_nonneg, roundHalfEven_one]
  have hlt : n * 2 ^ (23 - j) < 2 ^ 24 := by
    calc n * 2 ^ (23 - j) < 2 ^ (j + 1) * 2 ^ (23 - j) :=
          Nat.mul_lt_mul_of_pos_right h2 (by positivity)
      _ = 2 ^ 24 := by rw [← pow_add]; congr 1; omega
  have hl := natLog2_lt hlt (by norm_num)
  have hno : ¬ (binary32.emax + 1 - ((j : ℤ) - 23) ≤ (natLog2 (n * 2 ^ (23 - j)) : ℤ)) := by
    simp only [binary32]; omega
  simp only [hno, if_false, Bool.false_eq_true]

/-- A `float32` produced by rounding that lies in `[88, 108]` has exponent
`-17` and a significand between `88 * 2 ^ 17` and `108 * 2 ^ 17`. -/
theorem roundNE32_range {neg : Bool} {n d : Nat} {m s : ℤ} (hd : 0 < d)
    (h : roundNE binary32 neg n d 0 = .fin m s)
    (h88 : (88 : ℚ) ≤ (m : ℚ) * (2 : ℚ) ^ s) (h108 : (m : ℚ) * (2 : ℚ) ^ s ≤ 108) :
    s = -17 ∧ 11534336 ≤ m ∧ m ≤ 14155776 ∧ m = ((roundScaled n d 17 : ℕ) : ℤ) := by
  have two : (2 : ℚ) ≠ 0 := by norm_num
  have two1 : (1 : ℚ) < 2 := by norm_num
  have hpos : (0 : ℚ) < (2 : ℚ) ^ s := by positivity
  by_cases hn : n = 0
  · unfold roundNE at h
    simp only [hn, if_true] at h
    injection h with hm hs
    rw [← hm] at h88
    norm_num at h88
  · have hn' : 0 < n := Nat.pos_of_ne_zero hn
    obtain ⟨sp1, sp2⟩ := ratLog2_spec hn' hd
    unfold roundNE at h
    simp only [hn, if_false] at h
    have hp : ((binary32.p : ℕ) : ℤ) = 24 := rfl
    have hsm : binary32.smin = -149 := rfl
    rw [hp, hsm] at h
    split at h
    · cases h
    · injection h with hm hs
      have hmpos : (0 : ℚ) < (m : ℚ) := by
        by_contra hcon
        push_neg at hcon
        have := mul_nonpos_of_nonpos_of_nonneg hcon hpos.le
        linarith
      have hmM : m = ((roundScaled n d (0 - max (ratLog2 n d + 0 - (24 - 1)) (-149)) : ℕ) : ℤ) := by
        cases neg
        · simpa using hm.symm
        · exfalso
          have h1 : m = -((roundScaled n d (0 - max (ratLog2 n d + 0 - (24 - 1)) (-149)) : ℕ) : ℤ) := by
            simpa using hm.symm
          have h2 : m ≤ 0 := by omega
          have h3 : (m : ℚ) ≤ 0 := by exact_mod_cast h2
          linarith
      have hmq : (m : ℚ)
          = ((roundScaled n d (0 - max (ratLog2 n d + 0 - (24 - 1)) (-149)) : ℕ) : ℚ) := by
        rw [hmM]; norm_cast
      by_cases hnorm : -149 ≤ ratLog2 n d - 23
      · have hse : s = ratLog2 n d - 23 := by
          rw [← hs]; rw [max_eq_left (by omega)]; ring
        have hS : max (ratLog2 n d + 0 - (24 - 1)) (-149) = s := hs
        rw [hS] at hmM hmq
        have hts : (0 : ℤ) - s = 23 - ratLog2 n d := by omega
        have b1 : 8388608 ≤ roundScaled n d (0 - s) := by
          apply (roundScaled_bounds hd (0 - s) 8388608).1
          rw [hts]
          calc ((8388608 : ℕ) : ℚ) = (2 : ℚ) ^ ratLog2 n d * (2 : ℚ) ^ (23 - ratLog2 n d) := by
                rw [← zpow_add₀ two]
                have : ratLog2 n d + (23 - ratLog2 n d) = 23 := by ring
                rw [this]; norm_num
            _ ≤ (n : ℚ) / d * (2 : ℚ) ^ (23 - ratLog2 n d) :=
                mul_le_mul_of_nonneg_right sp1 (by positivity)
        have b2 : roundScaled n d (0 - s) ≤ 16777216 := by
          apply (roundScaled_bounds hd (0 - s) 16777216).2
          rw [hts]
          calc (n : ℚ) / d * (2 : ℚ) ^ (23 - ratLog2 n d)
              ≤ (2 : ℚ) ^ (ratLog2 n d + 1) * (2 : ℚ) ^ (23 - ratLog2 n d) :=
                mul_le_mul_of_nonneg_right sp2.le (by positivity)
            _ = ((16777216 : ℕ) : ℚ) := by
                rw [← zpow_add₀ two]
                have : ratLog2 n d + 1 + (23 - ratLog2 n d) = 24 := by ring
                rw [this]; norm_num
        have b1q : (8388608 : ℚ) ≤ (m : ℚ) := by rw [hmq]; exact_mod_cast b1
        have b2q : (m : ℚ) ≤ 16777216 := by rw [hmq]; exact_mod_cast b2
        have u1 : (2 : ℚ) ^ (23 + s) < (2 : ℚ) ^ (7 : ℤ) := by
          calc (2 : ℚ) ^ (23 + s) = (2 : ℚ) ^ (23 : ℤ) * (2 : ℚ) ^ s := zpow_add₀ two _ _
            _ = 8388608 * (2 : ℚ) ^ s := by norm_num
            _ ≤ (m : ℚ) * (2 : ℚ) ^ s := mul_le_mul_of_nonneg_right b1q hpos.le
            _ ≤ 108 := h108
            _ < (2 : ℚ) ^ (7 : ℤ) := by norm_num
        have u2 : (2 : ℚ) ^ (6 : ℤ) < (2 : ℚ) ^ (24 + s) := by
          calc (2 : ℚ) ^ (6 : ℤ) < 88 := by norm_num
            _ ≤ (m : ℚ) * (2 : ℚ) ^ s := h88
            _ ≤ 16777216 * (2 : ℚ) ^ s := mul_le_mul_of_nonneg_right b2q hpos.le
            _ = (2 : ℚ) ^ (24 : ℤ) * (2 : ℚ) ^ s := by norm_num
            _ = (2 : ℚ) ^ (24 + s) := (zpow_add₀ two _ _).symm
        have v1 := (zpow_lt_zpow_iff_right₀ two1).1 u1
        have v2 := (zpow_lt_zpow_iff_right₀ two1).1 u2
        have hs17 : s = -17 := by omega
        refine ⟨hs17, ?_, ?_, ?_⟩
        · rw [hs17] at h88
          have e : (2 : ℚ) ^ (-17 : ℤ) = 1 / 131072 := by norm_num
          rw [e] at h88
          have : (11534336 : ℚ) ≤ (m : ℚ) := by linarith
          exact_mod_cast this
        · rw [hs17] at h108
          have e : (2 : ℚ) ^ (-17 : ℤ) = 1 / 131072 := by norm_num
          rw [e] at h108
          have : (m : ℚ) ≤ 14155776 := by linarith
          exact_mod_cast this
        · rw [hmM, hs17]
          rfl
      · exfalso
        have hS : max (ratLog2 n d + 0 - (24 - 1)) (-149) = -149 := by
          rw [max_eq_right (by omega)]
        rw [hS] at hmq hs
        have b2 : roundScaled n d (0 - -149) ≤ 8388608 := by
          apply (roundScaled_bounds hd (0 - -149) 8388608).2
          have hts : (0 : ℤ) - -149 = 149 := by norm_num
          rw [hts]
          calc (n : ℚ) / d * (2 : ℚ) ^ (149 : ℤ)
              ≤ (2 : ℚ) ^ (ratLog2 n d + 1) * (2 : ℚ) ^ (149 : ℤ) :=
                mul_le_mul_of_nonneg_right sp2.le (by positivity)
            _ = (2 : ℚ) ^ (ratLog2 n d + 1 + 149) := (zpow_add₀ two _ _).symm
            _ ≤ (2 : ℚ) ^ (23 : ℤ) := zpow_le_zpow_right₀ two1.le (by omega)
            _ = ((8388608 : ℕ) : ℚ) := by norm_num
        have b2q : (m : ℚ) ≤ 8388608 := by rw [hmq]; exact_mod_cast b2
        have : (m : ℚ) * (2 : ℚ) ^ s ≤ 1 := by
          calc (m : ℚ) * (2 : ℚ) ^ s ≤ 8388608 * (2 : ℚ) ^ s :=
                mul_le_mul_of_nonneg_right b2q hpos.le
            _ = (2 : ℚ) ^ (23 : ℤ) * (2 : ℚ) ^ s := by norm_num
            _ = (2 : ℚ) ^ (23 + s) := (zpow_add₀ two _ _).symm
            _ ≤ (2 : ℚ) ^ (0 : ℤ) := zpow_le_zpow_right₀ two1.le (by omega)
            _ = 1 := by norm_num
        linarith

/-! ## Comparison and conversion -/

theorem alignTo_cast (m e e' : ℤ) :
    ((alignTo m e e' : ℤ) : ℚ) = (m : ℚ) * (2 : ℚ) ^ e / (2 : ℚ) ^ (min e e') := by
  have two : (2 : ℚ) ≠ 0 := by norm_num
  unfold alignTo
  have h0 : 0 ≤ e - min e e' := by
    have := min_le_left e e'
    omega
  have hk : (((e - min e e').toNat : ℕ) : ℤ) = e - min e e' := Int.toNat_of_nonneg h0
  push_cast
  rw [← zpow_natCast, hk, zpow_sub₀ two, mul_div_assoc]

theorem lt_fin_iff (m e m' e' : ℤ) :
    (GoFloat.fin m e).lt (.fin m' e') = true ↔
      (m : ℚ) * (2 : ℚ) ^ e < (m' : ℚ) * (2 : ℚ) ^ e' := by
  have hpos : (0 : ℚ) < (2 : ℚ) ^ (min e e') := by positivity
  simp only [GoFloat.lt, decide_eq_true_eq]
  rw [← Int.cast_lt (R := ℚ), alignTo_cast, alignTo_cast, min_comm e' e,
    div_lt_div_iff_of_pos_right hpos]

theorem truncInt_neg (m t : Nat) (ht : 0 < t) :
    truncInt (m : ℤ) (-(t : ℤ)) = ((m / 2 ^ t : Nat) : ℤ) := by
  unfold truncInt
  have h0 : ¬ (0 : ℤ) ≤ -(t : ℤ) := by omega
  simp only [h0, if_false, neg_neg, Int.toNat_ofNat]
  rw [Int.ofNat_tdiv]
  norm_num

theorem toUint16_fin_neg (m t : Nat) (ht : 0 < t) (h : m / 2 ^ t < 65536) :
    (GoFloat.fin (m : ℤ) (-(t : ℤ))).toUint16 = m / 2 ^ t := by
  simp only [GoFloat.toUint16]
  rw [truncInt_neg m t ht]
  have : (0 : ℤ) ≤ ((m / 2 ^ t : Nat) : ℤ) ∧ ((m / 2 ^ t : Nat) : ℤ) < 65536 :=
    ⟨Int.ofNat_nonneg _, by exact_mod_cast h⟩
  simp only [this, and_self, if_true, Int.toNat_ofNat]

/-! ## The AM encoding -/

theorem am_encode (v : ℤ) (h1 : 535 ≤ v) (h2 : v ≤ 1705) :
    (float32OfInt v).toUint16 = v.toNat := by
  have hv : v = ((v.toNat : ℕ) : ℤ) := (Int.toNat_of_nonneg (by omega)).symm
  have hk1 : 535 ≤ v.toNat := by omega
  have hk2 : v.toNat ≤ 1705 := by omega
  generalize v.toNat = k at hv hk1 hk2
  subst hv
  unfold float32OfInt
  have e1 : decide ((k : ℤ) < 0) = false := decide_eq_false (by omega)
  rw [e1, Int.natAbs_ofNat]
  by_cases hc : k < 1024
  · rw [roundNE32_exact k 9 (by norm_num) (by norm_num; omega) (by norm_num; omega)]
    have := toUint16_fin_neg (k * 2 ^ (23 - 9)) 14 (by norm_num) (by norm_num; omega)
    have e9 : ((9 : ℕ) : ℤ) - 23 = -((14 : ℕ) : ℤ) := by norm_num
    rw [e9, this]
    exact Nat.mul_div_cancel k (by norm_num)
  · rw [roundNE32_exact k 10 (by norm_num) (by norm_num; omega) (by norm_num; omega)]
    have := toUint16_fin_neg (k * 2 ^ (23 - 10)) 13 (by norm_num) (by norm_num; omega)
    have e10 : ((10 : ℕ) : ℤ) - 23 = -((13 : ℕ) : ℤ) := by norm_num
    rw [e10, this]
    exact Nat.mul_div_cancel k (by norm_num)

/-- `Atoi` reads a non-empty run of decimal digits as the number they denote. -/
theorem atoi_digits (ds : List Char) (hne : ds ≠ []) (hd : ds.all isDigit = true)
    (hv : digitsVal ds < 2 ^ 63) :
    Atoi (String.mk ds) = .ok ((digitsVal ds : ℕ) : ℤ) := by
  cases ds with
  | nil => exact absurd rfl hne
  | cons c cs =>
    have hc : isDigit c = true := by
      simp only [List.all_cons, Bool.and_eq_true] at hd
      exact hd.1
    have hplus : c ≠ '+' := by
      intro h; rw [h] at hc; exact absurd hc (by decide)
    have hminus : c ≠ '-' := by
      intro h; rw [h] at hc; exact absurd hc (by decide)
    have hbody : (match (String.mk (c :: cs)).data with
        | '+' :: r => r
        | '-' :: r => r
        | cs => cs) = c :: cs := by
      show (match c :: cs with
        | '+' :: r => r
        | '-' :: r => r
        | cs => cs) = c :: cs
      split
      · rename_i h; injection h with h1 _; exact absurd h1 hplus
      · rename_i h; injection h with h1 _; exact absurd h1 hminus
      · rfl
    have hneg : (match (String.mk (c :: cs)).data with
        | '-' :: _ => true
        | _ => false) = false := by
      show (match c :: cs with
        | '-' :: _ => true
        | _ => false) = false
      split
      · rename_i h; injection h with h1 _; exact absurd h1 hminus
      · rfl
    unfold Atoi
    simp only [hbody, hneg]
    have h1 : ((c :: cs).isEmpty || !(c :: cs).all isDigit) = false := by
      rw [hd]; rfl
    have hcast : ((digitsVal (c :: cs) : ℕ) : ℤ) < 2 ^ 63 := by exact_mod_cast hv
    have h2 : ¬ (((digitsVal (c :: cs) : ℕ) : ℤ) < -(2 : ℤ) ^ (intSize - 1) ∨
        (2 : ℤ) ^ (intSize - 1) - 1 < ((digitsVal (c :: cs) : ℕ) : ℤ)) := by
      have e : (2 : ℤ) ^ (intSize - 1) = 2 ^ 63 := rfl
      rw [e]
      omega
    simp only [h1, Bool.false_eq_true, if_false, h2]

/-- C5: when `Atoi` reads the input as the integer `v`, `ParseAMFrequency`
returns `v + 450` for `535 ≤ v ≤ 1705` and the range error otherwise; when
`Atoi` rejects the input, its error is returned.  In particular a run of
decimal digits denoting `v` in `[535, 1705]` gives `v + 450`, and `"600"`
gives 1050. -/
theorem parseAM_spec (freq : String) :
    (∀ v : ℤ, Atoi freq = .ok v → 535 ≤ v → v ≤ 1705 →
        ParseAMFrequency freq = .ok (v + 450).toNat) ∧
      (∀ v : ℤ, Atoi freq = .ok v → v < 535 ∨ 1705 < v →
        ParseAMFrequency freq
          = .error (.errorString "AM frequency must be between 535 and 1705")) ∧
      (∀ err : LeafError, Atoi freq = .error err → ParseAMFrequency freq = .error err) ∧
      (freq.data ≠ [] → freq.data.all isDigit = true →
        535 ≤ digitsVal freq.data → digitsVal freq.data ≤ 1705 →
        ParseAMFrequency freq = .ok (digitsVal freq.data + 450)) ∧
      ParseAMFrequency "600" = .ok 1050 := by
  have p1 : ∀ v : ℤ, Atoi freq = .ok v → 535 ≤ v → v ≤ 1705 →
      ParseAMFrequency freq = .ok (v + 450).toNat := by
    intro v hv h1 h2
    unfold ParseAMFrequency
    have hr : ¬ (v < 535 ∨ v > 1705) := by omega
    simp only [hv, hr, if_false, am_encode v h1 h2]
    congr 1
    omega
  refine ⟨p1, ?_, ?_, ?_, by decide⟩
  · intro v hv h
    unfold ParseAMFrequency
    have hr : v < 535 ∨ v > 1705 := by omega
    simp only [hv, hr, if_true]
  · intro err hv
    unfold ParseAMFrequency
    simp only [hv]
  · intro hne hd h1 h2
    have ha := atoi_digits freq.data hne hd (by omega)
    have := p1 _ ha (by omega) (by omega)
    rw [this]
    congr 1

/-- C5, at the bounds and just outside them, at a signed input, and at inputs
that are not integers. -/
theorem parseAM_spec_witness :
    ParseAMFrequency "535" = .ok 985 ∧ ParseAMFrequency "1705" = .ok 2155 ∧
      ParseAMFrequency "+0600" = .ok 1050 ∧
      ParseAMFrequency "534"
        = .error (.errorString "AM frequency must be between 535 and 1705") ∧
      ParseAMFrequency "1706"
        = .error (.errorString "AM frequency must be between 535 and 1705") ∧
      ParseAMFrequency "-600"
        = .error (.errorString "AM frequency must be between 535 and 1705") ∧
      ParseAMFrequency "600.0" = .error (.numError "Atoi" "600.0" .invalid) ∧
      ParseAMFrequency "" = .error (.numError "Atoi" "" .invalid) ∧
      ParseAMFrequency "99999999999999999999"
        = .error (.numError "Atoi" "99999999999999999999" .outOfRange) :=
  ⟨(parseAM_spec "535").1 535 (by decide) (by decide) (by decide),
   (parseAM_spec "1705").1 1705 (by decide) (by decide) (by decide),
   (parseAM_spec "+0600").1 600 (by decide) (by decide) (by decide),
   (parseAM_spec "534").2.1 534 (by decide) (by decide),
   (parseAM_spec "1706").2.1 1706 (by decide) (by decide),
   (parseAM_spec "-600").2.1 (-600) (by decide) (by decide),
   (parseAM_spec "600.0").2.2.1 _ (by decide),
   (parseAM_spec "").2.2.1 _ (by decide),
   (parseAM_spec "99999999999999999999").2.2.1 _ (by decide)⟩

/-! ## The FM encoding on the `float32` grid of `[88, 108]`

A `float32` in `[64, 128)` is `k * 2 ^ (-17)` for a natural `k`. -/

theorem fm_mul (k : Nat) (h1 : 11534336 ≤ k) (h2 : k ≤ 14155776) :
    (GoFloat.fin (k : ℤ) (-17)).mul (GoFloat.ofInt 1000)
      = .fin ((k * 1000 * 524288 : Nat) : ℤ) (-36) := by
  have h := roundNE64_exact (k * 1000) (-17) 33 (by norm_num) (by norm_num; omega)
    (by norm_num; omega) (by norm_num) (by norm_num)
  simp only [GoFloat.mul, GoFloat.ofInt]
  have e1 : (decide ((k : ℤ) < 0) != decide ((1000 : ℤ) < 0)) = false := by
    have : ¬ ((k : ℤ) < 0) := by omega
    simp [this]
  have e2 : (k : ℤ).natAbs * (1000 : ℤ).natAbs = k * 1000 := by
    simp
  rw [e1, e2]
  have e3 : (-17 : ℤ) + 0 = -17 := by norm_num
  rw [e3, h]
  norm_num

theorem fm_add (k : Nat) (h1 : 11534336 ≤ k) (h2 : k ≤ 14155776) :
    (GoFloat.fin ((k * 1000 * 524288 : Nat) : ℤ) (-36)).add (GoFloat.ofInt 10701)
      = .fin ((k * 524288000 + 735367120551936 : Nat) : ℤ) (-36) := by
  have h := roundNE64_exact (k * 524288000 + 735367120551936) (-36) 52 (by norm_num)
    (by norm_num; omega) (by norm_num; omega) (by norm_num) (by norm_num)
  simp only [GoFloat.add, GoFloat.ofInt, alignTo]
  have m1 : min (-36 : ℤ) 0 = -36 := by norm_num
  have m2 : min (0 : ℤ) (-36) = -36 := by norm_num
  simp only [m1, m2]
  have z : ((k * 1000 * 524288 : Nat) : ℤ) * 2 ^ ((-36 : ℤ) - -36).toNat
      + (10701 : ℤ) * 2 ^ ((0 : ℤ) - -36).toNat
      = ((k * 524288000 + 735367120551936 : Nat) : ℤ) := by
    have t1 : ((-36 : ℤ) - -36).toNat = 0 := by decide
    have t2 : ((0 : ℤ) - -36).toNat = 36 := by decide
    rw [t1, t2]
    push_cast
    ring
  simp only [z]
  have e1 : decide (((k * 524288000 + 735367120551936 : Nat) : ℤ) < 0) = false :=
    decide_eq_false (by omega)
  rw [e1, Int.natAbs_ofNat, h]
  norm_num

theorem fm_div (k : Nat) (h1 : 11534336 ≤ k) (h2 : k ≤ 14155776) :
    (GoFloat.fin ((k * 524288000 + 735367120551936 : Nat) : ℤ) (-36)).div (.fin 25 (-1))
      = if k * 524288000 + 735367120551936 < 7036874417766400
        then .fin ((roundHalfEven ((k * 524288000 + 735367120551936) * 32) 25 : Nat) : ℤ) (-40)
        else .fin ((roundHalfEven ((k * 524288000 + 735367120551936) * 16) 25 : Nat) : ℤ) (-39) := by
  have hz : 0 < k * 524288000 + 735367120551936 := by omega
  have hzq : (6782681073319936 : ℚ) ≤ ((k * 524288000 + 735367120551936 : ℕ) : ℚ) := by
    have : 6782681073319936 ≤ k * 524288000 + 735367120551936 := by omega
    exact_mod_cast this
  have hzq' : ((k * 524288000 + 735367120551936 : ℕ) : ℚ) ≤ 8157070608039936 := by
    have : k * 524288000 + 735367120551936 ≤ 8157070608039936 := by omega
    exact_mod_cast this
  simp only [GoFloat.div]
  have e0 : ¬ ((25 : ℤ) = 0) := by norm_num
  have e1 : (decide (((k * 524288000 + 735367120551936 : Nat) : ℤ) < 0) != decide ((25 : ℤ) < 0))
      = false := by
    have : decide (((k * 524288000 + 735367120551936 : Nat) : ℤ) < 0) = false :=
      decide_eq_false (by omega)
    rw [this]; rfl
  have e2 : (25 : ℤ).natAbs = 25 := rfl
  have e3 : (-36 : ℤ) - -1 = -35 := by norm_num
  simp only [e0, if_false, e1, e2, e3, Int.natAbs_ofNat]
  by_cases hc : k * 524288000 + 735367120551936 < 7036874417766400
  · have hcq : ((k * 524288000 + 735367120551936 : ℕ) : ℚ) < 7036874417766400 := by
      exact_mod_cast hc
    have q1 : (2 : ℚ) ^ (47 : ℤ) ≤ ((k * 524288000 + 735367120551936 : ℕ) : ℚ) / (25 : ℕ) := by
      rw [le_div_iff₀ (by norm_num)]
      norm_num at hzq ⊢
      linarith
    have q2 : ((k * 524288000 + 735367120551936 : ℕ) : ℚ) / (25 : ℕ) < (2 : ℚ) ^ ((47 : ℤ) + 1) := by
      rw [div_lt_iff₀ (by norm_num)]
      norm_num at hcq ⊢
      linarith
    rw [roundNE_of_binade binary64 false (-35) 47 hz (by norm_num) q1 q2]
    have hs : max ((47 : ℤ) + -35 - (((binary64.p : ℕ) : ℤ) - 1)) binary64.smin = -40 := by
      simp only [binary64]; decide
    have hx : ((-35 : ℤ) - -40) = ((5 : ℕ) : ℤ) := by decide
    simp only [hs, hx, roundScaled_nonneg]
    have hm : roundHalfEven ((k * 524288000 + 735367120551936) * 2 ^ 5) 25 < 2 ^ 54 := by
      have := roundHalfEven_le (n := (k * 524288000 + 735367120551936) * 2 ^ 5) (d := 25)
        (b := 2 ^ 53) (by norm_num) (by norm_num; omega)
      calc _ ≤ 2 ^ 53 := this
        _ < 2 ^ 54 := by norm_num
    have hl := natLog2_lt hm (by norm_num)
    have hno : ¬ (binary64.emax + 1 - -40 ≤
        (natLog2 (roundHalfEven ((k * 524288000 + 735367120551936) * 2 ^ 5) 25) : ℤ)) := by
      simp only [binary64]; omega
    simp only [hno, if_false, Bool.false_eq_true, hc, if_true]
    norm_num
  · have hcq : (7036874417766400 : ℚ) ≤ ((k * 524288000 + 735367120551936 : ℕ) : ℚ) := by
      have : 7036874417766400 ≤ k * 524288000 + 735367120551936 := by omega
      exact_mod_cast this
    have q1 : (2 : ℚ) ^ (48 : ℤ) ≤ ((k * 524288000 + 735367120551936 : ℕ) : ℚ) / (25 : ℕ) := by
      rw [le_div_iff₀ (by norm_num)]
      norm_num at hcq ⊢
      linarith
    have q2 : ((k * 524288000 + 735367120551936 : ℕ) : ℚ) / (25 : ℕ) < (2 : ℚ) ^ ((48 : ℤ) + 1) := by
      rw [div_lt_iff₀ (by norm_num)]
      norm_num at hzq' ⊢
      linarith
    rw [roundNE_of_binade binary64 false (-35) 48 hz (by norm_num) q1 q2]
    have hs : max ((48 : ℤ) + -35 - (((binary64.p : ℕ) : ℤ) - 1)) binary64.smin = -39 := by
      simp only [binary64]; decide
    have hx : ((-35 : ℤ) - -39) = ((4 : ℕ) : ℤ) := by decide
    simp only [hs, hx, roundScaled_nonneg]
    have hm : roundHalfEven ((k * 524288000 + 735367120551936) * 2 ^ 4) 25 < 2 ^ 54 := by
      have := roundHalfEven_le (n := (k * 524288000 + 735367120551936) * 2 ^ 4) (d := 25)
        (b := 2 ^ 53) (by norm_num) (by norm_num; omega)
      calc _ ≤ 2 ^ 53 := this
        _ < 2 ^ 54 := by norm_num
    have hl := natLog2_lt hm (by norm_num)
    have hno : ¬ (binary64.emax + 1 - -39 ≤
        (natLog2 (roundHalfEven ((k * 524288000 + 735367120551936) * 2 ^ 4) 25) : ℤ)) := by
      simp only [binary64]; omega
    simp only [hno, if_false, Bool.false_eq_true, hc]
    norm_num

/-- The float computation `uint16(((x * 1000) + 10701) / 12.5)` at the
`float32` value `x = k * 2 ^ (-17)` of `[88, 108]` is the exact quotient
`(1000 * x + 10701) / 12.5` with its fractional part discarded. -/
theorem fm_encode (k : Nat) (h1 : 11534336 ≤ k) (h2 : k ≤ 14155776) :
    ((((GoFloat.fin (k : ℤ) (-17)).mul (GoFloat.ofInt 1000)).add (GoFloat.ofInt 10701)).div
        (.fin 25 (-1))).toUint16
      = (1000 * k + 1402601472) / 1638400 := by
  rw [fm_mul k h1 h2, fm_add k h1 h2, fm_div k h1 h2]
  split
  · rename_i hc
    have key : roundHalfEven ((k * 524288000 + 735367120551936) * 32) 25 / 2 ^ 40
        = (1000 * k + 1402601472) / 1638400 := by
      rcases roundHalfEven_cases ((k * 524288000 + 735367120551936) * 32) 25 with ⟨h, h'⟩ | ⟨h, h'⟩
      · rw [h]; norm_num; omega
      · rw [h]; norm_num; omega
    have := toUint16_fin_neg (roundHalfEven ((k * 524288000 + 735367120551936) * 32) 25) 40
      (by norm_num) (by rw [key]; omega)
    rw [key] at this
    exact this
  · rename_i hc
    have key : roundHalfEven ((k * 524288000 + 735367120551936) * 16) 25 / 2 ^ 39
        = (1000 * k + 1402601472) / 1638400 := by
      rcases roundHalfEven_cases ((k * 524288000 + 735367120551936) * 16) 25 with ⟨h, h'⟩ | ⟨h, h'⟩
      · rw [h]; norm_num; omega
      · rw [h]; norm_num; omega
    have := toUint16_fin_neg (roundHalfEven ((k * 524288000 + 735367120551936) * 16) 25) 39
      (by norm_num) (by rw [key]; omega)
    rw [key] at this
    exact this

theorem fmTuning_eq_floor (k : ℕ) :
    ((fmTuning k : ℕ) : ℤ)
      = ⌊((GoFloat.fin (k : ℤ) (-17)).toRat * 1000 + 10701) / 12.5⌋ + 3 := by
  have e : ((GoFloat.fin (k : ℤ) (-17)).toRat * 1000 + 10701) / 12.5
      = ((1000 * k + 1402601472 : ℕ) : ℚ) / ((1638400 : ℕ) : ℚ) := by
    simp only [GoFloat.toRat]
    have e17 : (2 : ℚ) ^ (-17 : ℤ) = 1 / 131072 := by norm_num
    rw [e17]
    push_cast
    norm_num
    ring
  rw [e, Rat.floor_natCast_div_natCast]
  unfold fmTuning
  push_cast
  rfl

theorem fmTuning_mono {j k : ℕ} (h : j ≤ k) : fmTuning j ≤ fmTuning k := by
  unfold fmTuning
  have : (1000 * j + 1402601472) / 1638400 ≤ (1000 * k + 1402601472) / 1638400 :=
    Nat.div_le_div_right (by omega)
  omega

theorem grid_toRat (k : ℕ) (h1 : 11534336 ≤ k) (h2 : k ≤ 14155776) :
    88 ≤ (GoFloat.fin (k : ℤ) (-17)).toRat ∧ (GoFloat.fin (k : ℤ) (-17)).toRat ≤ 108 := by
  have e17 : (2 : ℚ) ^ (-17 : ℤ) = 1 / 131072 := by norm_num
  have c1 : (11534336 : ℚ) ≤ (k : ℚ) := by exact_mod_cast h1
  have c2 : (k : ℚ) ≤ 14155776 := by exact_mod_cast h2
  simp only [GoFloat.toRat, e17, Int.cast_natCast]
  constructor <;> linarith

/-! ## What `ParseFloat` returns -/

theorem special_not_fin (s : List Char) (m e : ℤ) : special s ≠ some (.fin m e) := by
  unfold special
  split
  · simp
  · split <;> simp
  · split <;> simp
  · split
    · simp
    · split <;> simp

theorem lower_letter {c : Char} (h : lower c = 'i' ∨ lower c = 'n') :
    c ≠ '.' ∧ c ≠ '+' ∧ c ≠ '-' ∧ isDigit c = false ∧ c ≠ '_' := by
  refine ⟨?_, ?_, ?_, ?_, ?_⟩
  · rintro rfl
    rcases h with h | h <;> exact absurd h (by decide)
  · rintro rfl
    rcases h with h | h <;> exact absurd h (by decide)
  · rintro rfl
    rcases h with h | h <;> exact absurd h (by decide)
  · cases hd : isDigit c
    · rfl
    · exfalso
      have hd' : 48 ≤ c.toNat ∧ c.toNat ≤ 57 := by
        simpa [isDigit] using hd
      have hl : lower c = c := by
        unfold lower
        have : ¬ (65 ≤ c.toNat ∧ c.toNat ≤ 90) := by omega
        simp only [this, if_false]
      rw [hl] at h
      rcases h with h | h
      · rw [h] at hd'; revert hd'; decide
      · rw [h] at hd'; revert hd'; decide
  · rintro rfl
    rcases h with h | h <;> exact absurd h (by decide)

theorem readMantissa_stop (st : MantState) {c : Char} (cs : List Char)
    (h0 : c ≠ '_') (h1 : c ≠ '.') (h2 : isDigit c = false) :
    readMantissa 10 st (c :: cs) = (st, c :: cs) := by
  unfold readMantissa
  simp [h0, h1, h2]

theorem head_of_equalIgnoreCase {r : List Char} {w : String} {c : Char} {t : List Char}
    (hw : w.data = c :: t) (h : equalIgnoreCase r w = true) :
    ∃ h' t', r = h' :: t' ∧ lower h' = c := by
  unfold equalIgnoreCase at h
  have h' : r.map lower = w.data := of_decide_eq_true h
  rw [hw] at h'
  cases r with
  | nil => cases h'
  | cons a b =>
    simp only [List.map_cons] at h'
    injection h' with h1 _
    exact ⟨a, b, rfl, h1⟩

theorem readFloat_letter {l : List Char} {h : Char} {t : List Char}
    (hb : (match l with
      | '+' :: r => r
      | '-' :: r => r
      | r => r) = h :: t)
    (hl : lower h = 'i' ∨ lower h = 'n') : readFloat l = none := by
  obtain ⟨h1, _, _, h4, h5⟩ := lower_letter hl
  have h0 : h ≠ '0' := by
    rintro rfl
    rcases hl with hl | hl <;> exact absurd hl (by decide)
  have hx : (match h :: t with
      | c0 :: c1 :: _ :: _ => decide (c0 = '0') && decide (lower c1 = 'x')
      | _ => false) = false := by
    split
    · rename_i heq
      injection heq with e1 _
      subst e1
      simp [h0]
    · rfl
  unfold readFloat
  simp only [hb, hx, Bool.false_eq_true, if_false, readMantissa_stop _ t h5 h1 h4]

theorem special_none_of_readFloat {l : List Char} (h : readFloat l ≠ none) :
    special l = none := by
  by_contra hs
  apply h
  unfold special at hs
  split at hs
  · exact absurd rfl hs
  · rename_i r
    by_cases c : (equalIgnoreCase r "inf" || equalIgnoreCase r "infinity") = true
    · rcases Eq.mp (Bool.or_eq_true _ _) c with c1 | c1
      · obtain ⟨a, b, rfl, ha⟩ := head_of_equalIgnoreCase (c := 'i') (t := ['n', 'f']) rfl c1
        exact readFloat_letter (h := a) (t := b) rfl (Or.inl ha)
      · obtain ⟨a, b, rfl, ha⟩ := head_of_equalIgnoreCase (c := 'i')
          (t := ['n', 'f', 'i', 'n', 'i', 't', 'y']) rfl c1
        exact readFloat_letter (h := a) (t := b) rfl (Or.inl ha)
    · simp only [c, if_false] at hs
      exact absurd rfl hs
  · rename_i r
    by_cases c : (equalIgnoreCase r "inf" || equalIgnoreCase r "infinity") = true
    · rcases Eq.mp (Bool.or_eq_true _ _) c with c1 | c1
      · obtain ⟨a, b, rfl, ha⟩ := head_of_equalIgnoreCase (c := 'i') (t := ['n', 'f']) rfl c1
        exact readFloat_letter (h := a) (t := b) rfl (Or.inl ha)
      · obtain ⟨a, b, rfl, ha⟩ := head_of_equalIgnoreCase (c := 'i')
          (t := ['n', 'f', 'i', 'n', 'i', 't', 'y']) rfl c1
        exact readFloat_letter (h := a) (t := b) rfl (Or.inl ha)
    · simp only [c, if_false] at hs
      exact absurd rfl hs
  · rename_i hp hm
    have key : ∀ (w : String) (c : Char) (t : List Char), w.data = c :: t →
        (c = 'i' ∨ c = 'n') → equalIgnoreCase l w = true → readFloat l = none := by
      intro w c t hw hc he
      obtain ⟨a, b, rfl, ha⟩ := head_of_equalIgnoreCase hw he
      have hl : lower a = 'i' ∨ lower a = 'n' := by
        rcases hc with rfl | rfl
        · exact Or.inl ha
        · exact Or.inr ha
      obtain ⟨_, h2, h3, _, _⟩ := lower_letter hl
      apply readFloat_letter (h := a) (t := b) _ hl
      split
      · rename_i heq; injection heq with e1 _; exact absurd e1 h2
      · rename_i heq; injection heq with e1 _; exact absurd e1 h3
      · rfl
    by_cases c0 : equalIgnoreCase l "nan" = true
    · exact key "nan" 'n' ['a', 'n'] rfl (Or.inr rfl) c0
    · simp only [c0, if_false] at hs
      by_cases c : (equalIgnoreCase l "inf" || equalIgnoreCase l "infinity") = true
      · rcases Eq.mp (Bool.or_eq_true _ _) c with c1 | c1
        · exact key "inf" 'i' ['n', 'f'] rfl (Or.inl rfl) c1
        · exact key "infinity" 'i' ['n', 'f', 'i', 'n', 'i', 't', 'y'] rfl (Or.inl rfl) c1
      · simp only [c, if_false] at hs
        exact absurd rfl hs

theorem literal_cast_nonneg (mant b : ℕ) {exp : ℤ} (h : 0 ≤ exp) :
    ((mant * b ^ exp.toNat : ℕ) : ℚ) / ((1 : ℕ) : ℚ) = (mant : ℚ) * (b : ℚ) ^ exp := by
  have hk : ((exp.toNat : ℕ) : ℤ) = exp := Int.toNat_of_nonneg h
  rw [Nat.cast_one, div_one, Nat.cast_mul, Nat.cast_pow]
  congr 1
  rw [← zpow_natCast, hk]

theorem literal_cast_neg (mant b : ℕ) {exp : ℤ} (h : ¬ 0 ≤ exp) :
    (mant : ℚ) / ((b ^ (-exp).toNat : ℕ) : ℚ) = (mant : ℚ) * (b : ℚ) ^ exp := by
  have hk : (((-exp).toNat : ℕ) : ℤ) = -exp := Int.toNat_of_nonneg (by omega)
  have e : (b : ℚ) ^ exp = (((b ^ (-exp).toNat : ℕ) : ℚ))⁻¹ := by
    rw [Nat.cast_pow, ← zpow_natCast, hk, zpow_neg, inv_inv]
  rw [e, div_eq_mul_inv]

/-- The rational `n / d` that `ParseFloat` rounds for a literal with mantissa
digits `mant` and exponent `exp`, decimal or hexadecimal. -/
theorem parseFloat32_of_readFloat {s : String} {neg hex : Bool} {mant : ℕ} {exp : ℤ}
    (hr : readFloat s.data = some (neg, mant, exp, hex)) :
    ∃ n d : ℕ, 0 < d ∧
      (n : ℚ) / (d : ℚ) = (mant : ℚ) * (((if hex then 2 else 10 : ℕ) : ℕ) : ℚ) ^ exp ∧
      ParseFloat s 32 =
        match roundNE binary32 neg n d 0 with
        | .fin m e => .ok (.fin m e)
        | _ => .error (.numError "ParseFloat" s .outOfRange) := by
  have hs : special s.data = none :=
    special_none_of_readFloat (by rw [hr]; exact Option.some_ne_none _)
  have hb : 0 < (if hex then 2 else 10 : ℕ) := by cases hex <;> decide
  by_cases hx : 0 ≤ exp
  · refine ⟨mant * (if hex then 2 else 10) ^ exp.toNat, 1, Nat.one_pos,
      literal_cast_nonneg mant _ hx, ?_⟩
    unfold ParseFloat
    simp only [hs, hr, hx, if_true]
  · refine ⟨mant, (if hex then 2 else 10) ^ (-exp).toNat, by positivity,
      literal_cast_neg mant _ hx, ?_⟩
    unfold ParseFloat
    simp only [hs, hr, hx, if_true, if_false]

/-- Every finite value `ParseFloat` returns at width 32 is the rounding of a
rational to `float32`. -/
theorem parseFloat32_fin {s : String} {m e : ℤ} (hp : ParseFloat s 32 = .ok (.fin m e)) :
    ∃ (neg : Bool) (n d : Nat), 0 < d ∧ roundNE binary32 neg n d 0 = .fin m e := by
  cases hr : readFloat s.data with
  | none =>
    exfalso
    unfold ParseFloat at hp
    simp only [hr] at hp
    split at hp
    · rename_i v hv
      injection hp with hp
      rw [hp] at hv
      exact absurd hv (special_not_fin _ _ _)
    · cases hp
  | some r =>
    obtain ⟨neg, mant, exp, hex⟩ := r
    obtain ⟨n, d, hd, hq, hpf⟩ := parseFloat32_of_readFloat hr
    refine ⟨neg, n, d, hd, ?_⟩
    rw [hpf] at hp
    split at hp
    · rename_i m' e' hv
      injection hp with hp
      injection hp with h1 h2
      subst h1; subst h2
      exact hv
    · cases hp

/-! ## Decimal literals and what `readFloat` reads -/

theorem isDigit_ne {c : Char} (h : isDigit c = true) :
    c ≠ '_' ∧ c ≠ '.' ∧ c ≠ '+' ∧ c ≠ '-' := by
  refine ⟨?_, ?_, ?_, ?_⟩ <;> (rintro rfl; exact absurd h (by decide))

theorem digitVal_le {c : Char} (h : isDigit c = true) : digitVal c ≤ 9 := by
  have hd : 48 ≤ c.toNat ∧ c.toNat ≤ 57 := by simpa [isDigit] using h
  unfold digitVal
  omega

theorem lower_x {c : Char} (h : lower c = 'x') :
    isDigit c = false ∧ c ≠ '.' ∧ c ≠ 'e' ∧ c ≠ 'E' := by
  refine ⟨?_, ?_, ?_, ?_⟩
  · cases hd : isDigit c
    · rfl
    · exfalso
      have hd' : 48 ≤ c.toNat ∧ c.toNat ≤ 57 := by
        simpa [isDigit] using hd
      have hl : lower c = c := by
        unfold lower
        have : ¬ (65 ≤ c.toNat ∧ c.toNat ≤ 90) := by omega
        simp only [this, if_false]
      rw [hl] at h
      rw [h] at hd'; revert hd'; decide
  · rintro rfl; exact absurd h (by decide)
  · rintro rfl; exact absurd h (by decide)
  · rintro rfl; exact absurd h (by decide)

theorem foldl_digits_ge (ds : List Char) (a : ℕ) :
    a ≤ ds.foldl (fun a c => a * 10 + digitVal c) a := by
  induction ds generalizing a with
  | nil => exact le_refl _
  | cons c cs ih =>
    simp only [List.foldl_cons]
    exact le_trans (by omega) (ih _)

theorem foldl_digits_lt (ds : List Char) (hd : ∀ c ∈ ds, isDigit c = true) (a : ℕ) :
    ds.foldl (fun a c => a * 10 + digitVal c) a < (a + 1) * 10 ^ ds.length := by
  induction ds generalizing a with
  | nil => simp
  | cons c cs ih =>
    simp only [List.foldl_cons, List.length_cons]
    have hc := digitVal_le (hd c (List.mem_cons_self _ _))
    have := ih (fun x hx => hd x (List.mem_cons_of_mem _ hx)) (a * 10 + digitVal c)
    calc List.foldl (fun a c => a * 10 + digitVal c) (a * 10 + digitVal c) cs
        < (a * 10 + digitVal c + 1) * 10 ^ cs.length := this
      _ ≤ ((a + 1) * 10) * 10 ^ cs.length := Nat.mul_le_mul_right _ (by omega)
      _ = (a + 1) * 10 ^ (cs.length + 1) := by ring

theorem digitsVal_lt (ds : List Char) (hd : ∀ c ∈ ds, isDigit c = true) :
    digitsVal ds < 10 ^ ds.length := by
  have := foldl_digits_lt ds hd 0
  simpa [digitsVal] using this

/-- The mantissa loop on a run of decimal digits. -/
theorem readMantissa_digits (ds rest : List Char) (hd : ∀ c ∈ ds, isDigit c = true)
    (st : MantState) :
    readMantissa 10 st (ds ++ rest) =
      readMantissa 10
        { underscores := st.underscores, sawdot := st.sawdot,
          sawdigits := st.sawdigits || !ds.isEmpty,
          mant := ds.foldl (fun a c => a * 10 + digitVal c) st.mant,
          frac := if st.sawdot then st.frac + ds.length else st.frac } rest := by
  induction ds generalizing st with
  | nil =>
    cases st
    simp
  | cons c cs ih =>
    have hc := hd c (List.mem_cons_self _ _)
    obtain ⟨h0, h1, _, _⟩ := isDigit_ne hc
    rw [List.cons_append, readMantissa]
    simp only [h0, h1, hc, if_true, if_false]
    rw [ih (fun x hx => hd x (List.mem_cons_of_mem _ hx))]
    congr 1
    cases st with
    | mk us sd sg m f =>
      cases sd
      · simp
      · simp; omega

/-- The exponent loop on a run of decimal digits whose value stays below
100000: the limit at 10000 is not reached before the last digit. -/
theorem readExpDigits_digits (ds : List Char) (hd : ∀ c ∈ ds, isDigit c = true)
    (e : ℕ) (us : Bool)
    (hv : ds.foldl (fun a c => a * 10 + digitVal c) e < 100000) :
    readExpDigits e us ds = (ds.foldl (fun a c => a * 10 + digitVal c) e, us, []) := by
  induction ds generalizing e with
  | nil => rfl
  | cons c cs ih =>
    have hc := hd c (List.mem_cons_self _ _)
    obtain ⟨h0, _, _, _⟩ := isDigit_ne hc
    simp only [List.foldl_cons] at hv ⊢
    have hge := foldl_digits_ge cs (e * 10 + digitVal c)
    have he : e < 10000 := by omega
    rw [readExpDigits]
    simp only [h0, hc, he, if_true, if_false]
    exact ih (fun x hx => hd x (List.mem_cons_of_mem _ hx)) _ hv

/-- The mantissa loop on the mantissa of a plain decimal literal: digits, an
optional point, digits, and then the end of the input or an exponent letter. -/
theorem readMantissa_literal (ip fp tl : List Char)
    (hip : ∀ c ∈ ip, isDigit c = true) (hfp : ∀ c ∈ fp, isDigit c = true)
    (htl : tl = [] ∨ ∃ c r, tl = c :: r ∧ (c = 'e' ∨ c = 'E'))
    (dot : Bool) (hdot : dot = false → fp = []) :
    readMantissa 10
        { underscores := false, sawdot := false, sawdigits := false, mant := 0, frac := 0 }
        (ip ++ ((if dot then ['.'] else []) ++ (fp ++ tl))) =
      ({ underscores := false, sawdot := dot, sawdigits := !ip.isEmpty || !fp.isEmpty,
         mant := digitsVal (ip ++ fp), frac := fp.length }, tl) := by
  have hstop : ∀ st : MantState, readMantissa 10 st tl = (st, tl) := by
    intro st
    rcases htl with rfl | ⟨c, r, rfl, hc⟩
    · rfl
    · rcases hc with rfl | rfl
      · exact readMantissa_stop st r (by decide) (by decide) (by decide)
      · exact readMantissa_stop st r (by decide) (by decide) (by decide)
  rw [readMantissa_digits ip _ hip]
  cases dot with
  | false =>
    have hf := hdot rfl
    subst hf
    simp only [Bool.false_eq_true, if_false, List.nil_append, hstop, List.append_nil,
      List.isEmpty_nil, Bool.not_true, Bool.or_false, Bool.false_or, List.length_nil]
    rfl
  | true =>
    simp only [if_true, List.cons_append, List.nil_append]
    rw [readMantissa]
    simp only [show ('.' : Char) ≠ '_' from by decide, if_false, if_true, Bool.false_eq_true]
    rw [readMantissa_digits fp _ hfp, hstop]
    simp only [digitsVal, List.foldl_append, if_true, Bool.false_or, zero_add]

/-- The three ways a sign is read off the front of a character list. -/
theorem sign_cases (r : List Char) :
    (∃ t, r = '+' :: t) ∨ (∃ t, r = '-' :: t) ∨
      ((match r with
        | '+' :: t => t
        | '-' :: t => t
        | t => t) = r ∧
       (match r with
        | '-' :: _ => true
        | _ => false) = false ∧
       (match r with
        | '-' :: _ => (-1 : ℤ)
        | _ => 1) = 1) := by
  rcases r with _ | ⟨a, t⟩
  · exact Or.inr (Or.inr ⟨rfl, rfl, rfl⟩)
  · by_cases h1 : a = '+'
    · subst h1; exact Or.inl ⟨t, rfl⟩
    · by_cases h2 : a = '-'
      · subst h2; exact Or.inr (Or.inl ⟨t, rfl⟩)
      · refine Or.inr (Or.inr ⟨?_, ?_, ?_⟩)
        · split
          · rename_i heq; injection heq with e1 _; exact absurd e1 h1
          · rename_i heq; injection heq with e1 _; exact absurd e1 h2
          · rfl
        · split
          · rename_i heq; injection heq with e1 _; exact absurd e1 h2
          · rfl
        · split
          · rename_i heq; injection heq with e1 _; exact absurd e1 h2
          · rfl

/-- The exponent part of a plain decimal literal, as `readExponent` reads it
when the written exponent is below 100000. -/
theorem readExponent_literal (c : Char) (r : List Char) (hc : c = 'e' ∨ c = 'E')
    (hne : (match r with
      | '+' :: t => t
      | '-' :: t => t
      | t => t) ≠ [])
    (hall : ∀ x ∈ (match r with
      | '+' :: t => t
      | '-' :: t => t
      | t => t), isDigit x = true)
    (hv : digitsVal (match r with
      | '+' :: t => t
      | '-' :: t => t
      | t => t) < 100000) :
    readExponent false (c :: r) =
      some ((if (match r with
          | '-' :: _ => true
          | _ => false) = true then
        -(digitsVal (match r with
          | '+' :: t => t
          | '-' :: t => t
          | t => t) : ℤ)
        else (digitsVal (match r with
          | '+' :: t => t
          | '-' :: t => t
          | t => t) : ℤ)), false) := by
  have hl : lower c = 'e' := by
    rcases hc with rfl | rfl <;> decide
  have core : ∀ (ds : List Char) (sg : ℤ), ds ≠ [] → (∀ x ∈ ds, isDigit x = true) →
      digitsVal ds < 100000 →
      (match ds with
        | [] => none
        | d :: _ =>
            if isDigit d = true then
              match readExpDigits 0 false ds with
              | (e, us, []) => some (sg * (e : ℤ), us)
              | (_, _, _ :: _) => none
            else none) = some (sg * (digitsVal ds : ℤ), false) := by
    intro ds sg hne hall hv
    cases ds with
    | nil => exact absurd rfl hne
    | cons d t =>
      have hd := hall d (List.mem_cons_self _ _)
      have hr := readExpDigits_digits (d :: t) hall 0 false hv
      simp only [hd, if_true, hr]
      rfl
  unfold readExponent
  simp only [Bool.false_eq_true, if_false, hl, if_true]
  rcases sign_cases r with ⟨t, rfl⟩ | ⟨t, rfl⟩ | ⟨h1, h2, h3⟩
  · have e1 : (match ('+' :: t : List Char) with
        | '-' :: _ => (-1 : ℤ)
        | _ => 1) = 1 := rfl
    have e2 : (match ('+' :: t : List Char) with
        | '-' :: _ => true
        | _ => false) = false := rfl
    simp only [] at hne hall hv ⊢
    rw [e1, e2, core t 1 hne hall hv]
    simp
  · simp only [] at hne hall hv ⊢
    rw [core t (-1) hne hall hv]
    simp
  · rw [h1] at hne hall hv
    rw [h1, h2, h3, core r 1 hne hall hv]
    simp

/-- What a successful reading as a plain decimal literal says about the text:
the input is a sign, the digits before the point, possibly a point and the
digits after it, and then nothing or an exponent part. -/
theorem decimalLiteral_inv {s : String} {l : DecimalLiteral} (h : decimalLiteral s = some l) :
    ∃ (body tl : List Char) (dot : Bool),
      (match s.data with
        | '-' :: _ => true
        | _ => false) = l.neg ∧
      (match s.data with
        | '+' :: r => r
        | '-' :: r => r
        | r => r) = body ∧
      body = l.intDigits ++ ((if dot then ['.'] else []) ++ (l.fracDigits ++ tl)) ∧
      (dot = false → l.fracDigits = []) ∧
      (∀ c ∈ l.intDigits, isDigit c = true) ∧ (∀ c ∈ l.fracDigits, isDigit c = true) ∧
      (l.intDigits ≠ [] ∨ l.fracDigits ≠ []) ∧
      ((tl = [] ∧ l.expNeg = false ∧ l.expDigits = []) ∨
        ∃ c r, tl = c :: r ∧ (c = 'e' ∨ c = 'E') ∧
          (match r with
            | '-' :: _ => true
            | _ => false) = l.expNeg ∧
          (match r with
            | '+' :: t => t
            | '-' :: t => t
            | t => t) = l.expDigits ∧
          l.expDigits ≠ [] ∧ (∀ x ∈ l.expDigits, isDigit x = true)) := by
  unfold decimalLiteral at h
  generalize hneg : (match s.data with
    | '-' :: _ => true
    | _ => false) = neg at h ⊢
  generalize hbody : (match s.data with
    | '+' :: r => r
    | '-' :: r => r
    | r => r) = body at h ⊢
  dsimp only at h
  have hb := List.takeWhile_append_dropWhile isDigit body
  have hip : ∀ c ∈ List.takeWhile isDigit body, isDigit c = true :=
    fun c hc => List.mem_takeWhile_imp hc
  generalize List.takeWhile isDigit body = ip at h hb hip
  -- the point and the digits after it
  have key : ∃ (fp tl : List Char) (dot : Bool),
      (match List.dropWhile isDigit body with
        | '.' :: r => List.takeWhile isDigit r
        | _ => []) = fp ∧
      (match List.dropWhile isDigit body with
        | '.' :: r => List.dropWhile isDigit r
        | r => r) = tl ∧
      List.dropWhile isDigit body = (if dot then ['.'] else []) ++ (fp ++ tl) ∧
      (dot = false → fp = []) ∧ (∀ c ∈ fp, isDigit c = true) := by
    rcases hr1 : List.dropWhile isDigit body with _ | ⟨c, r⟩
    · exact ⟨[], [], false, rfl, rfl, rfl, fun _ => rfl, fun c hc => absurd hc (List.not_mem_nil c)⟩
    · by_cases hc : c = '.'
      · subst hc
        exact ⟨List.takeWhile isDigit r, List.dropWhile isDigit r, true, rfl, rfl,
          by simp, fun hd => absurd hd (by decide), fun c hc => List.mem_takeWhile_imp hc⟩
      · refine ⟨[], c :: r, false, ?_, ?_, rfl, fun _ => rfl,
          fun c hc => absurd hc (List.not_mem_nil c)⟩
        · split
          · rename_i heq; injection heq with e1 _; exact absurd e1 hc
          · rfl
        · split
          · rename_i heq; injection heq with e1 _; exact absurd e1 hc
          · rfl
  obtain ⟨fp, tl, dot, hfp, htl, hr1, hdot, hfpd⟩ := key
  rw [hfp, htl] at h
  rw [hr1] at hb
  by_cases hemp : ip = [] ∧ fp = []
  · simp only [hemp, and_self, if_true] at h
    cases h
  · simp only [hemp, if_false] at h
    have hne : ip ≠ [] ∨ fp ≠ [] := by
      by_contra hcon
      push_neg at hcon
      exact hemp hcon
    cases tl with
    | nil =>
      simp only [Option.some.injEq] at h
      subst h
      exact ⟨body, [], dot, rfl, rfl, hb.symm, hdot, hip, hfpd, hne, Or.inl ⟨rfl, rfl, rfl⟩⟩
    | cons c r =>
      simp only at h
      split at h
      · rename_i hcond
        simp only [Option.some.injEq] at h
        subst h
        obtain ⟨hc, hds, hall⟩ := hcond
        refine ⟨body, c :: r, dot, rfl, rfl, hb.symm, hdot, hip, hfpd, hne,
          Or.inr ⟨c, r, rfl, hc, rfl, rfl, hds, ?_⟩⟩
        intro x hx
        exact List.all_eq_true.1 hall x hx
      · cases h

/-- A plain decimal literal does not start with the marker `0x`. -/
theorem literal_not_hex {ip fp tl : List Char} {dot : Bool}
    (hdot : dot = false → fp = [])
    (hip : ∀ c ∈ ip, isDigit c = true)
    (hne : ip ≠ [] ∨ fp ≠ [])
    (htl : tl = [] ∨ ∃ c r, tl = c :: r ∧ (c = 'e' ∨ c = 'E')) :
    (match ip ++ ((if dot then ['.'] else []) ++ (fp ++ tl)) with
      | c0 :: c1 :: _ :: _ => decide (c0 = '0') && decide (lower c1 = 'x')
      | _ => false) = false := by
  split
  · rename_i c0 c1 c2 r hb
    by_contra hc
    simp only [Bool.not_eq_false, Bool.and_eq_true, decide_eq_true_eq] at hc
    obtain ⟨h0, h1⟩ := hc
    obtain ⟨d1, d2, d3, d4⟩ := lower_x h1
    cases ip with
    | nil =>
      cases dot with
      | false =>
        have := hdot rfl
        subst this
        simp at hne
      | true =>
        simp only [if_true, List.nil_append, List.cons_append] at hb
        injection hb with e1 _
        rw [h0] at e1
        exact absurd e1 (by decide)
    | cons a ip' =>
      cases ip' with
      | cons b ip'' =>
        simp only [List.cons_append] at hb
        injection hb with _ e2
        injection e2 with e2 _
        have := hip b (by simp)
        rw [e2, d1] at this
        cases this
      | nil =>
        cases dot with
        | true =>
          simp only [if_true, List.nil_append, List.cons_append] at hb
          injection hb with _ e2
          injection e2 with e2 _
          exact d2 e2.symm
        | false =>
          have := hdot rfl
          subst this
          simp only [Bool.false_eq_true, if_false, List.nil_append, List.cons_append] at hb
          rcases htl with rfl | ⟨c, r', rfl, hc⟩
          · injection hb with _ e2
            cases e2
          · injection hb with _ e2
            injection e2 with e2 _
            rcases hc with rfl | rfl
            · exact d3 e2.symm
            · exact d4 e2.symm
  · rfl

/-- On a plain decimal literal whose written exponent is below 100000,
`readFloat` reads the digits and the exponent of the literal. -/
theorem readFloat_of_decimalLiteral {s : String} {l : DecimalLiteral}
    (h : decimalLiteral s = some l) (he : digitsVal l.expDigits < 100000) :
    readFloat s.data =
      some (l.neg, digitsVal (l.intDigits ++ l.fracDigits),
        (if digitsVal (l.intDigits ++ l.fracDigits) = 0 then 0
         else l.exponent - (l.fracDigits.length : ℤ)), false) := by
  obtain ⟨body, tl, dot, hneg, hbody, hb, hdot, hip, hfp, hne, htl⟩ := decimalLiteral_inv h
  have htl' : tl = [] ∨ ∃ c r, tl = c :: r ∧ (c = 'e' ∨ c = 'E') := by
    rcases htl with ⟨h1, _⟩ | ⟨c, r, h1, h2, _⟩
    · exact Or.inl h1
    · exact Or.inr ⟨c, r, h1, h2⟩
  have hx := literal_not_hex hdot hip hne htl'
  have hsd : (!l.intDigits.isEmpty || !l.fracDigits.isEmpty) = true := by
    rcases hne with h1 | h1
    · cases hl : l.intDigits with
      | nil => exact absurd hl h1
      | cons a t => rfl
    · cases hl : l.fracDigits with
      | nil => exact absurd hl h1
      | cons a t => simp
  have hexp : readExponent false tl = some (l.exponent, false) := by
    rcases htl with ⟨h1, h2, h3⟩ | ⟨c, r, h1, h2, h3, h4, h5, h6⟩
    · subst h1
      unfold DecimalLiteral.exponent
      rw [h2, h3]
      rfl
    · subst h1
      have := readExponent_literal c r h2 (by rw [h4]; exact h5) (by rw [h4]; exact h6)
        (by rw [h4]; exact he)
      rw [this, h3, h4]
      rfl
  unfold readFloat
  simp only [hneg, hbody, hb, hx, Bool.false_eq_true, if_false]
  rw [readMantissa_literal _ _ _ hip hfp htl' dot hdot]
  simp only [hsd, if_true, hexp, Bool.or_self, Bool.false_and, Bool.false_eq_true, if_false,
    one_mul]

theorem strip_length (r : List Char) :
    (match r with
      | '+' :: t => t
      | '-' :: t => t
      | t => t).length ≤ r.length := by
  rcases sign_cases r with ⟨t, rfl⟩ | ⟨t, rfl⟩ | ⟨h1, _, _⟩
  · simp
  · simp
  · rw [h1]

/-- The digits of a plain decimal literal are characters of the input. -/
theorem decimalLiteral_length {s : String} {l : DecimalLiteral}
    (h : decimalLiteral s = some l) :
    l.intDigits.length + l.fracDigits.length + l.expDigits.length ≤ s.length := by
  obtain ⟨body, tl, dot, _, hbody, hb, _, _, _, _, htl⟩ := decimalLiteral_inv h
  have h1 : body.length ≤ s.data.length := by
    rw [← hbody]; exact strip_length _
  have h2 : l.expDigits.length ≤ tl.length := by
    rcases htl with ⟨_, _, h3⟩ | ⟨c, r, h3, _, _, h4, _, _⟩
    · rw [h3]; exact Nat.zero_le _
    · rw [h3, ← h4]
      exact le_trans (strip_length r) (by simp)
  have h3 : body.length
      = l.intDigits.length + ((if dot then ['.'] else []).length
        + (l.fracDigits.length + tl.length)) := by
    rw [hb]; simp only [List.length_append]
  have h4 : s.length = s.data.length := rfl
  omega

/-- A plain decimal literal of at most 100000 characters that denotes a number
of `[88, 108]` writes an exponent below 100000: a larger exponent has to be
undone by as many digits of the mantissa. -/
theorem literal_exponent_small {s : String} {l : DecimalLiteral}
    (h : decimalLiteral s = some l) (hlen : s.length ≤ 100000)
    (h88 : 88 ≤ l.value) (h108 : l.value ≤ 108) :
    l.neg = false ∧ 0 < digitsVal (l.intDigits ++ l.fracDigits) ∧
      digitsVal l.expDigits < 100000 := by
  have one10 : (1 : ℚ) ≤ 10 := by norm_num
  have hL := decimalLiteral_length h
  obtain ⟨_, _, _, _, _, _, _, hip, hfp, _, htl⟩ := decimalLiteral_inv h
  have hed : ∀ x ∈ l.expDigits, isDigit x = true := by
    rcases htl with ⟨_, _, h3⟩ | ⟨_, _, _, _, _, _, _, h6⟩
    · rw [h3]; intro x hx; exact absurd hx (List.not_mem_nil x)
    · exact h6
  have hpow : (0 : ℚ) < (10 : ℚ) ^ (l.exponent - (l.fracDigits.length : ℤ)) := by positivity
  have hM0 : (0 : ℚ) ≤ (digitsVal (l.intDigits ++ l.fracDigits) : ℚ) := Nat.cast_nonneg _
  have hneg : l.neg = false := by
    cases hn : l.neg
    · rfl
    · exfalso
      unfold DecimalLiteral.value at h88
      rw [hn] at h88
      simp only [if_true] at h88
      have := mul_nonneg hM0 hpow.le
      linarith
  have hval : l.value = (digitsVal (l.intDigits ++ l.fracDigits) : ℚ) *
      (10 : ℚ) ^ (l.exponent - (l.fracDigits.length : ℤ)) := by
    unfold DecimalLiteral.value
    rw [hneg]
    simp
  rw [hval] at h88 h108
  have hM : 0 < digitsVal (l.intDigits ++ l.fracDigits) := by
    rcases Nat.eq_zero_or_pos (digitsVal (l.intDigits ++ l.fracDigits)) with h0 | h0
    · exfalso
      rw [h0] at h88
      simp at h88
      linarith
    · exact h0
  refine ⟨hneg, hM, ?_⟩
  by_contra hbig
  push_neg at hbig
  have hM1 : (1 : ℚ) ≤ (digitsVal (l.intDigits ++ l.fracDigits) : ℚ) := by exact_mod_cast hM
  have hEd : 6 ≤ l.expDigits.length := by
    by_contra hc
    push_neg at hc
    have h1 := digitsVal_lt l.expDigits hed
    have h2 : 10 ^ l.expDigits.length ≤ 10 ^ 5 :=
      Nat.pow_le_pow_right (by norm_num) (by omega)
    omega
  cases hen : l.expNeg with
  | false =>
    have hex : l.exponent = (digitsVal l.expDigits : ℤ) := by
      unfold DecimalLiteral.exponent; rw [hen]; rfl
    rw [hex] at h108
    have hf : (3 : ℤ) ≤ (digitsVal l.expDigits : ℤ) - (l.fracDigits.length : ℤ) := by omega
    have h3 : (10 : ℚ) ^ (3 : ℤ)
        ≤ (10 : ℚ) ^ ((digitsVal l.expDigits : ℤ) - (l.fracDigits.length : ℤ)) :=
      zpow_le_zpow_right₀ one10 hf
    have h4 : (10 : ℚ) ^ (3 : ℤ) = 1000 := by norm_num
    have h5 : (1 : ℚ) * (10 : ℚ) ^ ((digitsVal l.expDigits : ℤ) - (l.fracDigits.length : ℤ))
        ≤ (digitsVal (l.intDigits ++ l.fracDigits) : ℚ) *
          (10 : ℚ) ^ ((digitsVal l.expDigits : ℤ) - (l.fracDigits.length : ℤ)) :=
      mul_le_mul_of_nonneg_right hM1 (by positivity)
    linarith
  | true =>
    have hex : l.exponent = -(digitsVal l.expDigits : ℤ) := by
      unfold DecimalLiteral.exponent; rw [hen]; rfl
    rw [hex] at h88
    have hlt : digitsVal (l.intDigits ++ l.fracDigits)
        < 10 ^ (l.intDigits.length + l.fracDigits.length) := by
      have := digitsVal_lt (l.intDigits ++ l.fracDigits) (by
        intro c hc
        rcases List.mem_append.1 hc with h1 | h1
        · exact hip c h1
        · exact hfp c h1)
      simpa [List.length_append] using this
    have hltq : (digitsVal (l.intDigits ++ l.fracDigits) : ℚ)
        < (10 : ℚ) ^ ((l.intDigits.length + l.fracDigits.length : ℕ) : ℤ) := by
      rw [zpow_natCast]
      exact_mod_cast hlt
    have h5 : (digitsVal (l.intDigits ++ l.fracDigits) : ℚ) *
          (10 : ℚ) ^ (-(digitsVal l.expDigits : ℤ) - (l.fracDigits.length : ℤ))
        < (10 : ℚ) ^ ((l.intDigits.length + l.fracDigits.length : ℕ) : ℤ) *
          (10 : ℚ) ^ (-(digitsVal l.expDigits : ℤ) - (l.fracDigits.length : ℤ)) :=
      mul_lt_mul_of_pos_right hltq (by positivity)
    rw [← zpow_add₀ (by norm_num : (10 : ℚ) ≠ 0)] at h5
    have h6 : (10 : ℚ) ^ (((l.intDigits.length + l.fracDigits.length : ℕ) : ℤ) +
          (-(digitsVal l.expDigits : ℤ) - (l.fracDigits.length : ℤ)))
        ≤ (10 : ℚ) ^ (0 : ℤ) :=
      zpow_le_zpow_right₀ one10 (by push_cast; omega)
    have h7 : (10 : ℚ) ^ (0 : ℤ) = 1 := by norm_num
    linarith

/-- A plain decimal literal of at most 100000 characters denoting a number `q`
of `[88, 108]` parses, without error, to the `float32` value `m * 2 ^ (-17)`
nearest to `q`, which lies in `[88, 108]` as well. -/
theorem parseFloat32_of_decimal {s : String} {q : ℚ} (hq : decimalValue s = some q)
    (hlen : s.length ≤ 100000) (h88 : 88 ≤ q) (h108 : q ≤ 108) :
    ∃ n d : ℕ, 0 < d ∧ (n : ℚ) / (d : ℚ) = q ∧
      ParseFloat s 32 = .ok (.fin ((roundScaled n d 17 : ℕ) : ℤ) (-17)) ∧
      11534336 ≤ roundScaled n d 17 ∧ roundScaled n d 17 ≤ 14155776 := by
  unfold decimalValue at hq
  cases hl : decimalLiteral s with
  | none => rw [hl] at hq; cases hq
  | some l =>
    rw [hl] at hq
    simp only [Option.map_some', Option.some.injEq] at hq
    rw [← hq] at h88 h108
    obtain ⟨hneg, hM, he⟩ := literal_exponent_small hl hlen h88 h108
    have hr := readFloat_of_decimalLiteral hl he
    rw [hneg, if_neg (Nat.pos_iff_ne_zero.1 hM)] at hr
    obtain ⟨n, d, hd, hnd, hpf⟩ := parseFloat32_of_readFloat hr
    have hqe : (n : ℚ) / (d : ℚ) = q := by
      rw [hnd, ← hq]
      unfold DecimalLiteral.value
      rw [hneg]
      simp
    rw [hq] at h88 h108
    have hn : 0 < n := by
      rcases Nat.eq_zero_or_pos n with h0 | h0
      · exfalso
        rw [h0] at hqe
        simp at hqe
        linarith
      · exact h0
    have q1 : (2 : ℚ) ^ (6 : ℤ) ≤ (n : ℚ) / d := by rw [hqe]; norm_num; linarith
    have q2 : (n : ℚ) / d < (2 : ℚ) ^ ((6 : ℤ) + 1) := by rw [hqe]; norm_num; linarith
    have hS : max ((6 : ℤ) + 0 - (((binary32.p : ℕ) : ℤ) - 1)) binary32.smin = -17 := by
      simp only [binary32]; decide
    have ht : (0 : ℤ) - -17 = 17 := by norm_num
    have b1 : 11534336 ≤ roundScaled n d 17 := by
      apply (roundScaled_bounds hd 17 11534336).1
      rw [hqe]; norm_num; linarith
    have b2 : roundScaled n d 17 ≤ 14155776 := by
      apply (roundScaled_bounds hd 17 14155776).2
      rw [hqe]; norm_num; linarith
    have hl' : natLog2 (roundScaled n d 17) < 24 :=
      natLog2_lt (lt_of_le_of_lt b2 (by norm_num)) (by norm_num)
    have hno : ¬ (binary32.emax + 1 - -17 ≤ (natLog2 (roundScaled n d 17) : ℤ)) := by
      simp only [binary32]; omega
    refine ⟨n, d, hd, hqe, ?_, b1, b2⟩
    rw [hpf, roundNE_of_binade binary32 false 0 6 hn hd q1 q2]
    simp only [hS, ht, hno, if_false, Bool.false_eq_true]

/-! ## `ParseFMFrequency` on its inputs -/

theorem parseFM_of_ok {freq : String} {x : GoFloat} (hp : ParseFloat freq 32 = .ok x) :
    ParseFMFrequency freq =
      if (x.lt (GoFloat.ofInt 88) || (GoFloat.ofInt 108).lt x) = true then
        .error (.errorString "FM frequency must be between 88.0 and 108.0")
      else
        .ok (((((x.mul (GoFloat.ofInt 1000)).add (GoFloat.ofInt 10701)).div
          (.fin 25 (-1))).toUint16 + 3) % 65536) := by
  unfold ParseFMFrequency
  simp only [hp]

theorem parseFM_of_fin {freq : String} {m e : ℤ} (hp : ParseFloat freq 32 = .ok (.fin m e))
    (h88 : (88 : ℚ) ≤ (m : ℚ) * (2 : ℚ) ^ e) (h108 : (m : ℚ) * (2 : ℚ) ^ e ≤ 108) :
    e = -17 ∧ 11534336 ≤ m ∧ m ≤ 14155776 ∧
      ParseFMFrequency freq = .ok (fmTuning m.toNat) := by
  obtain ⟨neg, n, d, hd, hr⟩ := parseFloat32_fin hp
  obtain ⟨he, hm1, hm2, _⟩ := roundNE32_range hd hr h88 h108
  refine ⟨he, hm1, hm2, ?_⟩
  have hk : m = ((m.toNat : ℕ) : ℤ) := (Int.toNat_of_nonneg (by omega)).symm
  have hk1 : 11534336 ≤ m.toNat := by omega
  have hk2 : m.toNat ≤ 14155776 := by omega
  have l1 : (GoFloat.fin m e).lt (GoFloat.ofInt 88) = false := by
    cases hl : (GoFloat.fin m e).lt (GoFloat.ofInt 88)
    · rfl
    · have := (lt_fin_iff m e 88 0).1 hl
      norm_num at this
      linarith
  have l2 : (GoFloat.ofInt 108).lt (GoFloat.fin m e) = false := by
    cases hl : (GoFloat.ofInt 108).lt (GoFloat.fin m e)
    · rfl
    · have := (lt_fin_iff 108 0 m e).1 hl
      norm_num at this
      linarith
  unfold ParseFMFrequency
  simp only [hp, l1, l2, Bool.or_self, Bool.false_eq_true, if_false]
  have hv := fm_encode m.toNat hk1 hk2
  rw [← hk, ← he] at hv
  rw [hv]
  unfold fmTuning
  congr 1
  omega

/-- On a plain decimal literal of at most 100000 characters denoting a number
of `[88, 108]`, `ParseFMFrequency` returns the tuning value of the nearest
`float32`. -/
theorem parseFM_of_decimal {s : String} {q : ℚ} (hq : decimalValue s = some q)
    (hlen : s.length ≤ 100000) (h88 : 88 ≤ q) (h108 : q ≤ 108) :
    ∃ n d : ℕ, 0 < d ∧ (n : ℚ) / (d : ℚ) = q ∧
      ParseFloat s 32 = .ok (.fin ((roundScaled n d 17 : ℕ) : ℤ) (-17)) ∧
      11534336 ≤ roundScaled n d 17 ∧ roundScaled n d 17 ≤ 14155776 ∧
      ParseFMFrequency s = .ok (fmTuning (roundScaled n d 17)) := by
  obtain ⟨n, d, hd, hnd, hp, b1, b2⟩ := parseFloat32_of_decimal hq hlen h88 h108
  obtain ⟨g1, g2⟩ := grid_toRat _ b1 b2
  obtain ⟨_, _, _, hr⟩ := parseFM_of_fin hp g1 g2
  exact ⟨n, d, hd, hnd, hp, b1, b2, by simpa using hr⟩

/-- Apart from NaN, `ParseFMFrequency` returns an error exactly when the input
does not parse, or parses to an infinity, or parses to a finite value below 88
or above 108. -/
theorem parseFM_error_iff (freq : String) :
    (∃ err, ParseFMFrequency freq = .error err) ↔
      (∃ err, ParseFloat freq 32 = .error err) ∨
      (∃ neg, ParseFloat freq 32 = .ok (.inf neg)) ∨
      (∃ m e, ParseFloat freq 32 = .ok (.fin m e) ∧
        ((GoFloat.fin m e).toRat < 88 ∨ 108 < (GoFloat.fin m e).toRat)) := by
  cases hp : ParseFloat freq 32 with
  | error err =>
    have : ParseFMFrequency freq = .error err := by
      unfold ParseFMFrequency
      simp only [hp]
    exact ⟨fun _ => Or.inl ⟨err, rfl⟩, fun _ => ⟨err, this⟩⟩
  | ok x =>
    have hr := parseFM_of_ok hp
    cases x with
    | nan =>
      have c : (GoFloat.nan.lt (GoFloat.ofInt 88) || (GoFloat.ofInt 108).lt GoFloat.nan)
          = false := rfl
      rw [c] at hr
      simp only [Bool.false_eq_true, if_false] at hr
      constructor
      · rintro ⟨err, h⟩
        rw [hr] at h
        cases h
      · rintro (⟨err, h⟩ | ⟨neg, h⟩ | ⟨m, e, h, _⟩) <;> cases h
    | inf neg =>
      have c : ((GoFloat.inf neg).lt (GoFloat.ofInt 88) ||
          (GoFloat.ofInt 108).lt (GoFloat.inf neg)) = true := by
        cases neg <;> rfl
      rw [c] at hr
      simp only [if_true] at hr
      exact ⟨fun _ => Or.inr (Or.inl ⟨neg, rfl⟩), fun _ => ⟨_, hr⟩⟩
    | fin m e =>
      have l1 := lt_fin_iff m e 88 0
      have l2 := lt_fin_iff 108 0 m e
      simp only [zpow_zero, mul_one, Int.cast_ofNat] at l1 l2
      constructor
      · rintro ⟨err, h⟩
        rw [hr] at h
        by_cases c : ((GoFloat.fin m e).lt (GoFloat.ofInt 88) ||
            (GoFloat.ofInt 108).lt (GoFloat.fin m e)) = true
        · refine Or.inr (Or.inr ⟨m, e, rfl, ?_⟩)
          rcases Bool.or_eq_true _ _ ▸ c with c1 | c2
          · exact Or.inl (l1.1 c1)
          · exact Or.inr (l2.1 c2)
        · simp only [c, if_false] at h
          cases h
      · rintro (⟨err, h⟩ | ⟨neg, h⟩ | ⟨m', e', h, hv⟩)
        · cases h
        · cases h
        · injection h with h
          injection h with h1 h2
          subst h1; subst h2
          have c : ((GoFloat.fin m e).lt (GoFloat.ofInt 88) ||
              (GoFloat.ofInt 108).lt (GoFloat.fin m e)) = true := by
            rcases hv with hv | hv
            · rw [show (GoFloat.fin m e).lt (GoFloat.ofInt 88) = true from l1.2 hv]
              rfl
            · rw [show (GoFloat.ofInt 108).lt (GoFloat.fin m e) = true from l2.2 hv]
              exact Bool.or_true _
          rw [c] at hr
          simp only [if_true] at hr
          exact ⟨_, hr⟩

set_option maxRecDepth 8192 in
/-- Decimal inputs closer to a bound than half a `float32` step parse to the
bound itself and are encoded as the bound; inputs further out are rejected. -/
theorem parseFM_near_bounds :
    ParseFloat "87.999999" 32 = .ok (.fin 11534336 (-17)) ∧
      ParseFMFrequency "87.999999" = .ok 7899 ∧
      ParseFloat "108.000001" 32 = .ok (.fin 14155776 (-17)) ∧
      ParseFMFrequency "108.000001" = .ok 9499 ∧
      ParseFMFrequency "87.9"
        = .error (.errorString "FM frequency must be between 88.0 and 108.0") ∧
      ParseFMFrequency "108.1"
        = .error (.errorString "FM frequency must be between 88.0 and 108.0") ∧
      ParseFMFrequency "Inf"
        = .error (.errorString "FM frequency must be between 88.0 and 108.0") ∧
      ParseFMFrequency "1e39" = .error (.numError "ParseFloat" "1e39" .outOfRange) ∧
      ParseFMFrequency "98,6" = .error (.numError "ParseFloat" "98,6" .invalid) := by
  decide

/-- Hexadecimal literals and literals with underscores between digits are
numbers for `ParseFloat`: `"0x1.6p6"` is 88, `"0x1.bp6"` is 108 and `"9_8.6"`
is 98.6.  A misplaced underscore, a hexadecimal mantissa without exponent and
text after the number are syntax errors. -/
theorem parseFM_other_literals :
    ParseFloat "0x1.6p6" 32 = .ok (.fin 11534336 (-17)) ∧
      ParseFMFrequency "0x1.6p6" = .ok 7899 ∧
      ParseFloat "0x1.bp6" 32 = .ok (.fin 14155776 (-17)) ∧
      ParseFMFrequency "0x1.bp6" = .ok 9499 ∧
      ParseFloat "9_8.6" 32 = .ok (.fin 12923699 (-17)) ∧
      ParseFMFrequency "9_8.6" = .ok 8747 ∧
      ParseFMFrequency "0X_5_8P+0" = .ok 7899 ∧
      ParseFMFrequency "98_.6" = .error (.numError "ParseFloat" "98_.6" .invalid) ∧
      ParseFMFrequency "_98.6" = .error (.numError "ParseFloat" "_98.6" .invalid) ∧
      ParseFMFrequency "9__8.6" = .error (.numError "ParseFloat" "9__8.6" .invalid) ∧
      ParseFMFrequency "0x58" = .error (.numError "ParseFloat" "0x58" .invalid) ∧
      ParseFMFrequency "0x1.6p6x" = .error (.numError "ParseFloat" "0x1.6p6x" .invalid) := by
  decide

set_option maxRecDepth 8192 in
/-- A hexadecimal mantissa is rounded once, from all its digits: `"0x1.600001p6"`
lies half way between two `float32` values and goes to the even one, a further
digit far to the right moves it up. -/
theorem parseFloat_hex_rounding :
    ParseFloat "0x1.600001p6" 32 = .ok (.fin 11534336 (-17)) ∧
      ParseFloat "0x1.6000010000000000001p6" 32 = .ok (.fin 11534337 (-17)) ∧
      ParseFloat "0x1.6000028p6" 32 = .ok (.fin 11534337 (-17)) ∧
      ParseFloat "0x1p128" 32 = .error (.numError "ParseFloat" "0x1p128" .outOfRange) := by
  decide

/-- The exponent loop of `readFloat` stops counting at 10000: the written
exponent 99999 is read as it stands, 100000 is read as 10000. -/
theorem readExpDigits_limit :
    readExpDigits 0 false "99999".data = (99999, false, []) ∧
      readExpDigits 0 false "100000".data = (10000, false, []) := by
  decide

theorem decimalValue_of_literal {s : String} {l : DecimalLiteral}
    (h : decimalLiteral s = some l) : decimalValue s = some l.value := by
  unfold decimalValue
  rw [h]
  rfl

theorem decimalValue_88_01 : decimalValue "88.01" = some 88.01 := by
  rw [decimalValue_of_literal
    (show decimalLiteral "88.01" = some ⟨false, ['8', '8'], ['0', '1'], false, []⟩ from by decide)]
  simp only [DecimalLiteral.value, DecimalLiteral.exponent]
  rw [show digitsVal (['8', '8'] ++ ['0', '1']) = 8801 from by decide]
  norm_num [digitsVal]

theorem decimalValue_88_0 : decimalValue "88.0" = some 88 := by
  rw [decimalValue_of_literal
    (show decimalLiteral "88.0" = some ⟨false, ['8', '8'], ['0'], false, []⟩ from by decide)]
  simp only [DecimalLiteral.value, DecimalLiteral.exponent]
  rw [show digitsVal (['8', '8'] ++ ['0']) = 880 from by decide]
  norm_num [digitsVal]

theorem decimalValue_98_6 : decimalValue "98.6" = some 98.6 := by
  rw [decimalValue_of_literal
    (show decimalLiteral "98.6" = some ⟨false, ['9', '8'], ['6'], false, []⟩ from by decide)]
  simp only [DecimalLiteral.value, DecimalLiteral.exponent]
  rw [show digitsVal (['9', '8'] ++ ['6']) = 986 from by decide]
  norm_num [digitsVal]

/-! ## Claims about the FM encoding -/

/-- C6 as stated fails at `"88.01"`: the input denotes a number of `[88, 108]`
and parses to the `float32` value `11535647 * 2 ^ (-17)` of `[88, 108]`, the
quotient is about 7896.88, rounding it to nearest and adding three gives 7900
(for the parsed value and for the decimal value 88.01 alike), and
`ParseFMFrequency` returns 7899. -/
theorem parseFM_not_rounded :
    decimalValue "88.01" = some 88.01 ∧
      ParseFloat "88.01" 32 = .ok (.fin 11535647 (-17)) ∧
      88 ≤ (GoFloat.fin 11535647 (-17)).toRat ∧ (GoFloat.fin 11535647 (-17)).toRat ≤ 108 ∧
      ParseFMFrequency "88.01" = .ok 7899 ∧
      round (((GoFloat.fin 11535647 (-17)).toRat * 1000 + 10701) / 12.5) + 3 = 7900 ∧
      round (((88.01 : ℚ) * 1000 + 10701) / 12.5) + 3 = 7900 := by
  refine ⟨decimalValue_88_01, by decide, ?_, ?_, by decide, ?_, ?_⟩
  · simp only [GoFloat.toRat]; norm_num
  · simp only [GoFloat.toRat]; norm_num
  · have : round (((GoFloat.fin 11535647 (-17)).toRat * 1000 + 10701) / 12.5) = 7897 := by
      rw [round_eq, Int.floor_eq_iff]
      simp only [GoFloat.toRat]
      norm_num
    rw [this]; rfl
  · have : round (((88.01 : ℚ) * 1000 + 10701) / 12.5) = 7897 := by
      rw [round_eq, Int.floor_eq_iff]
      norm_num
    rw [this]; rfl

/-- The quotient is taken of the parsed `float32`, not of the decimal number:
`"88.0115"` denotes a number whose quotient is exactly 7897, it parses to a
`float32` just below, and the result is 7896 + 3. -/
theorem parseFM_uses_float32 :
    ParseFloat "88.0115" 32 = .ok (.fin 11535843 (-17)) ∧
      ParseFMFrequency "88.0115" = .ok 7899 ∧
      ⌊((88.0115 : ℚ) * 1000 + 10701) / 12.5⌋ + 3 = 7900 := by
  refine ⟨by decide, by decide, ?_⟩
  have : ⌊((88.0115 : ℚ) * 1000 + 10701) / 12.5⌋ = 7897 := by
    rw [Int.floor_eq_iff]
    norm_num
  rw [this]; rfl

/-- C6, amended: when the input parses to a `float32` value `x` with
`88 ≤ x ≤ 108`, whatever its notation (decimal, hexadecimal, with
underscores), `ParseFMFrequency` returns, without error, the quotient
`(x * 1000 + 10701) / 12.5` with its fractional part discarded (not rounded to
nearest) plus three; that number lies between 7899 and 9499, so reducing it to
16 bits changes nothing.  Every plain decimal literal of at most 100000
characters that denotes a number of `[88, 108]` is such an input. -/
theorem parseFM_truncates (freq : String) :
    (∀ m e : ℤ, ParseFloat freq 32 = .ok (.fin m e) →
      88 ≤ (GoFloat.fin m e).toRat → (GoFloat.fin m e).toRat ≤ 108 →
      ParseFMFrequency freq
          = .ok (⌊((GoFloat.fin m e).toRat * 1000 + 10701) / 12.5⌋ + 3).toNat ∧
        7899 ≤ ⌊((GoFloat.fin m e).toRat * 1000 + 10701) / 12.5⌋ + 3 ∧
        ⌊((GoFloat.fin m e).toRat * 1000 + 10701) / 12.5⌋ + 3 ≤ 9499) ∧
      (∀ q : ℚ, decimalValue freq = some q → freq.length ≤ 100000 → 88 ≤ q → q ≤ 108 →
        ∃ m e : ℤ, ParseFloat freq 32 = .ok (.fin m e) ∧
          88 ≤ (GoFloat.fin m e).toRat ∧ (GoFloat.fin m e).toRat ≤ 108) := by
  constructor
  · intro m e hp h88 h108
    obtain ⟨he, hm1, hm2, hr⟩ := parseFM_of_fin hp h88 h108
    have hk : m = ((m.toNat : ℕ) : ℤ) := (Int.toNat_of_nonneg (by omega)).symm
    have hfl := fmTuning_eq_floor m.toNat
    rw [← hk, ← he] at hfl
    rw [← hfl]
    have hb1 : 7899 ≤ fmTuning m.toNat := by
      unfold fmTuning
      omega
    have hb2 : fmTuning m.toNat ≤ 9499 := by
      unfold fmTuning
      omega
    refine ⟨?_, by omega, by omega⟩
    rw [hr, Int.toNat_ofNat]
  · intro q hq hlen h88 h108
    obtain ⟨n, d, _, _, hp, b1, b2⟩ := parseFloat32_of_decimal hq hlen h88 h108
    obtain ⟨g1, g2⟩ := grid_toRat _ b1 b2
    exact ⟨_, _, hp, g1, g2⟩

/-- C6, amended, at `"88.01"` and at the hexadecimal literal `"0x1.8p6"`: the
decimal value 88.01 lies in `[88, 108]`, the parsed value is
`11535647 * 2 ^ (-17)`, and the result is 7899; `"0x1.8p6"` parses to 96 and
the result is the quotient of 96 with its fraction discarded, plus three. -/
theorem parseFM_truncates_witness :
    ParseFloat "88.01" 32 = .ok (.fin 11535647 (-17)) ∧
      (88 : ℚ) ≤ (GoFloat.fin 11535647 (-17)).toRat ∧
      (GoFloat.fin 11535647 (-17)).toRat ≤ 108 ∧
      ParseFMFrequency "88.01"
        = .ok (⌊((GoFloat.fin 11535647 (-17)).toRat * 1000 + 10701) / 12.5⌋ + 3).toNat ∧
      ParseFMFrequency "88.01" = .ok 7899 ∧
      decimalValue "88.01" = some 88.01 ∧ "88.01".length ≤ 100000 ∧
      (∃ m e : ℤ, ParseFloat "88.01" 32 = .ok (.fin m e) ∧
        88 ≤ (GoFloat.fin m e).toRat ∧ (GoFloat.fin m e).toRat ≤ 108) ∧
      ParseFloat "0x1.8p6" 32 = .ok (.fin 12582912 (-17)) ∧
      ParseFMFrequency "0x1.8p6"
        = .ok (⌊((GoFloat.fin 12582912 (-17)).toRat * 1000 + 10701) / 12.5⌋ + 3).toNat ∧
      ParseFMFrequency "0x1.8p6" = .ok 8539 := by
  exact ⟨by decide, by simp only [GoFloat.toRat]; norm_num,
    by simp only [GoFloat.toRat]; norm_num,
    ((parseFM_truncates "88.01").1 11535647 (-17) (by decide)
      (by simp only [GoFloat.toRat]; norm_num) (by simp only [GoFloat.toRat]; norm_num)).1,
    by decide,
    decimalValue_88_01, by decide,
    (parseFM_truncates "88.01").2 88.01 decimalValue_88_01 (by decide) (by norm_num)
      (by norm_num),
    by decide,
    ((parseFM_truncates "0x1.8p6").1 12582912 (-17) (by decide)
      (by simp only [GoFloat.toRat]; norm_num) (by simp only [GoFloat.toRat]; norm_num)).1,
    by decide⟩

/-- C7 as stated fails: `"88.0"` does not encode to 3. -/
theorem parseFM_examples_wrong :
    ¬ (ParseFMFrequency "88.0" = .ok 3 ∧ ParseFMFrequency "108.0" = .ok 1603) := by
  decide

/-- C7, amended: `ParseFMFrequency("88.0")` returns 7899 and
`ParseFMFrequency("108.0")` returns 9499, both without error. -/
theorem parseFM_examples :
    ParseFMFrequency "88.0" = .ok 7899 ∧ ParseFMFrequency "108.0" = .ok 9499 := by
  decide

/-- C8: on inputs whose values `a ≤ b` lie in `[88, 108]`, `ParseFMFrequency`
succeeds on both, is monotonic, and stays between its values 7899 at `"88.0"`
and 9499 at `"108.0"`; each result is the exact integer
`⌊(x * 1000 + 10701) / 12.5⌋ + 3` for the parsed value `x`, so the 16-bit
conversion does not wrap.  This holds with the value of an input taken as
the `float32` it parses to, for every notation `ParseFloat` accepts, and with
it taken as the number a plain decimal literal of at most 100000 characters
denotes. -/
theorem parseFM_monotone_bounded (a b : String) :
    (∀ ma ea mb eb : ℤ,
      ParseFloat a 32 = .ok (.fin ma ea) → ParseFloat b 32 = .ok (.fin mb eb) →
      88 ≤ (GoFloat.fin ma ea).toRat →
      (GoFloat.fin ma ea).toRat ≤ (GoFloat.fin mb eb).toRat →
      (GoFloat.fin mb eb).toRat ≤ 108 →
      ∃ ta tb : ℕ, ParseFMFrequency a = .ok ta ∧ ParseFMFrequency b = .ok tb ∧ ta ≤ tb ∧
        7899 ≤ ta ∧ tb ≤ 9499 ∧
        (ta : ℤ) = ⌊((GoFloat.fin ma ea).toRat * 1000 + 10701) / 12.5⌋ + 3 ∧
        (tb : ℤ) = ⌊((GoFloat.fin mb eb).toRat * 1000 + 10701) / 12.5⌋ + 3) ∧
      (∀ qa qb : ℚ, decimalValue a = some qa → decimalValue b = some qb →
        a.length ≤ 100000 → b.length ≤ 100000 →
        88 ≤ qa → qa ≤ qb → qb ≤ 108 →
        ∃ ta tb : ℕ, ParseFMFrequency a = .ok ta ∧ ParseFMFrequency b = .ok tb ∧ ta ≤ tb ∧
          7899 ≤ ta ∧ tb ≤ 9499) ∧
      ParseFMFrequency "88.0" = .ok 7899 ∧ ParseFMFrequency "108.0" = .ok 9499 := by
  refine ⟨?_, ?_, by decide, by decide⟩
  · intro ma ea mb eb ha hb h1 h2 h3
    obtain ⟨hea, ha1, ha2, hra⟩ := parseFM_of_fin ha h1 (le_trans h2 h3)
    obtain ⟨heb, hb1, hb2, hrb⟩ := parseFM_of_fin hb (le_trans h1 h2) h3
    have hka : ma = ((ma.toNat : ℕ) : ℤ) := (Int.toNat_of_nonneg (by omega)).symm
    have hkb : mb = ((mb.toNat : ℕ) : ℤ) := (Int.toNat_of_nonneg (by omega)).symm
    have hle : ma ≤ mb := by
      simp only [GoFloat.toRat, hea, heb] at h2
      have hpos : (0 : ℚ) < (2 : ℚ) ^ (-17 : ℤ) := by positivity
      have := le_of_mul_le_mul_right h2 hpos
      exact_mod_cast this
    have hfa := fmTuning_eq_floor ma.toNat
    have hfb := fmTuning_eq_floor mb.toNat
    rw [← hka, ← hea] at hfa
    rw [← hkb, ← heb] at hfb
    refine ⟨fmTuning ma.toNat, fmTuning mb.toNat, hra, hrb, fmTuning_mono (by omega),
      ?_, ?_, hfa, hfb⟩
    · unfold fmTuning; omega
    · unfold fmTuning; omega
  · intro qa qb ha hb hla hlb h1 h2 h3
    obtain ⟨na, da, hda, hqa, _, a1, a2, hra⟩ :=
      parseFM_of_decimal ha hla h1 (le_trans h2 h3)
    obtain ⟨nb, db, hdb, hqb, _, b1, b2, hrb⟩ :=
      parseFM_of_decimal hb hlb (le_trans h1 h2) h3
    have hm : roundScaled na da ((17 : ℕ) : ℤ) ≤ roundScaled nb db ((17 : ℕ) : ℤ) :=
      roundScaled_mono hda hdb 17 (by rw [hqa, hqb]; exact h2)
    have hm' : roundScaled na da 17 ≤ roundScaled nb db 17 := hm
    refine ⟨_, _, hra, hrb, fmTuning_mono hm', ?_, ?_⟩
    · unfold fmTuning; omega
    · unfold fmTuning; omega

/-- C8, at the inputs `"88.0"` and `"98.6"`, by parsed value and by decimal
value, and at the hexadecimal literal `"0x1.6p6"` (88) and the literal
`"9_8.6"` with an underscore (98.6), by parsed value. -/
theorem parseFM_monotone_bounded_witness :
    ParseFloat "88.0" 32 = .ok (.fin 11534336 (-17)) ∧
      ParseFloat "98.6" 32 = .ok (.fin 12923699 (-17)) ∧
      decimalValue "88.0" = some 88 ∧ decimalValue "98.6" = some 98.6 ∧
      (∃ ta tb : ℕ, ParseFMFrequency "88.0" = .ok ta ∧ ParseFMFrequency "98.6" = .ok tb ∧
        ta ≤ tb ∧ 7899 ≤ ta ∧ tb ≤ 9499) ∧
      ParseFMFrequency "88.0" = .ok 7899 ∧ ParseFMFrequency "98.6" = .ok 8747 ∧
      ParseFloat "0x1.6p6" 32 = .ok (.fin 11534336 (-17)) ∧
      ParseFloat "9_8.6" 32 = .ok (.fin 12923699 (-17)) ∧
      (∃ ta tb : ℕ, ParseFMFrequency "0x1.6p6" = .ok ta ∧ ParseFMFrequency "9_8.6" = .ok tb ∧
        ta ≤ tb ∧ 7899 ≤ ta ∧ tb ≤ 9499) ∧
      ParseFMFrequency "0x1.6p6" = .ok 7899 ∧ ParseFMFrequency "9_8.6" = .ok 8747 := by
  obtain ⟨ta, tb, h1, h2, h3, h4, h5, _, _⟩ :=
    (parseFM_monotone_bounded "0x1.6p6" "9_8.6").1 11534336 (-17) 12923699 (-17)
      (by decide) (by decide)
      (by simp only [GoFloat.toRat]; norm_num) (by simp only [GoFloat.toRat]; norm_num)
      (by simp only [GoFloat.toRat]; norm_num)
  have hdec := (parseFM_monotone_bounded "88.0" "98.6").2.1 88 98.6
    decimalValue_88_0 decimalValue_98_6 (by decide) (by decide)
    (by norm_num) (by norm_num) (by norm_num)
  exact ⟨by decide, by decide, decimalValue_88_0, decimalValue_98_6, hdec, by decide,
    by decide, by decide, by decide, ⟨ta, tb, h1, h2, h3, h4, h5⟩, by decide, by decide⟩

/-- C9 fails on the code at the input `"NaN"`: `ParseFloat` returns NaN without
error, both comparisons of the range check are false on NaN, and
`ParseFMFrequency` returns a tuning value and no error. -/
theorem parseFM_accepts_nan :
    ParseFloat "NaN" 32 = .ok .nan ∧
      GoFloat.lt .nan (GoFloat.ofInt 88) = false ∧
      GoFloat.lt (GoFloat.ofInt 108) .nan = false ∧
      ∃ t : ℕ, ParseFMFrequency "NaN" = .ok t :=
  ⟨by decide, by decide, by decide, 3, by decide⟩

/-! ## Validity of a configuration -/

theorem validate_eq_none_iff (srv : Server) (config : Config) :
    srv.Validate config = none ↔
      ValidateModulation config.Modulation = none ∧
      validateFrequency config.Modulation config.Frequency = none ∧
      config.BlueLEDIntensity ≤ 127 ∧ config.BlueLEDPulseRate ≤ 127 := by
  rw [validate_eq]
  have hi : ValidateBlueLEDIntensity config.BlueLEDIntensity = none ↔
      config.BlueLEDIntensity ≤ 127 := by
    unfold ValidateBlueLEDIntensity
    by_cases h : config.BlueLEDIntensity > 127
    · simp [h]
    · simp [h]; omega
  have hq : ValidateBlueLEDPulse config.BlueLEDPulseRate = none ↔
      config.BlueLEDPulseRate ≤ 127 := by
    unfold ValidateBlueLEDPulse
    by_cases h : config.BlueLEDPulseRate > 127
    · simp [h]
    · simp [h]; omega
  rw [← hi, ← hq]
  unfold failingChecks
  cases ValidateModulation config.Modulation <;>
  cases validateFrequency config.Modulation config.Frequency <;>
  cases ValidateBlueLEDIntensity config.BlueLEDIntensity <;>
  cases ValidateBlueLEDPulse config.BlueLEDPulseRate <;>
  simp [List.reduceOption]

/-- C2 fails on the code at the candidate `{FM, "NaN", 127, 0, false}`: the
frequency `"NaN"` is not a value between 88.0 and 108.0, and `Validate`
returns no error. -/
theorem validate_accepts_nan (srv : Server) :
    ParseFloat "NaN" 32 = .ok .nan ∧
      validateFrequency "FM" "NaN" = none ∧
      srv.Validate { Modulation := "FM", Frequency := "NaN", BlueLEDIntensity := 127,
                     BlueLEDPulseRate := 0, RedLEDToggle := false } = none := by
  refine ⟨by decide, by decide, ?_⟩
  rw [validate_eq_none_iff]
  decide

/-! ## LED packets -/

theorem writeHIDPacket_eq (shark : RadioShark) (pkt : List Nat) :
    shark.writeHIDPacket pkt
      = (shark.script.head?.join, { sent := shark.sent ++ [pkt], script := shark.script.tail }) := by
  unfold RadioShark.writeHIDPacket
  cases h : shark.script <;> rfl

theorem setBlueLEDIntensity_of_le (shark : RadioShark) {v : Nat} (hv : v ≤ 127) :
    shark.SetBlueLEDIntensity v = shark.writeHIDPacket [0xA0, v, 0, 0, 0, 0] := by
  have h1 : ValidateBlueLEDIntensity v = none := by
    unfold ValidateBlueLEDIntensity
    have : ¬ v > 127 := by omega
    simp only [this, if_false]
  have h2 : v % 256 = v := by omega
  simp [RadioShark.SetBlueLEDIntensity, h1, pktLength, blueIntensityCode, List.replicate,
    List.set, h2]

theorem setBlueLEDPulse_of_le (shark : RadioShark) {v : Nat} (hv : v ≤ 127) :
    shark.SetBlueLEDPulse v = shark.writeHIDPacket [0xA1, v, 0, 0, 0, 0] := by
  have h1 : ValidateBlueLEDPulse v = none := by
    unfold ValidateBlueLEDPulse
    have : ¬ v > 127 := by omega
    simp only [this, if_false]
  have h2 : v % 256 = v := by omega
  simp [RadioShark.SetBlueLEDPulse, h1, pktLength, bluePulseCode, List.replicate,
    List.set, h2]

theorem setRedLED_eq (shark : RadioShark) (toggle : Bool) :
    shark.SetRedLED toggle
      = shark.writeHIDPacket
          (if toggle then [0xA9, 1, 0, 0, 0, 0] else [0xA8, 0, 0, 0, 0, 0]) := by
  cases toggle <;>
    simp [RadioShark.SetRedLED, pktLength, redOnCode, redOffCode, List.replicate, List.set]

/-- C11: for `v ≤ 127`, `SetBlueLEDIntensity(v)` hands the packet
`A0 v 00 00 00 00` and `SetBlueLEDPulse(v)` the packet `A1 v 00 00 00 00` to the
device; for `v > 127` each returns its range error and leaves the device as it
was, so no packet is transmitted. -/
theorem blue_led_packets (shark : RadioShark) (v : Nat) :
    (v ≤ 127 →
      (shark.SetBlueLEDIntensity v).2.sent = shark.sent ++ [[0xA0, v, 0, 0, 0, 0]] ∧
      (shark.SetBlueLEDPulse v).2.sent = shark.sent ++ [[0xA1, v, 0, 0, 0, 0]]) ∧
    (127 < v →
      shark.SetBlueLEDIntensity v
        = (some (.errorString "intensity must be less than 127"), shark) ∧
      shark.SetBlueLEDPulse v = (some (.errorString "rate must be less than 127"), shark)) := by
  constructor
  · intro hv
    rw [setBlueLEDIntensity_of_le shark hv, setBlueLEDPulse_of_le shark hv,
      writeHIDPacket_sent, writeHIDPacket_sent]
    exact ⟨rfl, rfl⟩
  · intro hv
    have h : v > 127 := hv
    simp [RadioShark.SetBlueLEDIntensity, RadioShark.SetBlueLEDPulse, ValidateBlueLEDIntensity,
      ValidateBlueLEDPulse, h]

/-- C11, at the values 127 and 128 on a fresh device. -/
theorem blue_led_packets_witness :
    (RadioShark.SetBlueLEDIntensity { sent := [], script := [] } 127).2.sent
        = [[0xA0, 127, 0, 0, 0, 0]] ∧
      (RadioShark.SetBlueLEDPulse { sent := [], script := [] } 127).2.sent
        = [[0xA1, 127, 0, 0, 0, 0]] ∧
      RadioShark.SetBlueLEDIntensity { sent := [], script := [] } 128
        = (some (.errorString "intensity must be less than 127"), { sent := [], script := [] }) ∧
      RadioShark.SetBlueLEDPulse { sent := [], script := [] } 128
        = (some (.errorString "rate must be less than 127"), { sent := [], script := [] }) :=
  ⟨((blue_led_packets { sent := [], script := [] } 127).1 (by decide)).1,
   ((blue_led_packets { sent := [], script := [] } 127).1 (by decide)).2,
   ((blue_led_packets { sent := [], script := [] } 128).2 (by decide)).1,
   ((blue_led_packets { sent := [], script := [] } 128).2 (by decide)).2⟩

/-- C12: `SetRedLED(true)` hands the packet `A9 01 00 00 00 00` to the device
and `SetRedLED(false)` the packet `A8 00 00 00 00 00`. -/
theorem red_led_packets (shark : RadioShark) :
    (shark.SetRedLED true).2.sent = shark.sent ++ [[0xA9, 0x01, 0, 0, 0, 0]] ∧
      (shark.SetRedLED false).2.sent = shark.sent ++ [[0xA8, 0x00, 0, 0, 0, 0]] := by
  rw [setRedLED_eq, setRedLED_eq, writeHIDPacket_sent, writeHIDPacket_sent]
  exact ⟨rfl, rfl⟩

/-! ## `Apply` on an accepted candidate -/

theorem parseFM_lt {freq : String} {t : Nat} (h : ParseFMFrequency freq = .ok t) : t < 65536 := by
  unfold ParseFMFrequency at h
  split at h
  · cases h
  · split at h
    · cases h
    · injection h with h
      rw [← h]
      exact Nat.mod_lt _ (by norm_num)

theorem parseAM_lt {freq : String} {t : Nat} (h : ParseAMFrequency freq = .ok t) : t < 65536 := by
  unfold ParseAMFrequency at h
  split at h
  · cases h
  · split at h
    · cases h
    · injection h with h
      rw [← h]
      exact Nat.mod_lt _ (by norm_num)

theorem validateModulation_none {m : String} (h : ValidateModulation m = none) :
    m = "am" ∨ m = "AM" ∨ m = "fm" ∨ m = "FM" := by
  unfold ValidateModulation at h
  by_cases hm : m = "am" ∨ m = "AM" ∨ m = "fm" ∨ m = "FM"
  · exact hm
  · simp only [hm, if_false] at h
    cases h

/-- On a configuration whose modulation and frequency pass validation,
`SetFrequency` gets through its own validation and parsing and hands the
frequency packet of the codec's tuning value to the device. -/
theorem setFrequency_of_valid (config : Config)
    (h1 : ValidateModulation config.Modulation = none)
    (h2 : validateFrequency config.Modulation config.Frequency = none) :
    ∃ t : Nat, tuningValue config = some t ∧ t < 65536 ∧
      frequencyPacket config
        = some (frequencyPacketOf
            (decide (config.Modulation = "AM" ∨ config.Modulation = "am")) t) ∧
      ∀ shark : RadioShark,
        shark.SetFrequency config.Modulation config.Frequency
          = shark.writeHIDPacket
              (frequencyPacketOf
                (decide (config.Modulation = "AM" ∨ config.Modulation = "am")) t) := by
  have hm := validateModulation_none h1
  have key : ∀ (am : Bool) (t : Nat), t < 65536 →
      (am = false → makeFreqPacket t = frequencyPacketOf am t) ∧
      (am = true → (makeFreqPacket t).set 1 0x12 = frequencyPacketOf am t) := by
    intro am t ht
    rw [makeFreqPacket_eq t ht]
    constructor
    · rintro rfl; rfl
    · rintro rfl; rfl
  by_cases ham : config.Modulation = "am" ∨ config.Modulation = "AM"
  · have ham' : config.Modulation = "AM" ∨ config.Modulation = "am" := ham.symm
    have hnf : ¬ (config.Modulation = "FM" ∨ config.Modulation = "fm") := by
      rcases ham with h | h <;> rw [h] <;> decide
    unfold validateFrequency at h2
    simp only [ham, if_true] at h2
    cases hp : ParseAMFrequency config.Frequency with
    | error err => rw [hp] at h2; cases h2
    | ok t =>
      have ht := parseAM_lt hp
      refine ⟨t, ?_, ht, ?_, ?_⟩
      · simp only [tuningValue, hnf, if_false, ham', if_true, hp, Except.toOption]
      · simp only [frequencyPacket, tuningValue, hnf, if_false, ham', if_true, hp,
          Except.toOption, Option.map_some']
      · intro shark
        simp only [RadioShark.SetFrequency, h1, hnf, if_false, ham', if_true, hp,
          RadioShark.SetAMFrequency, decide_True]
        rw [(key true t ht).2 rfl]
  · have hfm : config.Modulation = "fm" ∨ config.Modulation = "FM" := by
      rcases hm with h | h | h | h
      · exact absurd (Or.inl h) ham
      · exact absurd (Or.inr h) ham
      · exact Or.inl h
      · exact Or.inr h
    have hfm' : config.Modulation = "FM" ∨ config.Modulation = "fm" := hfm.symm
    have hna : ¬ (config.Modulation = "AM" ∨ config.Modulation = "am") := fun h => ham h.symm
    unfold validateFrequency at h2
    simp only [ham, if_false, hfm, if_true] at h2
    cases hp : ParseFMFrequency config.Frequency with
    | error err => rw [hp] at h2; cases h2
    | ok t =>
      have ht := parseFM_lt hp
      refine ⟨t, ?_, ht, ?_, ?_⟩
      · simp only [tuningValue, hfm', if_true, hp, Except.toOption]
      · simp only [frequencyPacket, tuningValue, hfm', if_true, hp, Except.toOption,
          Option.map_some', hna, decide_False]
      · intro shark
        simp only [RadioShark.SetFrequency, h1, hfm', if_true, hp,
          RadioShark.SetFMFrequency, hna, decide_False]
        rw [(key false t ht).1 rfl]

/-- What `Apply` does with a candidate `Validate` accepts.  The held
configuration becomes the candidate; the device receives the packets of
`applyPackets`, one write each, whatever the outcomes; the failures of these
writes are collected; with no failure the result is that of `writeConfig`,
otherwise it is the aggregate of the failures and `writeConfig` is not called. -/
theorem apply_of_valid (srv : Server) (fs : FileSys) (config : Config)
    (hv : srv.Validate config = none) :
    srv.Apply fs config =
      if writeFailures srv.shark (applyPackets srv.cfg config).length = [] then
        ((writeConfig fs srv.configfile config).1.map GoError.leaf,
         { configfile := srv.configfile, cfg := config,
           shark := { sent := srv.shark.sent ++ applyPackets srv.cfg config,
                      script := srv.shark.script.drop (applyPackets srv.cfg config).length } },
         (writeConfig fs srv.configfile config).2)
      else
        (some (.config { errors := writeFailures srv.shark (applyPackets srv.cfg config).length }),
         { configfile := srv.configfile, cfg := config,
           shark := { sent := srv.shark.sent ++ applyPackets srv.cfg config,
                      script := srv.shark.script.drop (applyPackets srv.cfg config).length } },
         fs) := by
  obtain ⟨hm, hf, hi, hp⟩ := (validate_eq_none_iff srv config).1 hv
  obtain ⟨t, _, _, hpk, hset⟩ := setFrequency_of_valid config hm hf
  obtain ⟨configfile, cfg, ⟨sent, script⟩⟩ := srv
  unfold Server.Apply
  simp only [hv, Server.Get, Server.setConfig]
  by_cases hd : cfg.Frequency ≠ config.Frequency ∨ cfg.Modulation ≠ config.Modulation
  · have hap : applyPackets cfg config
        = frequencyPacketOf (decide (config.Modulation = "AM" ∨ config.Modulation = "am")) t
            :: ledPackets config := by
      simp only [applyPackets, frequencyDue, hd, decide_True, if_true, hpk, Option.toList]
      rfl
    simp only [hd, if_true, hset, setBlueLEDIntensity_of_le _ hi, setBlueLEDPulse_of_le _ hp,
      setRedLED_eq, writeHIDPacket_eq, hap, writeFailures, ledPackets]
    rcases script with _ | ⟨a, _ | ⟨b, _ | ⟨c, _ | ⟨d, rest⟩⟩⟩⟩
    · simp [configError.Append, configError.Empty, List.reduceOption]
    · cases a <;> simp [configError.Append, configError.Empty, List.reduceOption]
    · cases a <;> cases b <;> simp [configError.Append, configError.Empty, List.reduceOption]
    · cases a <;> cases b <;> cases c <;>
        simp [configError.Append, configError.Empty, List.reduceOption]
    · cases a <;> cases b <;> cases c <;> cases d <;>
        simp [configError.Append, configError.Empty, List.reduceOption]
  · have hap : applyPackets cfg config = ledPackets config := by
      simp only [applyPackets, frequencyDue, hd, decide_False, Bool.false_eq_true, if_false,
        List.nil_append]
    simp only [hd, if_false, setBlueLEDIntensity_of_le _ hi, setBlueLEDPulse_of_le _ hp,
      setRedLED_eq, writeHIDPacket_eq, hap, writeFailures, ledPackets]
    rcases script with _ | ⟨a, _ | ⟨b, _ | ⟨c, rest⟩⟩⟩
    · simp [configError.Append, configError.Empty, List.reduceOption]
    · cases a <;> simp [configError.Append, configError.Empty, List.reduceOption]
    · cases a <;> cases b <;> simp [configError.Append, configError.Empty, List.reduceOption]
    · cases a <;> cases b <;> cases c <;>
        simp [configError.Append, configError.Empty, List.reduceOption]

theorem writeConfig_written (fs : FileSys) (file : String) (config : Config) :
    (writeConfig fs file config).2.written = fs.written ++ [(file, config)] := by
  unfold writeConfig
  cases fs.script <;> rfl

theorem applyPackets_eq (cur config : Config) :
    applyPackets cur config
      = (if frequencyDue cur config = true then (frequencyPacket config).toList else [])
          ++ ledPackets config := rfl

theorem frequencyDue_iff (cur config : Config) :
    frequencyDue cur config = true ↔
      cur.Modulation ≠ config.Modulation ∨ cur.Frequency ≠ config.Frequency := by
  simp only [frequencyDue, decide_eq_true_eq]
  exact Or.comm

theorem ledPackets_not_frequency (config : Config) :
    (ledPackets config).any isFrequencyPacket = false := by
  cases h : config.RedLEDToggle <;> simp [ledPackets, isFrequencyPacket, freqCode, h]

/-- The packets of one `Apply` of a valid candidate: the frequency packet of
the codec's tuning value when the frequency is due, and the LED packets. -/
theorem applyPackets_of_valid (cur config : Config)
    (h1 : ValidateModulation config.Modulation = none)
    (h2 : validateFrequency config.Modulation config.Frequency = none) :
    ∃ t : Nat, tuningValue config = some t ∧
      applyPackets cur config
        = (if frequencyDue cur config = true then
            [frequencyPacketOf
              (decide (config.Modulation = "AM" ∨ config.Modulation = "am")) t]
           else []) ++ ledPackets config := by
  obtain ⟨t, ht, _, hpk, _⟩ := setFrequency_of_valid config h1 h2
  refine ⟨t, ht, ?_⟩
  rw [applyPackets_eq, hpk]
  rfl

theorem apply_sent (srv : Server) (fs : FileSys) (config : Config)
    (hv : srv.Validate config = none) :
    (srv.Apply fs config).2.1.shark.sent = srv.shark.sent ++ applyPackets srv.cfg config ∧
      (srv.Apply fs config).2.1.cfg = config ∧
      (srv.Apply fs config).2.1.configfile = srv.configfile ∧
      (srv.Apply fs config).2.1.shark.script
        = srv.shark.script.drop (applyPackets srv.cfg config).length := by
  rw [apply_of_valid srv fs config hv]
  split <;> exact ⟨rfl, rfl, rfl, rfl⟩

theorem apply_result (srv : Server) (fs : FileSys) (config : Config)
    (hv : srv.Validate config = none) :
    (writeFailures srv.shark (applyPackets srv.cfg config).length = [] →
      (srv.Apply fs config).1 = (writeConfig fs srv.configfile config).1.map GoError.leaf ∧
      (srv.Apply fs config).2.2 = (writeConfig fs srv.configfile config).2) ∧
    (writeFailures srv.shark (applyPackets srv.cfg config).length ≠ [] →
      (srv.Apply fs config).1
        = some (.config
            { errors := writeFailures srv.shark (applyPackets srv.cfg config).length }) ∧
      (srv.Apply fs config).2.2 = fs) := by
  rw [apply_of_valid srv fs config hv]
  constructor
  · intro h
    simp only [h, if_true, and_self]
  · intro h
    simp only [h, if_false, and_self]

/-- C13: on a valid candidate `Apply` sends the packets of `applyPackets`: a
frequency packet exactly when the modulation or the frequency differs from the
configuration held before, then the three LED packets.  When modulation and
frequency are unchanged (as for a candidate that differs only in the red LED)
exactly the blue-intensity, blue-pulse and red-LED packets are sent, in that
order, and when these three writes succeed the candidate is handed to
`writeConfig`, whose result is the result of `Apply`. -/
theorem apply_frequency_iff (srv : Server) (fs : FileSys) (config : Config)
    (hv : srv.Validate config = none) :
    (srv.Apply fs config).2.1.shark.sent = srv.shark.sent ++ applyPackets srv.cfg config ∧
      ((applyPackets srv.cfg config).any isFrequencyPacket = true ↔
        srv.cfg.Modulation ≠ config.Modulation ∨ srv.cfg.Frequency ≠ config.Frequency) ∧
      (srv.cfg.Modulation ≠ config.Modulation ∨ srv.cfg.Frequency ≠ config.Frequency →
        ∃ t : Nat, tuningValue config = some t ∧
          applyPackets srv.cfg config
            = frequencyPacketOf
                (decide (config.Modulation = "AM" ∨ config.Modulation = "am")) t
              :: ledPackets config) ∧
      (srv.cfg.Modulation = config.Modulation → srv.cfg.Frequency = config.Frequency →
        applyPackets srv.cfg config = ledPackets config ∧
        (writeFailures srv.shark 3 = [] →
          (srv.Apply fs config).2.2.written = fs.written ++ [(srv.configfile, config)] ∧
          (srv.Apply fs config).1
            = (writeConfig fs srv.configfile config).1.map GoError.leaf)) := by
  obtain ⟨hm, hf, _, _⟩ := (validate_eq_none_iff srv config).1 hv
  obtain ⟨t, ht, hap⟩ := applyPackets_of_valid srv.cfg config hm hf
  refine ⟨(apply_sent srv fs config hv).1, ?_, ?_, ?_⟩
  · rw [← frequencyDue_iff, hap]
    cases hd : frequencyDue srv.cfg config
    · simp [ledPackets_not_frequency]
    · simp [isFrequencyPacket, frequencyPacketOf, freqCode]
  · intro hne
    have hd := (frequencyDue_iff srv.cfg config).2 hne
    refine ⟨t, ht, ?_⟩
    rw [hap, hd]
    rfl
  · intro e1 e2
    have hd : frequencyDue srv.cfg config = false := by
      cases h : frequencyDue srv.cfg config
      · rfl
      · rcases (frequencyDue_iff srv.cfg config).1 h with h' | h'
        · exact absurd e1 h'
        · exact absurd e2 h'
    have hl : applyPackets srv.cfg config = ledPackets config := by
      rw [hap, hd]
      rfl
    refine ⟨hl, ?_⟩
    intro hw
    have hlen : (applyPackets srv.cfg config).length = 3 := by rw [hl]; rfl
    have := (apply_result srv fs config hv).1 (by rw [hlen]; exact hw)
    rw [this.2, writeConfig_written]
    exact ⟨rfl, this.1⟩

/-- C13, at a server holding the default configuration and a candidate that
differs only in the red LED: three LED packets, no frequency packet, and the
candidate is persisted. -/
theorem apply_frequency_iff_witness :
    Server.Validate
        { configfile := "rsharkd.conf", cfg := defConfig, shark := { sent := [], script := [] } }
        { defConfig with RedLEDToggle := true } = none ∧
      (Server.Apply
        { configfile := "rsharkd.conf", cfg := defConfig, shark := { sent := [], script := [] } }
        { written := [], script := [] }
        { defConfig with RedLEDToggle := true }).2.1.shark.sent
        = [[0xA0, 127, 0, 0, 0, 0], [0xA1, 0, 0, 0, 0, 0], [0xA9, 1, 0, 0, 0, 0]] ∧
      (Server.Apply
        { configfile := "rsharkd.conf", cfg := defConfig, shark := { sent := [], script := [] } }
        { written := [], script := [] }
        { defConfig with RedLEDToggle := true }).2.2.written
        = [("rsharkd.conf", { defConfig with RedLEDToggle := true })] := by
  have hv : Server.Validate
      { configfile := "rsharkd.conf", cfg := defConfig, shark := { sent := [], script := [] } }
      { defConfig with RedLEDToggle := true } = none := by decide
  have h := apply_frequency_iff
    { configfile := "rsharkd.conf", cfg := defConfig, shark := { sent := [], script := [] } }
    { written := [], script := [] } { defConfig with RedLEDToggle := true } hv
  obtain ⟨hl, hw⟩ := h.2.2.2 rfl rfl
  refine ⟨hv, ?_, ?_⟩
  · rw [h.1, hl]
    rfl
  · exact (hw rfl).1

/-! ## Failures of device writes -/

theorem applyPackets_length (cur config : Config)
    (h1 : ValidateModulation config.Modulation = none)
    (h2 : validateFrequency config.Modulation config.Frequency = none) :
    (applyPackets cur config).length = if frequencyDue cur config = true then 4 else 3 := by
  obtain ⟨t, _, hap⟩ := applyPackets_of_valid cur config h1 h2
  rw [hap]
  cases frequencyDue cur config <;> rfl

/-- C14: on a valid candidate, whatever the outcomes of the device writes,
`Apply` hands every packet of `applyPackets` to the device once and in order
(the frequency packet when due, blue intensity, blue pulse, red LED), so no
failure keeps a later write from being attempted; when a write fails the
result is the aggregate of the errors of all failed writes, in order, and its
message contains the message of each. -/
theorem apply_attempts_every_write (srv : Server) (fs : FileSys) (config : Config)
    (hv : srv.Validate config = none) :
    (srv.Apply fs config).2.1.shark.sent = srv.shark.sent ++ applyPackets srv.cfg config ∧
      (∃ t : Nat, tuningValue config = some t ∧
        applyPackets srv.cfg config
          = (if frequencyDue srv.cfg config = true then
              [frequencyPacketOf
                (decide (config.Modulation = "AM" ∨ config.Modulation = "am")) t]
             else []) ++ ledPackets config) ∧
      (writeFailures srv.shark (applyPackets srv.cfg config).length ≠ [] →
        (srv.Apply fs config).1
          = some (.config
              { errors := writeFailures srv.shark (applyPackets srv.cfg config).length })) ∧
      ∀ e : LeafError, some e ∈ srv.shark.script.take (applyPackets srv.cfg config).length →
        e ∈ writeFailures srv.shark (applyPackets srv.cfg config).length ∧
        e.Error.data <:+:
          (GoError.config
            { errors := writeFailures srv.shark (applyPackets srv.cfg config).length }).Error.data := by
  obtain ⟨hm, hf, _, _⟩ := (validate_eq_none_iff srv config).1 hv
  refine ⟨(apply_sent srv fs config hv).1, applyPackets_of_valid srv.cfg config hm hf,
    fun h => ((apply_result srv fs config hv).2 h).1, ?_⟩
  intro e he
  have hmem : e ∈ writeFailures srv.shark (applyPackets srv.cfg config).length :=
    List.reduceOption_mem_iff.2 he
  exact ⟨hmem, infix_stringsJoin ", " _ _ (List.mem_map_of_mem _ hmem)⟩

/-- C14, at a candidate with a new frequency on a device whose first and third
writes fail: all four packets are handed to the device and both errors are
returned. -/
theorem apply_attempts_every_write_witness :
    Server.Validate
        { configfile := "rsharkd.conf", cfg := emptyConfig,
          shark := { sent := [],
                     script := [some (.external "timeout"), none, some (.external "unplugged")] } }
        defConfig = none ∧
      (Server.Apply
        { configfile := "rsharkd.conf", cfg := emptyConfig,
          shark := { sent := [],
                     script := [some (.external "timeout"), none, some (.external "unplugged")] } }
        { written := [], script := [] } defConfig).2.1.shark.sent
        = [[0xC0, 0x00, 30, 219, 0, 0], [0xA0, 127, 0, 0, 0, 0],
           [0xA1, 0, 0, 0, 0, 0], [0xA8, 0, 0, 0, 0, 0]] ∧
      (Server.Apply
        { configfile := "rsharkd.conf", cfg := emptyConfig,
          shark := { sent := [],
                     script := [some (.external "timeout"), none, some (.external "unplugged")] } }
        { written := [], script := [] } defConfig).1
        = some (.config { errors := [.external "timeout", .external "unplugged"] }) ∧
      (GoError.config { errors := [.external "timeout", .external "unplugged"] }).Error
        = "timeout, unplugged" := by
  have hv : Server.Validate
      { configfile := "rsharkd.conf", cfg := emptyConfig,
        shark := { sent := [],
                   script := [some (.external "timeout"), none, some (.external "unplugged")] } }
      defConfig = none := by decide
  have h := apply_attempts_every_write
    { configfile := "rsharkd.conf", cfg := emptyConfig,
      shark := { sent := [],
                 script := [some (.external "timeout"), none, some (.external "unplugged")] } }
    { written := [], script := [] } defConfig hv
  refine ⟨hv, ?_, ?_, by decide⟩
  · rw [h.1]
    decide
  · rw [h.2.2.1 (by decide)]
    decide

/-! ## Persistence -/

theorem written_append_ne (fs : FileSys) (r : String × Config) :
    fs.written ++ [r] ≠ fs.written := by
  intro h
  have := congrArg List.length h
  simp at this

/-- C15: on a valid candidate `Apply` calls `writeConfig` exactly when no
device write failed.  When every write succeeds the result of `Apply` is the
result of `writeConfig` (its error, or none) and the candidate is the record
written; when a write fails the result is the aggregate of the write errors
and the file system is untouched. -/
theorem apply_persists_iff (srv : Server) (fs : FileSys) (config : Config)
    (hv : srv.Validate config = none) :
    (writeFailures srv.shark (applyPackets srv.cfg config).length = [] →
      (srv.Apply fs config).1 = (writeConfig fs srv.configfile config).1.map GoError.leaf ∧
      (srv.Apply fs config).2.2 = (writeConfig fs srv.configfile config).2 ∧
      (srv.Apply fs config).2.2.written = fs.written ++ [(srv.configfile, config)]) ∧
    (writeFailures srv.shark (applyPackets srv.cfg config).length ≠ [] →
      (srv.Apply fs config).1
        = some (.config
            { errors := writeFailures srv.shark (applyPackets srv.cfg config).length }) ∧
      (srv.Apply fs config).2.2 = fs) ∧
    ((srv.Apply fs config).2.2.written ≠ fs.written ↔
      writeFailures srv.shark (applyPackets srv.cfg config).length = []) := by
  have hr := apply_result srv fs config hv
  refine ⟨?_, hr.2, ?_⟩
  · intro h
    obtain ⟨h1, h2⟩ := hr.1 h
    exact ⟨h1, h2, by rw [h2, writeConfig_written]⟩
  · constructor
    · intro hne
      by_contra hf
      exact hne (by rw [(hr.2 hf).2])
    · intro h
      rw [(hr.1 h).2, writeConfig_written]
      exact written_append_ne fs _

/-- C15, when every device write succeeds and the file cannot be written, and
when the red-LED write fails. -/
theorem apply_persists_iff_witness :
    Server.Apply
        { configfile := "rsharkd.conf", cfg := defConfig, shark := { sent := [], script := [] } }
        { written := [], script := [some (.external "read-only file system")] } defConfig
      = (some (.leaf (.external "read-only file system")),
         { configfile := "rsharkd.conf", cfg := defConfig,
           shark := { sent := [[0xA0, 127, 0, 0, 0, 0], [0xA1, 0, 0, 0, 0, 0],
                               [0xA8, 0, 0, 0, 0, 0]],
                      script := [] } },
         { written := [("rsharkd.conf", defConfig)], script := [] }) ∧
      (Server.Apply
        { configfile := "rsharkd.conf", cfg := defConfig,
          shark := { sent := [], script := [none, none, some (.external "unplugged")] } }
        { written := [], script := [] } defConfig).1
        = some (.config { errors := [.external "unplugged"] }) ∧
      (Server.Apply
        { configfile := "rsharkd.conf", cfg := defConfig,
          shark := { sent := [], script := [none, none, some (.external "unplugged")] } }
        { written := [], script := [] } defConfig).2.2
        = { written := [], script := [] } := by
  have h := apply_persists_iff
    { configfile := "rsharkd.conf", cfg := defConfig,
      shark := { sent := [], script := [none, none, some (.external "unplugged")] } }
    { written := [], script := [] } defConfig (by decide)
  obtain ⟨h1, h2⟩ := h.2.1 (by decide)
  refine ⟨by decide, ?_, h2⟩
  rw [h1]
  decide

/-! ## The held configuration -/

/-- C16: after `Apply` of a valid candidate, `Get` returns the candidate,
whatever the outcomes of the device writes and of `writeConfig`.  When a device
write fails, as when only the blue-pulse write does, `Apply` returns the
aggregate error and `writeConfig` is not called. -/
theorem get_after_apply (srv : Server) (fs : FileSys) (config : Config)
    (hv : srv.Validate config = none) :
    (srv.Apply fs config).2.1.Get = config ∧
      (writeFailures srv.shark (applyPackets srv.cfg config).length ≠ [] →
        (srv.Apply fs config).1
          = some (.config
              { errors := writeFailures srv.shark (applyPackets srv.cfg config).length }) ∧
        (srv.Apply fs config).2.2 = fs) ∧
      (∀ (e : LeafError) (rest : List (Option LeafError)),
        srv.shark.script
          = List.replicate ((applyPackets srv.cfg config).length - 2) none
              ++ some e :: none :: rest →
        (srv.Apply fs config).1 = some (.config { errors := [e] }) ∧
        (srv.Apply fs config).2.2 = fs ∧
        (srv.Apply fs config).2.1.Get = config) := by
  obtain ⟨hm, hf, _, _⟩ := (validate_eq_none_iff srv config).1 hv
  have hg : (srv.Apply fs config).2.1.Get = config := (apply_sent srv fs config hv).2.1
  have hr := apply_result srv fs config hv
  refine ⟨hg, hr.2, ?_⟩
  intro e rest hs
  have hlen := applyPackets_length srv.cfg config hm hf
  have hw : writeFailures srv.shark (applyPackets srv.cfg config).length = [e] := by
    unfold writeFailures
    rw [hs, hlen]
    cases frequencyDue srv.cfg config <;> rfl
  obtain ⟨h1, h2⟩ := hr.2 (by rw [hw]; exact List.cons_ne_nil _ _)
  rw [hw] at h1
  exact ⟨h1, h2, hg⟩

/-- C16, at a candidate with an unchanged frequency on a device whose
blue-pulse write fails. -/
theorem get_after_apply_witness :
    (Server.Apply
        { configfile := "rsharkd.conf", cfg := defConfig,
          shark := { sent := [], script := [none, some (.external "unplugged"), none] } }
        { written := [], script := [] }
        { defConfig with BlueLEDPulseRate := 5 }).2.1.Get
        = { defConfig with BlueLEDPulseRate := 5 } ∧
      (Server.Apply
        { configfile := "rsharkd.conf", cfg := defConfig,
          shark := { sent := [], script := [none, some (.external "unplugged"), none] } }
        { written := [], script := [] }
        { defConfig with BlueLEDPulseRate := 5 }).1
        = some (.config { errors := [.external "unplugged"] }) ∧
      (Server.Apply
        { configfile := "rsharkd.conf", cfg := defConfig,
          shark := { sent := [], script := [none, some (.external "unplugged"), none] } }
        { written := [], script := [] }
        { defConfig with BlueLEDPulseRate := 5 }).2.2
        = { written := [], script := [] } := by
  have h := get_after_apply
    { configfile := "rsharkd.conf", cfg := defConfig,
      shark := { sent := [], script := [none, some (.external "unplugged"), none] } }
    { written := [], script := [] } { defConfig with BlueLEDPulseRate := 5 } (by decide)
  obtain ⟨h1, h2, _⟩ := h.2.2 (.external "unplugged") [] (by decide)
  exact ⟨h.1, h1, h2⟩

/-! ## Applying a configuration twice -/

theorem validate_irrelevant (srv srv' : Server) (config : Config) :
    srv.Validate config = srv'.Validate config := rfl

theorem writeFailures_of_success {shark : RadioShark} (h : ∀ o ∈ shark.script, o = none)
    (n : Nat) : writeFailures shark n = [] := by
  unfold writeFailures
  apply List.eq_nil_iff_forall_not_mem.2
  intro e he
  have h1 : some e ∈ shark.script.take n := List.reduceOption_mem_iff.1 he
  have h2 := h _ (List.mem_of_mem_take h1)
  cases h2

theorem frequencyDue_self (config : Config) : frequencyDue config config = false := by
  simp [frequencyDue]

theorem callWrites_of_valid (srv : Server) (fs : FileSys) (config : Config)
    (hv : srv.Validate config = none) :
    callWrites srv fs config = applyPackets srv.cfg config := by
  unfold callWrites
  rw [(apply_sent srv fs config hv).1]
  exact List.drop_left _ _

theorem callPersisted_of_success (srv : Server) (fs : FileSys) (config : Config)
    (hv : srv.Validate config = none)
    (hw : writeFailures srv.shark (applyPackets srv.cfg config).length = []) :
    callPersisted srv fs config = [(srv.configfile, config)] := by
  unfold callPersisted
  rw [((apply_result srv fs config hv).1 hw).2, writeConfig_written]
  exact List.drop_left _ _

/-- C17 as stated fails: on a new server, which holds the empty configuration,
the first `Apply` of the default configuration sends the frequency packet and
the three LED packets, the second only the three LED packets, with every
device write and both file writes succeeding. -/
theorem apply_twice_differs :
    Server.Validate
        { configfile := "rsharkd.conf", cfg := emptyConfig, shark := { sent := [], script := [] } }
        defConfig = none ∧
      callWrites
        { configfile := "rsharkd.conf", cfg := emptyConfig, shark := { sent := [], script := [] } }
        { written := [], script := [] } defConfig
        = [[0xC0, 0x00, 30, 219, 0, 0], [0xA0, 127, 0, 0, 0, 0], [0xA1, 0, 0, 0, 0, 0],
           [0xA8, 0, 0, 0, 0, 0]] ∧
      callWrites
        (Server.Apply
          { configfile := "rsharkd.conf", cfg := emptyConfig,
            shark := { sent := [], script := [] } }
          { written := [], script := [] } defConfig).2.1
        (Server.Apply
          { configfile := "rsharkd.conf", cfg := emptyConfig,
            shark := { sent := [], script := [] } }
          { written := [], script := [] } defConfig).2.2
        defConfig
        = [[0xA0, 127, 0, 0, 0, 0], [0xA1, 0, 0, 0, 0, 0], [0xA8, 0, 0, 0, 0, 0]] ∧
      ¬ (∀ (srv : Server) (fs : FileSys) (c : Config), srv.Validate c = none →
          srv.shark.script = [] →
          callWrites (srv.Apply fs c).2.1 (srv.Apply fs c).2.2 c = callWrites srv fs c) := by
  refine ⟨by decide, by decide, by decide, ?_⟩
  intro h
  have h1 := h
    { configfile := "rsharkd.conf", cfg := emptyConfig, shark := { sent := [], script := [] } }
    { written := [], script := [] } defConfig (by decide) rfl
  revert h1
  decide

/-- C17, amended: when a valid configuration `c` is applied twice in succession
and every device write succeeds, both calls send the same three LED packets
and hand the same record to `writeConfig`; the second call sends nothing else,
and the first call sends the frequency packet before them when the modulation
or the frequency of `c` differs from the configuration held before.  So the
two calls make the same device writes exactly when `c` has the modulation and
frequency held before the first call. -/
theorem apply_twice (srv : Server) (fs : FileSys) (c : Config)
    (hv : srv.Validate c = none) (hs : ∀ o ∈ srv.shark.script, o = none) :
    (∃ t : Nat, tuningValue c = some t ∧
      callWrites srv fs c
        = (if frequencyDue srv.cfg c = true then
            [frequencyPacketOf (decide (c.Modulation = "AM" ∨ c.Modulation = "am")) t]
           else []) ++ ledPackets c) ∧
      callWrites (srv.Apply fs c).2.1 (srv.Apply fs c).2.2 c = ledPackets c ∧
      callPersisted srv fs c = [(srv.configfile, c)] ∧
      callPersisted (srv.Apply fs c).2.1 (srv.Apply fs c).2.2 c = [(srv.configfile, c)] ∧
      (callWrites (srv.Apply fs c).2.1 (srv.Apply fs c).2.2 c = callWrites srv fs c ↔
        srv.cfg.Modulation = c.Modulation ∧ srv.cfg.Frequency = c.Frequency) := by
  obtain ⟨hm, hf, _, _⟩ := (validate_eq_none_iff srv c).1 hv
  obtain ⟨t, ht, hap⟩ := applyPackets_of_valid srv.cfg c hm hf
  obtain ⟨_, hcfg, hfile, hscript⟩ := apply_sent srv fs c hv
  have hv' : (srv.Apply fs c).2.1.Validate c = none := hv
  have hs' : ∀ o ∈ (srv.Apply fs c).2.1.shark.script, o = none := by
    intro o ho
    rw [hscript] at ho
    exact hs o (List.mem_of_mem_drop ho)
  have hw1 := callWrites_of_valid srv fs c hv
  have hw2 : callWrites (srv.Apply fs c).2.1 (srv.Apply fs c).2.2 c = ledPackets c := by
    rw [callWrites_of_valid _ _ c hv', hcfg, applyPackets_eq, frequencyDue_self]
    rfl
  have hp1 := callPersisted_of_success srv fs c hv (writeFailures_of_success hs _)
  have hp2 := callPersisted_of_success (srv.Apply fs c).2.1 (srv.Apply fs c).2.2 c hv'
    (writeFailures_of_success hs' _)
  rw [hfile] at hp2
  refine ⟨⟨t, ht, by rw [hw1, hap]⟩, hw2, hp1, hp2, ?_⟩
  rw [hw2, hw1, hap]
  cases hd : frequencyDue srv.cfg c
  · have hnd : ¬ (srv.cfg.Modulation ≠ c.Modulation ∨ srv.cfg.Frequency ≠ c.Frequency) := by
      intro h
      have := (frequencyDue_iff srv.cfg c).2 h
      rw [hd] at this
      cases this
    have he : srv.cfg.Modulation = c.Modulation ∧ srv.cfg.Frequency = c.Frequency := by
      constructor
      · by_contra h; exact hnd (Or.inl h)
      · by_contra h; exact hnd (Or.inr h)
    simp [he]
  · have hne := (frequencyDue_iff srv.cfg c).1 hd
    constructor
    · intro h
      have := congrArg List.length h
      simp [ledPackets] at this
    · rintro ⟨e1, e2⟩
      rcases hne with h | h
      · exact absurd e1 h
      · exact absurd e2 h

/-- C17, amended, on a new server and the default configuration: four packets,
then three, the same record both times. -/
theorem apply_twice_witness :
    callWrites
        (Server.Apply
          { configfile := "rsharkd.conf", cfg := emptyConfig,
            shark := { sent := [], script := [] } }
          { written := [], script := [] } defConfig).2.1
        (Server.Apply
          { configfile := "rsharkd.conf", cfg := emptyConfig,
            shark := { sent := [], script := [] } }
          { written := [], script := [] } defConfig).2.2
        defConfig
        = [[0xA0, 127, 0, 0, 0, 0], [0xA1, 0, 0, 0, 0, 0], [0xA8, 0, 0, 0, 0, 0]] ∧
      callPersisted
        { configfile := "rsharkd.conf", cfg := emptyConfig, shark := { sent := [], script := [] } }
        { written := [], script := [] } defConfig
        = [("rsharkd.conf", defConfig)] ∧
      callPersisted
        (Server.Apply
          { configfile := "rsharkd.conf", cfg := emptyConfig,
            shark := { sent := [], script := [] } }
          { written := [], script := [] } defConfig).2.1
        (Server.Apply
          { configfile := "rsharkd.conf", cfg := emptyConfig,
            shark := { sent := [], script := [] } }
          { written := [], script := [] } defConfig).2.2
        defConfig
        = [("rsharkd.conf", defConfig)] := by
  have h := apply_twice
    { configfile := "rsharkd.conf", cfg := emptyConfig, shark := { sent := [], script := [] } }
    { written := [], script := [] } defConfig (by decide) (by decide)
  exact ⟨h.2.1, h.2.2.1, h.2.2.2.1⟩

/-! ## Startup -/

theorem frequencyDue_empty (config : Config)
    (h : ValidateModulation config.Modulation = none) :
    frequencyDue emptyConfig config = true := by
  apply (frequencyDue_iff emptyConfig config).2
  left
  rcases validateModulation_none h with h | h | h | h <;> rw [h] <;> decide

theorem newServer_ok {config : String} {decoded : Option Config} {dev : RadioShark}
    {fs fs' : FileSys} {srv : Server}
    (h : NewServer config decoded (.ok dev) fs = (.ok srv, fs')) :
    srv = ((Server.mk config emptyConfig dev).Apply fs (readConfig decoded)).2.1 ∧
      ((Server.mk config emptyConfig dev).Apply fs (readConfig decoded)).1 = none := by
  unfold NewServer at h
  simp only at h
  split at h
  · rename_i err s1 f1 heq
    cases h
  · rename_i s1 f1 heq
    injection h with h1 h2
    injection h1 with h1
    rw [heq]
    exact ⟨h1.symm, rfl⟩

/-- C18: the default configuration `{FM, "88.0", 127, 0, false}`, which
`readConfig` falls back to, passes `Validate`; and for every configuration that
passes `Validate`, `Apply` on a new server, which holds the empty
configuration, sends all four packets: the frequency packet first, then blue
intensity, blue pulse and red LED.  These are the packets the device has
received when `NewServer` returns a server. -/
theorem startup_pushes_configuration (config : String) (dev : RadioShark) (fs : FileSys)
    (cfg : Config) :
    readConfig none = defConfig ∧
      defConfig = { Modulation := "FM", Frequency := "88.0", BlueLEDIntensity := 127,
                    BlueLEDPulseRate := 0, RedLEDToggle := false } ∧
      Server.Validate { configfile := config, cfg := emptyConfig, shark := dev } defConfig
        = none ∧
      (Server.Validate { configfile := config, cfg := emptyConfig, shark := dev } cfg = none →
        ∃ t : Nat, tuningValue cfg = some t ∧
          (Server.Apply { configfile := config, cfg := emptyConfig, shark := dev } fs cfg).2.1.shark.sent
            = dev.sent ++
              [frequencyPacketOf (decide (cfg.Modulation = "AM" ∨ cfg.Modulation = "am")) t,
               [0xA0, cfg.BlueLEDIntensity, 0, 0, 0, 0],
               [0xA1, cfg.BlueLEDPulseRate, 0, 0, 0, 0],
               if cfg.RedLEDToggle then [0xA9, 1, 0, 0, 0, 0] else [0xA8, 0, 0, 0, 0, 0]] ∧
          ∀ (srv : Server) (fs' : FileSys),
            NewServer config (some cfg) (.ok dev) fs = (.ok srv, fs') →
            srv.cfg = cfg ∧
            srv.shark.sent
              = dev.sent ++
                [frequencyPacketOf (decide (cfg.Modulation = "AM" ∨ cfg.Modulation = "am")) t,
                 [0xA0, cfg.BlueLEDIntensity, 0, 0, 0, 0],
                 [0xA1, cfg.BlueLEDPulseRate, 0, 0, 0, 0],
                 if cfg.RedLEDToggle then [0xA9, 1, 0, 0, 0, 0]
                 else [0xA8, 0, 0, 0, 0, 0]]) := by
  refine ⟨rfl, rfl, ?_, ?_⟩
  · rw [validate_eq_none_iff]
    decide
  · intro hv
    obtain ⟨hm, hf, _, _⟩ :=
      (validate_eq_none_iff { configfile := config, cfg := emptyConfig, shark := dev } cfg).1 hv
    obtain ⟨t, ht, hap⟩ := applyPackets_of_valid emptyConfig cfg hm hf
    rw [frequencyDue_empty cfg hm] at hap
    obtain ⟨hsent, hcfg, _, _⟩ :=
      apply_sent { configfile := config, cfg := emptyConfig, shark := dev } fs cfg hv
    have hs : (Server.Apply { configfile := config, cfg := emptyConfig, shark := dev } fs
        cfg).2.1.shark.sent
        = dev.sent ++
          [frequencyPacketOf (decide (cfg.Modulation = "AM" ∨ cfg.Modulation = "am")) t,
           [0xA0, cfg.BlueLEDIntensity, 0, 0, 0, 0],
           [0xA1, cfg.BlueLEDPulseRate, 0, 0, 0, 0],
           if cfg.RedLEDToggle then [0xA9, 1, 0, 0, 0, 0] else [0xA8, 0, 0, 0, 0, 0]] := by
      rw [hsent]
      show dev.sent ++ applyPackets emptyConfig cfg = _
      rw [hap]
      rfl
    refine ⟨t, ht, hs, ?_⟩
    intro srv fs' hn
    obtain ⟨h1, _⟩ := newServer_ok hn
    have h1' : srv = (Server.Apply { configfile := config, cfg := emptyConfig, shark := dev }
        fs cfg).2.1 := h1
    rw [h1']
    exact ⟨hcfg, hs⟩

/-- C18, at the default configuration on a fresh device with no readable file. -/
theorem startup_pushes_configuration_witness :
    NewServer "rsharkd.conf" none (.ok { sent := [], script := [] }) { written := [], script := [] }
      = (.ok { configfile := "rsharkd.conf", cfg := defConfig,
               shark := { sent := [[0xC0, 0x00, 30, 219, 0, 0], [0xA0, 127, 0, 0, 0, 0],
                                   [0xA1, 0, 0, 0, 0, 0], [0xA8, 0, 0, 0, 0, 0]],
                          script := [] } },
         { written := [("rsharkd.conf", defConfig)], script := [] }) ∧
      (Server.Apply
        { configfile := "rsharkd.conf", cfg := emptyConfig, shark := { sent := [], script := [] } }
        { written := [], script := [] } defConfig).2.1.shark.sent
        = [[0xC0, 0x00, 30, 219, 0, 0], [0xA0, 127, 0, 0, 0, 0],
           [0xA1, 0, 0, 0, 0, 0], [0xA8, 0, 0, 0, 0, 0]] := by
  obtain ⟨_, _, hv, h⟩ := startup_pushes_configuration "rsharkd.conf"
    { sent := [], script := [] } { written := [], script := [] } defConfig
  obtain ⟨t, ht, hs, _⟩ := h hv
  have ht' : t = 7899 := by
    have : tuningValue defConfig = some 7899 := by decide
    rw [this] at ht
    injection ht with ht
    exact ht.symm
  subst ht'
  exact ⟨by decide, hs⟩

/-! ## Validation and the guards of the setters -/

theorem toOption_eq_some {ε α : Type} {x : Except ε α} {a : α}
    (h : x.toOption = some a) : x = .ok a := by
  cases x with
  | error e => cases h
  | ok b =>
    simp only [Except.toOption, Option.some.injEq] at h
    rw [h]

theorem tuningValue_some {config : Config} {t : Nat} (h : tuningValue config = some t) :
    (config.Modulation = "FM" ∨ config.Modulation = "fm") ∧
        ParseFMFrequency config.Frequency = .ok t ∨
      (config.Modulation = "AM" ∨ config.Modulation = "am") ∧
        ParseAMFrequency config.Frequency = .ok t := by
  unfold tuningValue at h
  by_cases hfm : config.Modulation = "FM" ∨ config.Modulation = "fm"
  · simp only [hfm, if_true] at h
    exact Or.inl ⟨hfm, toOption_eq_some h⟩
  · simp only [hfm, if_false] at h
    by_cases ham : config.Modulation = "AM" ∨ config.Modulation = "am"
    · simp only [ham, if_true] at h
      exact Or.inr ⟨ham, toOption_eq_some h⟩
    · simp only [ham, if_false] at h
      cases h

/-- C19: on a configuration `Validate` accepts, `SetFrequency`,
`SetBlueLEDIntensity` and `SetBlueLEDPulse` pass their own validation and
parsing, so the result of each is the result of its device write.  Every error
in the aggregate `Apply` returns is therefore the outcome of a device write,
and the frequency packet, when sent, carries the tuning value `t` that
`ParseFMFrequency` or `ParseAMFrequency` returns for the frequency. -/
theorem validate_subsumes_guards (srv : Server) (fs : FileSys) (config : Config)
    (hv : srv.Validate config = none) :
    ∃ t : Nat,
      ((config.Modulation = "FM" ∨ config.Modulation = "fm") ∧
          ParseFMFrequency config.Frequency = .ok t ∨
        (config.Modulation = "AM" ∨ config.Modulation = "am") ∧
          ParseAMFrequency config.Frequency = .ok t) ∧
      (∀ shark : RadioShark,
        shark.SetFrequency config.Modulation config.Frequency
          = shark.writeHIDPacket
              [0xC0, if config.Modulation = "AM" ∨ config.Modulation = "am" then 0x12 else 0x00,
               t / 256, t % 256, 0, 0]) ∧
      256 * (t / 256) + t % 256 = t ∧ t / 256 < 256 ∧
      (∀ shark : RadioShark,
        shark.SetBlueLEDIntensity config.BlueLEDIntensity
          = shark.writeHIDPacket [0xA0, config.BlueLEDIntensity, 0, 0, 0, 0]) ∧
      (∀ shark : RadioShark,
        shark.SetBlueLEDPulse config.BlueLEDPulseRate
          = shark.writeHIDPacket [0xA1, config.BlueLEDPulseRate, 0, 0, 0, 0]) ∧
      (∀ errs : List LeafError, (srv.Apply fs config).1 = some (.config { errors := errs }) →
        ∀ e ∈ errs, some e ∈ srv.shark.script) ∧
      (srv.cfg.Modulation ≠ config.Modulation ∨ srv.cfg.Frequency ≠ config.Frequency →
        (srv.Apply fs config).2.1.shark.sent
          = srv.shark.sent ++
            [0xC0, if config.Modulation = "AM" ∨ config.Modulation = "am" then 0x12 else 0x00,
             t / 256, t % 256, 0, 0] :: ledPackets config) := by
  obtain ⟨hm, hf, hi, hp⟩ := (validate_eq_none_iff srv config).1 hv
  obtain ⟨t, ht, htlt, hpk, hset⟩ := setFrequency_of_valid config hm hf
  have hfp : frequencyPacketOf (decide (config.Modulation = "AM" ∨ config.Modulation = "am")) t
      = [0xC0, if config.Modulation = "AM" ∨ config.Modulation = "am" then 0x12 else 0x00,
         t / 256, t % 256, 0, 0] := by
    unfold frequencyPacketOf
    by_cases h : config.Modulation = "AM" ∨ config.Modulation = "am" <;> simp [h]
  refine ⟨t, tuningValue_some ht, ?_, by omega, by omega,
    fun shark => setBlueLEDIntensity_of_le shark hi,
    fun shark => setBlueLEDPulse_of_le shark hp, ?_, ?_⟩
  · intro shark
    rw [hset shark, hfp]
  · intro errs he e hmem
    by_cases hw : writeFailures srv.shark (applyPackets srv.cfg config).length = []
    · exfalso
      rw [((apply_result srv fs config hv).1 hw).1] at he
      cases hc : (writeConfig fs srv.configfile config).1 with
      | none => rw [hc] at he; cases he
      | some x =>
        rw [hc] at he
        simp only [Option.map_some', Option.some.injEq] at he
        cases he
    · rw [((apply_result srv fs config hv).2 hw).1] at he
      simp only [Option.some.injEq, GoError.config.injEq, configError.mk.injEq] at he
      rw [← he] at hmem
      exact List.mem_of_mem_take (List.reduceOption_mem_iff.1 hmem)
  · intro hne
    have hd := (frequencyDue_iff srv.cfg config).2 hne
    rw [(apply_sent srv fs config hv).1, applyPackets_eq, hd, hpk, hfp]
    rfl

/-- C19, at an AM candidate on a device whose frequency write fails. -/
theorem validate_subsumes_guards_witness :
    Server.Validate
        { configfile := "rsharkd.conf", cfg := defConfig,
          shark := { sent := [], script := [some (.external "unplugged")] } }
        { defConfig with Modulation := "AM", Frequency := "600" } = none ∧
      ParseAMFrequency "600" = .ok 1050 ∧
      Server.Apply
        { configfile := "rsharkd.conf", cfg := defConfig,
          shark := { sent := [], script := [some (.external "unplugged")] } }
        { written := [], script := [] }
        { defConfig with Modulation := "AM", Frequency := "600" }
      = (some (.config { errors := [.external "unplugged"] }),
         { configfile := "rsharkd.conf",
           cfg := { defConfig with Modulation := "AM", Frequency := "600" },
           shark := { sent := [[0xC0, 0x12, 0x04, 0x1A, 0, 0], [0xA0, 127, 0, 0, 0, 0],
                               [0xA1, 0, 0, 0, 0, 0], [0xA8, 0, 0, 0, 0, 0]],
                      script := [] } },
         { written := [], script := [] }) ∧
      ∃ t : Nat, ∀ shark : RadioShark,
        shark.SetFrequency "AM" "600"
          = shark.writeHIDPacket [0xC0, 0x12, t / 256, t % 256, 0, 0] := by
  have hv : Server.Validate
      { configfile := "rsharkd.conf", cfg := defConfig,
        shark := { sent := [], script := [some (.external "unplugged")] } }
      { defConfig with Modulation := "AM", Frequency := "600" } = none := by decide
  obtain ⟨t, _, h2, _⟩ := validate_subsumes_guards
    { configfile := "rsharkd.conf", cfg := defConfig,
      shark := { sent := [], script := [some (.external "unplugged")] } }
    { written := [], script := [] }
    { defConfig with Modulation := "AM", Frequency := "600" } hv
  exact ⟨hv, by decide, by decide, t, h2⟩

end Radioshark
